import Mathlib

/-!
# SIMPL-2021 compiler front end: hash table, symbol table, scanner

A shallow embedding of `hashtable.c`, `symboltable.c`, `valtypes.h` and
`scanner.c`, with the properties proved about them.

Modelling conventions.
* A C pointer to a chain of `HTentry` nodes is the list of its `(key, value)`
  pairs in chain order; the bucket array is a list of chains.  Freshly
  allocated bucket arrays are taken to hold null pointers.
* `malloc` never fails, so `HASH_TABLE_NO_SPACE_FOR_NODE` is never returned.
* A `float` is the rational number it denotes; a conversion to `float` and the
  `float` division of `ht_insert` round to the nearest binary32 value, ties to
  the even significand (`to_float`).
* Sizes are those of an LP64 machine: a pointer has 8 bytes, a `HTentry` 24,
  and an `int` 32 bits in two's complement.
* A read outside an array (a bucket index at or past the table size, an index
  past the end of `delta`) is a fault: the operation yields `none`.
* Storage from `malloc` is taken to hold zero bytes; an automatic variable
  declared without initialiser has no value the program determines, and a read
  of it is a fault.
-/

set_option autoImplicit false

namespace Simpl

/-! ## hashtable.c -/

/-- The value of `EXIT_SUCCESS` from `stdlib.h`. -/
def EXIT_SUCCESS : Int := 0

/-- Modelled from the spec: `hashtable.h` is not among the sources; the spec
names the duplicate-key failure `KEY_VALUE_PAIR_EXISTS`, a dedicated return
code, here a value different from `EXIT_SUCCESS`. -/
def HASH_TABLE_KEY_VALUE_PAIR_EXISTS : Int := -1

/-- The constant `INITIAL_DELTA_INDEX`. -/
def INITIAL_DELTA_INDEX : Nat := 4

/-- The array `delta`: differences between a power of two and the largest
prime below it. -/
def delta : List Nat :=
  [0, 0, 1, 1, 3, 1, 3, 1, 5, 3, 3, 9, 3, 1, 3, 19,
   15, 1, 5, 1, 3, 9, 3, 15, 3, 39, 5, 39, 57, 3, 35, 1]

/-- The macro `MAX_IDX`, the number of elements of `delta`. -/
def MAX_IDX : Nat := delta.length

/-- The expression `(1 << i) - delta[i]` of `ht_init` and `getsize`; a fault
when `i` is not an index of `delta`. -/
def prime_size (i : Nat) : Option Nat :=
  if i < MAX_IDX then some (2 ^ i - delta.getD i 0) else none

/-- The conversion of a value to `int`, as a two's complement machine does it. -/
def wrap32 (x : Int) : Int := (x + 2147483648) % 4294967296 - 2147483648

/-- The quotient `N / D` rounded to the nearest integer, a tie to the even
one. -/
def round_half_even (N D : Nat) : Nat :=
  let f := N / D
  let r := N % D
  if 2 * r < D then f
  else if D < 2 * r then f + 1
  else if f % 2 = 0 then f
  else f + 1

/-- The number of halvings that take `n` below 2, at most `fuel` of them. -/
def log2_fuel : Nat → Nat → Nat
  | 0, _ => 0
  | fuel + 1, n => if n < 2 then 0 else log2_fuel fuel (n / 2) + 1

/-- The position of the highest set bit of `n`: the largest `k` with
`2 ^ k ≤ n`, for `n` above 0. -/
def ilog2 (n : Nat) : Nat := log2_fuel n n

/-- The rounding of a conversion to `float` and of a `float` operation: the
binary32 value nearest to the rational `q`, with a significand of 24 bits, a
tie going to the even significand.  Only values `q ≥ 0` occur, and no exponent
outside the range of the normal numbers occurs for an `unsigned int` or for
the quotient of two of them. -/
def to_float (q : ℚ) : ℚ :=
  let a := q.num.toNat
  let b := q.den
  if a = 0 then 0
  else
    let M := a * 2 ^ (ilog2 b + 24)
    let D := b * 2 ^ ilog2 a
    if M < 2 ^ 24 * D then
      ((round_half_even M D * 2 ^ ilog2 a : Nat) : ℚ) / ((2 ^ (ilog2 b + 24) : Nat) : ℚ)
    else
      ((round_half_even M (2 * D) * (2 * 2 ^ ilog2 a) : Nat) : ℚ) /
        ((2 ^ (ilog2 b + 24) : Nat) : ℚ)

/-- The local `loadfactor` of `ht_insert`:
`(float)ht->num_entries / (float)ht->size`. -/
def float_load (num_entries size : Nat) : ℚ :=
  to_float (to_float (num_entries : ℚ) / to_float (size : ℚ))

/-- The value of `sizeof(HTentry)`: three pointers. -/
def SIZEOF_HTENTRY : Nat := 24

/-- The size of a pointer, an element of the bucket array. -/
def SIZEOF_POINTER : Nat := 8

/-- The call `talloc(sizeof(HTentry) * new_size)` of `rehash`: whether it
returns a bucket array that holds `new_size` pointers.  The product, a
`size_t`, is converted to the `int` parameter `tsize`; with a negative `tsize`
the request to `emalloc` is not one that can be served, and with a `tsize`
below the bytes of `new_size` pointers the loops of `rehash` run past the end
of the array. -/
def talloc (new_size : Nat) : Bool :=
  let tsize := wrap32 ((SIZEOF_HTENTRY * new_size : Nat) : Int)
  decide (0 ≤ tsize ∧ ((SIZEOF_POINTER * new_size : Nat) : Int) ≤ tsize)

/-- The struct `hashtab`: a bucket array of chains, the size, the entry count,
the maximum load factor, the index into `delta`, and the two function
pointers. -/
structure HashTab (K V : Type) where
  table : List (List (K × V))
  size : Nat
  num_entries : Nat
  max_loadfactor : ℚ
  idx : Nat
  hash : K → Nat → Nat
  cmp : K → K → Int

/-- The function `ht_init`: index 4, size `(1 << 4) - delta[4]`, no entries. -/
def ht_init {K V : Type} (loadfactor : ℚ) (hash : K → Nat → Nat)
    (cmp : K → K → Int) : HashTab K V :=
  let idx := INITIAL_DELTA_INDEX
  let size := 2 ^ idx - delta.getD idx 0
  { table := List.replicate size [], size := size, num_entries := 0,
    max_loadfactor := loadfactor, idx := idx, hash := hash, cmp := cmp }

/-- The chain walk of `ht_insert` on a bucket: `none` when a node holds a key
that compares equal to the new key, otherwise the chain with the new node
linked after its last node (or as its only node when the bucket is empty). -/
def chain_insert {K V : Type} (cmp : K → K → Int) (key : K) (value : V) :
    List (K × V) → Option (List (K × V))
  | [] => some [(key, value)]
  | h :: rest =>
    if cmp h.1 key = 0 then none
    else (chain_insert cmp key value rest).map (fun c => h :: c)

/-- The body of `ht_insert`, with the call of `rehash` as a parameter.  The
entry count is incremented before the chain is walked, and the duplicate-key
return comes before the load-factor test, which divides and compares in
`float`. -/
def ht_insert_core {K V : Type} (rehash : HashTab K V → Option (HashTab K V))
    (ht : HashTab K V) (key : K) (value : V) : Option (Int × HashTab K V) :=
  let k := ht.hash key ht.size
  if k < ht.table.length then
    let ht1 := { ht with num_entries := (ht.num_entries + 1) % 4294967296 }
    match chain_insert ht.cmp key value (ht.table.getD k []) with
    | none => some (HASH_TABLE_KEY_VALUE_PAIR_EXISTS, ht1)
    | some c =>
      let ht2 := { ht1 with table := ht1.table.set k c }
      if float_load ht2.num_entries ht2.size > ht2.max_loadfactor then
        (rehash ht2).map (fun h => (EXIT_SUCCESS, h))
      else some (EXIT_SUCCESS, ht2)
  else none

/-- The function `getsize`: the size at the next index of `delta`. -/
def getsize {K V : Type} (ht : HashTab K V) : Option Nat :=
  prime_size (ht.idx + 1)

/-- The auxiliary table `rh` as `rehash` sets it up before its loop: fresh
buckets, no entries, the configuration of `ht` at the next index. -/
def rehash_aux {K V : Type} (ht : HashTab K V) (new_size : Nat) : HashTab K V :=
  { table := List.replicate new_size [], num_entries := 0,
    max_loadfactor := ht.max_loadfactor, idx := ht.idx + 1,
    hash := ht.hash, cmp := ht.cmp, size := new_size }

/-- The body of `rehash`, with the call of `ht_insert` as a parameter: the
two bucket arrays are allocated with `talloc`, every entry of the old buckets
is inserted into the auxiliary table `rh` (the return code is dropped), then
the first `new_size` buckets of `rh` become the buckets of `ht`.  The entry
count of `ht` is not touched. -/
def rehash_core {K V : Type}
    (insert : HashTab K V → K → V → Option (Int × HashTab K V))
    (ht : HashTab K V) : Option (HashTab K V) :=
  let old_size := ht.size
  match getsize ht with
  | none => none
  | some new_size =>
    if talloc new_size = true then
      match (ht.table.take old_size).flatten.foldlM
          (fun rh p => (insert rh p.1 p.2).map Prod.snd) (rehash_aux ht new_size) with
      | none => none
      | some rh =>
        some { ht with idx := ht.idx + 1, size := new_size,
                       table := rh.table.take new_size }
    else none

/-- The mutual recursion of `ht_insert` and `rehash`, unrolled `n` levels of
nested rehashing deep. -/
def ht_insert_fuel {K V : Type} :
    Nat → HashTab K V → K → V → Option (Int × HashTab K V)
  | 0 => ht_insert_core (fun _ => none)
  | n + 1 => ht_insert_core (rehash_core (ht_insert_fuel n))

/-- The function `ht_insert`.  Every nested rehash moves one index up in
`delta`, which has 32 elements, so 32 levels are never exhausted before
`getsize` or `talloc` faults. -/
def ht_insert {K V : Type} (ht : HashTab K V) (key : K) (value : V) :
    Option (Int × HashTab K V) :=
  ht_insert_fuel MAX_IDX ht key value

/-- The function `rehash`. -/
def rehash {K V : Type} (ht : HashTab K V) : Option (HashTab K V) :=
  rehash_core (ht_insert_fuel MAX_IDX) ht

/-- The loop of `ht_search` over a chain: the value of the first node whose
key compares equal to the searched key. -/
def chain_search {K V : Type} (cmp : K → K → Int) (key : K) :
    List (K × V) → Option V
  | [] => none
  | p :: rest => if cmp key p.1 = 0 then some p.2 else chain_search cmp key rest

/-- The function `ht_search`: `some (some v)` for `TRUE` with `*value = v`,
`some none` for `FALSE`, and `none` for a bucket index outside the table. -/
def ht_search {K V : Type} (ht : HashTab K V) (key : K) : Option (Option V) :=
  let k := ht.hash key ht.size
  if k < ht.table.length then some (chain_search ht.cmp key (ht.table.getD k []))
  else none

/-! ## valtypes.h -/

/-- The enumerator `TYPE_NONE` of `ValType`. -/
def TYPE_NONE : Nat := 0
/-- The enumerator `TYPE_ARRAY` of `ValType`. -/
def TYPE_ARRAY : Nat := 1
/-- The enumerator `TYPE_BOOLEAN` of `ValType`. -/
def TYPE_BOOLEAN : Nat := 2
/-- The enumerator `TYPE_INTEGER` of `ValType`. -/
def TYPE_INTEGER : Nat := 4
/-- The enumerator `TYPE_CALLABLE` of `ValType`. -/
def TYPE_CALLABLE : Nat := 8

/-- The macro `IS_ARRAY_TYPE`: `(type) == TYPE_ARRAY`. -/
def IS_ARRAY_TYPE (type : Nat) : Bool := type == TYPE_ARRAY
/-- The macro `IS_BOOLEAN_TYPE`: `(type) == TYPE_BOOLEAN`. -/
def IS_BOOLEAN_TYPE (type : Nat) : Bool := type == TYPE_BOOLEAN
/-- The macro `IS_CALLABLE_TYPE`: `(type) == TYPE_CALLABLE`. -/
def IS_CALLABLE_TYPE (type : Nat) : Bool := type == TYPE_CALLABLE
/-- The macro `IS_INTEGER_TYPE`: `(type) == TYPE_INTEGER`. -/
def IS_INTEGER_TYPE (type : Nat) : Bool := type == TYPE_INTEGER
/-- The macro `IS_ARRAY`. -/
def IS_ARRAY (type : Nat) : Bool := IS_ARRAY_TYPE type && !IS_CALLABLE_TYPE type
/-- The macro `IS_VARIABLE`. -/
def IS_VARIABLE (type : Nat) : Bool :=
  IS_ARRAY_TYPE type || IS_BOOLEAN_TYPE type || IS_INTEGER_TYPE type
/-- The macro `SET_AS_ARRAY`: `(type) |= TYPE_ARRAY`, as the new value. -/
def SET_AS_ARRAY (type : Nat) : Nat := type ||| TYPE_ARRAY
/-- The macro `SET_AS_CALLABLE`: `(type) |= TYPE_CALLABLE`, as the new value. -/
def SET_AS_CALLABLE (type : Nat) : Nat := type ||| TYPE_CALLABLE

/-! ## symboltable.c -/

/-- Modelled from the spec: `boolean.h` is not among the sources; `FALSE` is
the C truth value zero, as `!find_name(...)` and `!found` require. -/
def FALSE : Int := 0

/-- Modelled from the spec: `boolean.h` is not among the sources; `TRUE` is a
nonzero C truth value, as `found && ...` requires. -/
def TRUE : Int := 1

/-- Modelled from the spec: `symboltable.h` is not among the sources; the spec
gives the identifier property as `{ type, offset, nparams, params }`. -/
structure IDprop where
  type : Nat
  offset : Nat
  nparams : Nat
  params : List Nat
deriving DecidableEq, Repr

/-- The bytes of an ASCII string literal: a C string without its terminator. -/
def bytes (s : String) : List Nat := s.toList.map Char.toNat

/-- The library function `strcmp` on strings of bytes; only the sign of the
result is fixed by the C standard, here it is `-1`, `0` or `1`. -/
def strcmp : List Nat → List Nat → Int
  | [], [] => 0
  | [], _ :: _ => -1
  | _ :: _, [] => 1
  | a :: as, b :: bs => if a < b then -1 else if b < a then 1 else strcmp as bs

/-- The function `key_strcmp`. -/
def key_strcmp (val1 val2 : List Nat) : Int := strcmp val1 val2

/-- The loop body of `shift_hash` in `unsigned int` arithmetic:
`hash = (hash << 5) | (hash >> 27); hash += keystr[i]`. -/
def shift_step (hash : Nat) (c : Nat) : Nat :=
  ((((hash * 32) % 4294967296) ||| (hash / 134217728)) + c) % 4294967296

/-- The function `shift_hash` on a key of ASCII bytes. -/
def shift_hash (key : List Nat) (size : Nat) : Nat :=
  (key.foldl shift_step 0) % size

/-- The global variables of `symboltable.c`, and the hash tables allocated so
far: a pointer is the index of its table in `heap`, a freed table is `none`,
and the null pointer is `none`.  A table holds pointers to `IDprop` objects,
here the objects themselves, and two fields record what the copies cannot
show: `shared` lists the identifiers of the current table whose entry holds
the very object that the saved table holds for the same identifier
(`insert_name` stores the pointer that `find_name` took from the saved table),
and `freed` lists the entries, as table and identifier, whose object
`close_subroutine` has freed.  Every caller hands `insert_name` an object and
a key of its own, as `make_idprop` and `expect_id` allocate them. -/
structure SymbolTable where
  heap : List (Option (HashTab (List Nat) IDprop))
  table : Option Nat
  saved_table : Option Nat
  curr_offset : Nat
  shared : List (List Nat) := []
  freed : List (Nat × List Nat) := []

/-- The table a pointer refers to; a fault for a null pointer and for a
pointer to a freed table. -/
def deref (st : SymbolTable) (p : Option Nat) :
    Option (HashTab (List Nat) IDprop) :=
  p.bind (fun a => st.heap.getD a none)

/-- The allocation of a table by `ht_init(0.75f, shift_hash, key_strcmp)`. -/
def new_table : HashTab (List Nat) IDprop := ht_init (3 / 4) shift_hash key_strcmp

/-- The function `init_symbol_table`, at program start. -/
def init_symbol_table : SymbolTable :=
  { heap := [some new_table], table := some 0, saved_table := none,
    curr_offset := 1 }

/-- The entry of the table at `p` for `id` holds an object that was freed. -/
def dangling (st : SymbolTable) (p : Option Nat) (id : List Nat) : Bool :=
  match p with
  | some a => decide ((a, id) ∈ st.freed)
  | none => false

/-- The function `find_name`: the returned `Boolean` and the value of `*prop`
after the call, which `ht_search` overwrites on every hit, also on a hit in the
saved table that is then reported as `FALSE`.  A hit on an entry whose object
was freed hands out a pointer to freed storage, which the saved-table branch
dereferences at once: a fault. -/
def find_name (st : SymbolTable) (id : List Nat) (prop : IDprop) :
    Option (Int × IDprop) :=
  (deref st st.table).bind fun t =>
  (ht_search t id).bind fun r =>
  if r.isSome ∧ dangling st st.table id = true then none
  else
    let found := if r.isSome then TRUE else FALSE
    let prop1 := r.getD prop
    if found = 0 ∧ st.saved_table ≠ none then
      (deref st st.saved_table).bind fun s =>
      (ht_search s id).bind fun r2 =>
      if r2.isSome ∧ dangling st st.saved_table id = true then none
      else
        let found2 := if r2.isSome then TRUE else FALSE
        let prop2 := r2.getD prop1
        if found2 ≠ 0 ∧ IS_CALLABLE_TYPE prop2.type = false then some (FALSE, prop2)
        else some (found2, prop2)
    else some (found, prop1)

/-- Whether `find_name` takes the pointer it leaves in `*prop` from the saved
table: the current table misses `id` and the saved table holds it. -/
def saved_hit (st : SymbolTable) (id : List Nat) : Bool :=
  match (deref st st.table).bind fun t => ht_search t id with
  | some none =>
    match (deref st st.saved_table).bind fun s => ht_search s id with
    | some (some _) => true
    | _ => false
  | _ => false

/-- The function `insert_name`: the returned `Boolean` and the state after the
call.  The property handed to `ht_insert` is the value `find_name` left in
`prop`: when that is the pointer of the saved table, the new entry shares its
object with the saved table. -/
def insert_name (st : SymbolTable) (id : List Nat) (prop : IDprop) :
    Option (Int × SymbolTable) :=
  (find_name st id prop).bind fun f =>
  if f.1 = 0 then
    st.table.bind fun a =>
    (deref st st.table).bind fun t =>
    (ht_insert t id f.2).bind fun r =>
    let st1 := { st with heap := st.heap.set a (some r.2) }
    if r.1 = EXIT_SUCCESS then
      let st2 :=
        { st1 with shared := if saved_hit st id = true then id :: st.shared else st.shared }
      if IS_VARIABLE f.2.type = true then
        some (TRUE, { st2 with curr_offset := (st2.curr_offset + 1) % 4294967296 })
      else some (TRUE, st2)
    else some (FALSE, st1)
  else some (FALSE, st)

/-- The function `open_subroutine`: the result of `insert_name`, a `Boolean`,
is compared with `EXIT_SUCCESS`. -/
def open_subroutine (st : SymbolTable) (id : List Nat) (prop : IDprop) :
    Option (Int × SymbolTable) :=
  (insert_name st id prop).bind fun r =>
  if r.1 = EXIT_SUCCESS then
    some (TRUE, { r.2 with saved_table := r.2.table,
                           heap := r.2.heap ++ [some new_table],
                           table := some r.2.heap.length,
                           curr_offset := 1,
                           shared := [] })
  else some (FALSE, r.2)

/-- The function `close_subroutine`: `ht_free(table, free, free)`, then
`table = saved_table`; `saved_table` and `curr_offset` are not assigned.
`ht_free` frees the key and the object of every entry of the table, then the
table: an entry whose object was freed before is freed twice, a fault, and the
objects that the table shares with the saved table are gone from the saved
table as well. -/
def close_subroutine (st : SymbolTable) : Option SymbolTable :=
  st.table.bind fun a =>
  (deref st st.table).bind fun t =>
  if (t.table.flatten.any fun e => decide ((a, e.1) ∈ st.freed)) = true then none
  else
    some { st with
      heap := st.heap.set a none
      table := st.saved_table
      freed := st.freed ++
        (match st.saved_table with
          | some b => st.shared.map fun id => (b, id)
          | none => [])
      shared := [] }

/-- The function `get_variables_width`. -/
def get_variables_width (st : SymbolTable) : Nat := st.curr_offset

/-! ## scanner.c -/

/-- Modelled from the spec: `token.h` is not among the sources; these are the
token types `scanner.c` assigns. -/
inductive TokenType where
  | TOK_EOF | TOK_ID | TOK_NUM | TOK_STR
  | TOK_ARRAY | TOK_BEGIN | TOK_BOOLEAN | TOK_CHILL | TOK_DEFINE | TOK_DO
  | TOK_ELSE | TOK_ELSIF | TOK_END | TOK_EXIT | TOK_FALSE | TOK_IF
  | TOK_INTEGER | TOK_NOT | TOK_PROGRAM | TOK_READ | TOK_THEN | TOK_TRUE
  | TOK_WHILE | TOK_WRITE
  | TOK_EQ | TOK_GE | TOK_GT | TOK_LE | TOK_LT | TOK_NE
  | TOK_MINUS | TOK_OR | TOK_PLUS
  | TOK_AND | TOK_DIV | TOK_MUL | TOK_MOD
  | TOK_AMPERSAND | TOK_COMMA | TOK_GETS | TOK_LBRACK | TOK_LPAR
  | TOK_RBRACK | TOK_RPAR | TOK_SEMICOLON | TOK_TO
deriving DecidableEq, Repr

/-- Modelled from the spec: `token.h` is not among the sources; the spec
bounds an identifier by `MAX_ID_LENGTH`, taken here as 32. -/
def MAX_ID_LENGTH : Nat := 32

/-- The struct `SourcePos`. -/
structure SourcePos where
  line : Int
  col : Int
deriving DecidableEq, Repr

/-- The struct `Token`: the type and the payload fields the scanner writes. -/
structure Token where
  type : TokenType
  lexeme : List Nat
  value : Int
  string : List Nat
deriving DecidableEq, Repr

/-- The outcome of a scanner routine: a normal return, a call of `leprintf`
(which prints the global position and the message and exits), or a fault (a
read or write outside an array). -/
inductive Scan (α : Type) where
  | ok (a : α)
  | abort (pos : SourcePos) (msg : String)
  | fault
deriving DecidableEq, Repr

/-- Sequencing of scanner routines: an abort or a fault ends the run. -/
def Scan.bind {α β : Type} (x : Scan α) (f : α → Scan β) : Scan β :=
  match x with
  | .ok a => f a
  | .abort pos msg => .abort pos msg
  | .fault => .fault

/-- The global variables of `scanner.c`: the unread bytes of `src_file`, the
next source character `ch` (`EOF` is `-1`), `column_number`, the static
`new_line` of `next_char`, and the global `position`. -/
structure Scanner where
  src : List Nat
  ch : Int
  column_number : Int
  new_line : Int
  position : SourcePos
deriving DecidableEq, Repr

/-- The library predicate `isspace` in the C locale. -/
def isspace (ch : Int) : Bool := ch == 32 || (9 ≤ ch && ch ≤ 13)
/-- The library predicate `isdigit`. -/
def isdigit (ch : Int) : Bool := 48 ≤ ch && ch ≤ 57
/-- The library predicate `isalpha` in the C locale. -/
def isalpha (ch : Int) : Bool := (65 ≤ ch && ch ≤ 90) || (97 ≤ ch && ch ≤ 122)

/-- The function `next_char`: read a byte, and when the byte read before was
a newline, increment the line and set `column_number = 1` before the
increment that every call makes. -/
def next_char (s : Scanner) : Scanner :=
  let ch : Int := match s.src with
    | [] => -1
    | c :: _ => (c : Int)
  let s1 : Scanner := { s with src := s.src.tail, ch := ch }
  let s2 : Scanner :=
    if s1.new_line = 10 then
      { s1 with position := { s1.position with line := s1.position.line + 1 },
                column_number := 1, new_line := 97 }
    else s1
  let s3 : Scanner := { s2 with column_number := s2.column_number + 1 }
  if ch = 10 then { s3 with new_line := ch } else s3

/-- The function `init_scanner` on a source file with the given bytes. -/
def init_scanner (in_file : List Nat) : Scanner :=
  next_char { src := in_file, ch := 0, column_number := 0, new_line := 0,
              position := { line := 1, col := 0 } }

/-- The array `reserved`. -/
def reserved : List (List Nat × TokenType) :=
  [(bytes "and", .TOK_AND), (bytes "array", .TOK_ARRAY),
   (bytes "begin", .TOK_BEGIN), (bytes "boolean", .TOK_BOOLEAN),
   (bytes "chill", .TOK_CHILL), (bytes "define", .TOK_DEFINE),
   (bytes "do", .TOK_DO), (bytes "else", .TOK_ELSE),
   (bytes "elsif", .TOK_ELSIF), (bytes "end", .TOK_END),
   (bytes "exit", .TOK_EXIT), (bytes "false", .TOK_FALSE),
   (bytes "if", .TOK_IF), (bytes "integer", .TOK_INTEGER),
   (bytes "mod", .TOK_MOD), (bytes "not", .TOK_NOT),
   (bytes "or", .TOK_OR), (bytes "program", .TOK_PROGRAM),
   (bytes "read", .TOK_READ), (bytes "then", .TOK_THEN),
   (bytes "true", .TOK_TRUE), (bytes "while", .TOK_WHILE),
   (bytes "write", .TOK_WRITE)]

/-- The macro `NUM_RESERVED_WORDS`. -/
def NUM_RESERVED_WORDS : Nat := reserved.length

/-- The macro `MAX_INITIAL_STRLEN`. -/
def MAX_INITIAL_STRLEN : Nat := 1024

/-- The whitespace loop of `get_token`: `while (isspace(ch)) next_char();`,
at most `n` iterations. -/
def skip_whitespace : Nat → Scanner → Scanner
  | 0, s => s
  | n + 1, s => if isspace s.ch then skip_whitespace n (next_char s) else s

/-- The character loop of `process_word`, at most `n` iterations: the scanner,
the lexeme buffer and the length counter. -/
def word_loop : Nat → Scanner → List Nat → Nat → Scan (Scanner × List Nat)
  | 0, s, lexeme, _ => .ok (s, lexeme)
  | n + 1, s, lexeme, length =>
    if isalpha s.ch || s.ch == 95 || isdigit s.ch then
      let length := length + 1
      if length > MAX_ID_LENGTH then
        if s.position.line > 1 then
          .abort { line := s.position.line, col := s.position.col - 1 }
            "identifier too long"
        else .abort s.position "identifier too long"
      else word_loop n (next_char s) (lexeme ++ [s.ch.toNat]) length
    else .ok (s, lexeme)

/-- The binary search of `process_word`, at most `n` iterations: the final
`cmp` and `mid`.  Reading `reserved[mid]` with `mid` outside the array is a
fault. -/
def reserved_search : Nat → List Nat → Int → Int → Int → Int → Scan (Int × Int)
  | 0, _, cmp, _, mid, _ => .ok (cmp, mid)
  | n + 1, lexeme, cmp, low, mid, high =>
    if low ≤ high then
      let mid := (low + high) / 2
      if 0 ≤ mid ∧ mid.toNat < reserved.length then
        let word := (reserved.getD mid.toNat ([], .TOK_EOF)).1
        if strcmp lexeme word = 0 then .ok (0, mid)
        else if strcmp lexeme word > 0 then
          reserved_search n lexeme cmp (mid + 1) mid high
        else reserved_search n lexeme cmp low mid (mid - 1)
      else .fault
    else .ok (cmp, mid)

/-- The function `process_word`. -/
def process_word (s : Scanner) (token : Token) : Scan (Scanner × Token) :=
  (word_loop (s.src.length + 1) s [] 0).bind fun r =>
  (reserved_search (NUM_RESERVED_WORDS + 2) r.2 (-1) 0 0 NUM_RESERVED_WORDS).bind
    fun c =>
  let type :=
    if c.1 = 0 then (reserved.getD c.2.toNat ([], .TOK_EOF)).2 else .TOK_ID
  .ok (r.1, { token with type := type, lexeme := r.2 })

/-- The library function `atoi` on a buffer of decimal digits: the decimal
value converted to `int`. -/
def atoi (d : List Nat) : Int :=
  wrap32 (d.foldl (fun acc c => acc * 10 + ((c : Int) - 48)) 0)

/-- The loop of `process_number`, at most `n` iterations, on the scanner and
the buffer `d1` of 12 bytes.  The variable `x` is `-1` exactly when the second
test sets it, since that test assigns `x` on both of its branches. -/
def number_loop : Nat → Scanner → List Nat → Scan (Scanner × List Nat)
  | 0, s, d1 => .ok (s, d1)
  | n + 1, s, d1 =>
    if isdigit s.ch then
      let v := atoi d1
      let s1 := next_char s
      let i := s1.ch - 48
      let sum := wrap32 (v + i)
      let x : Int := if v < 0 ∧ i < 0 ∧ sum > 0 then -1 else 0
      if x = -1 then
        if s1.position.line > 2 then
          .abort { line := s1.position.line - 1, col := s1.position.col - 1 }
            "number too large"
        else if s1.position.col > 1 then
          .abort { line := s1.position.line, col := s1.position.col - 1 }
            "number too large"
        else .abort s1.position "number too large"
      else if isdigit s1.ch then
        if d1.length + 2 ≤ 12 then number_loop n s1 (d1 ++ [s1.ch.toNat])
        else .fault
      else .ok (s1, d1)
    else .ok (s, d1)

/-- The function `process_number`. -/
def process_number (s : Scanner) (token : Token) : Scan (Scanner × Token) :=
  (number_loop (s.src.length + 1) s [s.ch.toNat]).bind fun r =>
  .ok (r.1, { token with value := atoi r.2, type := .TOK_NUM })

/-- The character a `%c` conversion prints for `ch`. -/
def printed_char (ch : Int) : String :=
  String.singleton (Char.ofNat (ch % 256).toNat)

/-- The function `append` on a buffer of `size` bytes that holds the string
`s`: `strlen(s)`, then the character and the terminator are written behind it.
`none` is an array that was never initialised, in which `strlen` finds nothing
the program determines, and a write past the end of the buffer is a fault as
well. -/
def append (s : Option (List Nat)) (size : Nat) (ch : Int) : Scan (List Nat) :=
  match s with
  | none => .fault
  | some str => if str.length + 2 ≤ size then .ok (str ++ [ch.toNat]) else .fault

/-- The loop of `process_string`, at most `n` iterations: the scanner, the
buffer `token->string` (storage from `malloc`, taken as empty when allocated),
its capacity, the counter `j` and the saved `line`.  `realloc` is always called
with `2 * nstring`, and `nstring` is never updated.  The array `ec` of the
escape branch is declared without initialiser and handed to `append` as it
is. -/
def string_loop : Nat → Scanner → List Nat → Nat → Nat → Int →
    Scan (Scanner × List Nat)
  | 0, s, str, _, _, _ => .ok (s, str)
  | n + 1, s, str, cap, j, line =>
    if s.ch ≠ 34 then
      if s.ch < 32 ∧ s.ch ≠ -1 ∧ s.ch ≠ 92 then
        .abort
          (if s.position.line > 1 then { line := line, col := s.column_number - 1 }
           else { line := line, col := s.column_number })
          ("non-printable character (ASCII #" ++ toString s.ch ++ ") in string")
      else if s.ch = -1 then
        .abort
          { line := line, col := if s.position.col = 1 then 1 else s.position.col - 1 }
          "string not closed"
      else
        let j := j + 1
        let cap := if j > MAX_INITIAL_STRLEN then 2 * MAX_INITIAL_STRLEN else cap
        if s.ch = 92 then
          (append (some str) cap s.ch).bind fun str1 =>
          (append none 3 s.ch).bind fun ec =>
          let s1 := next_char s
          let j := j + 1
          if s1.ch ≠ 110 ∧ s1.ch ≠ 116 ∧ s1.ch ≠ 34 ∧ s1.ch ≠ 92 then
            (append (some ec) 3 s1.ch).bind fun ec1 =>
            .abort { line := line, col := s1.column_number - 1 }
              ("illegal escape code '" ++ String.mk (ec1.map Char.ofNat) ++
                "' in string")
          else
            (append (some str1) cap s1.ch).bind fun str2 =>
            string_loop n (next_char s1) str2 cap j line
        else
          (append (some str) cap s.ch).bind fun str1 =>
          string_loop n (next_char s) str1 cap j line
    else .ok (s, str)

/-- The function `process_string`. -/
def process_string (s : Scanner) (token : Token) : Scan (Scanner × Token) :=
  (string_loop (s.src.length + 1) s [] MAX_INITIAL_STRLEN 0 s.position.line).bind
    fun r =>
  .ok (next_char r.1, { token with string := r.2, type := .TOK_STR })

/-- The loop of `skip_comment` with its local `start_pos`, at most `n` calls
deep: a `(` followed by `*` calls `skip_comment` again, with the `*` still the
current character; on `EOF` the function aborts at its own `start_pos`. -/
def comment_loop : Nat → SourcePos → Scanner → Scan Scanner
  | 0, _, _ => .fault
  | n + 1, start_pos, s =>
    if s.ch ≠ -1 then
      if s.ch = 40 then
        let s1 := next_char s
        if s1.ch = 42 then
          (comment_loop n
            { line := s1.position.line, col := s1.column_number - 2 } s1).bind
            (comment_loop n start_pos)
        else comment_loop n start_pos s1
      else if s.ch = 42 then
        let s1 := next_char s
        if s1.ch = 41 then .ok (next_char s1)
        else comment_loop n start_pos s1
      else comment_loop n start_pos (next_char s)
    else .abort start_pos "comment not closed"

/-- The function `skip_comment`. -/
def skip_comment (s : Scanner) : Scan Scanner :=
  comment_loop (s.src.length + 2)
    { line := s.position.line, col := s.column_number - 2 } s

/-- A branch of the `switch` of `get_token` that reads one character and sets
the token type. -/
def single (s : Scanner) (token : Token) (type : TokenType) :
    Scan (Scanner × Token) :=
  .ok (next_char s, { token with type := type })

/-- The function `get_token`, at most `n` comments deep in its call to itself
after `skip_comment`. -/
def get_token_fuel : Nat → Scanner → Token → Scan (Scanner × Token)
  | 0, _, _ => .fault
  | n + 1, s, token =>
    let s := skip_whitespace (s.src.length + 1) s
    let s := { s with position := { s.position with col := s.column_number } }
    if s.ch ≠ -1 then
      if isalpha s.ch || s.ch == 95 then process_word s token
      else if isdigit s.ch then process_number s token
      else if s.ch = 34 then
        let s := { s with position := { s.position with col := s.column_number } }
        process_string (next_char s) token
      else if s.ch = 61 then single s token .TOK_EQ
      else if s.ch = 62 then
        let s1 := next_char s
        if s1.ch = 61 then single s1 token .TOK_GE
        else .ok (s1, { token with type := .TOK_GT })
      else if s.ch = 60 then
        let s1 := next_char s
        if s1.ch = 61 then single s1 token .TOK_LE
        else if s1.ch = 45 then single s1 token .TOK_GETS
        else .ok (s1, { token with type := .TOK_LT })
      else if s.ch = 35 then single s token .TOK_NE
      else if s.ch = 45 then
        let s1 := next_char s
        if s1.ch = 62 then single s1 token .TOK_TO
        else .ok (s1, { token with type := .TOK_MINUS })
      else if s.ch = 43 then single s token .TOK_PLUS
      else if s.ch = 47 then single s token .TOK_DIV
      else if s.ch = 42 then single s token .TOK_MUL
      else if s.ch = 37 then single s token .TOK_MOD
      else if s.ch = 38 then single s token .TOK_AMPERSAND
      else if s.ch = 91 then single s token .TOK_LBRACK
      else if s.ch = 93 then single s token .TOK_RBRACK
      else if s.ch = 44 then single s token .TOK_COMMA
      else if s.ch = 40 then
        let s := { s with position := { s.position with col := s.column_number } }
        let s1 := next_char s
        if s1.ch = 42 then (skip_comment s1).bind fun s2 => get_token_fuel n s2 token
        else .ok (s1, { token with type := .TOK_LPAR })
      else if s.ch = 41 then single s token .TOK_RPAR
      else if s.ch = 59 then single s token .TOK_SEMICOLON
      else
        .abort s.position
          ("illegal character '" ++ printed_char s.ch ++ "' (ASCII #" ++
            toString s.ch ++ ")")
    else .ok (s, { token with type := .TOK_EOF })

/-- The function `get_token`: every call to itself follows a comment of at
least two characters, so the length of the source bounds the depth. -/
def get_token (s : Scanner) (token : Token) : Scan (Scanner × Token) :=
  get_token_fuel (s.src.length + 2) s token

/-- A token variable before the first call of `get_token`. -/
def empty_token : Token := { type := .TOK_EOF, lexeme := [], value := 0, string := [] }

/-! ## Runs, example inputs and invariants -/

/-- A sequence of `ht_insert` calls on one table: the return codes in call
order and the table afterwards. -/
def ht_inserts {K V : Type} :
    HashTab K V → List (K × V) → Option (List Int × HashTab K V)
  | ht, [] => some ([], ht)
  | ht, p :: rest =>
    (ht_insert ht p.1 p.2).bind fun r =>
    (ht_inserts r.2 rest).map fun q => (r.1 :: q.1, q.2)

/-- A sequence of `insert_name` calls: the returned Booleans in call order and
the state afterwards. -/
def insert_names :
    SymbolTable → List (List Nat × IDprop) → Option (List Int × SymbolTable)
  | st, [] => some ([], st)
  | st, p :: rest =>
    (insert_name st p.1 p.2).bind fun r =>
    (insert_names r.2 rest).map fun q => (r.1 :: q.1, q.2)

/-- An example hash function on numeric keys: the key modulo the size. -/
def mod_hash (key size : Nat) : Nat := key % size

/-- An example comparison function on numeric keys: the difference. -/
def nat_cmp (a b : Nat) : Int := (a : Int) - (b : Int)

/-- An example property of a procedure. -/
def proc_prop : IDprop := { type := TYPE_CALLABLE, offset := 1, nparams := 0, params := [] }

/-- An example property of a function returning an integer: `TYPE_INTEGER`
with `SET_AS_CALLABLE` applied. -/
def func_prop : IDprop :=
  { type := SET_AS_CALLABLE TYPE_INTEGER, offset := 1, nparams := 0, params := [] }

/-- An example property of a variable of the given type at offset 1. -/
def var_prop (type : Nat) : IDprop := { type := type, offset := 1, nparams := 0, params := [] }

/-- The state inside a subroutine: `outer` is the saved table, `inner` the
current table, both live. -/
def scope_state (outer inner : HashTab (List Nat) IDprop) (offset : Nat) :
    SymbolTable :=
  { heap := [some outer, some inner], table := some 1, saved_table := some 0,
    curr_offset := offset }

/-- A table holding exactly the given entry. -/
def table_with (id : List Nat) (prop : IDprop) : HashTab (List Nat) IDprop :=
  ((ht_insert new_table id prop).map Prod.snd).getD new_table

/-- The state after the calls `insert_name("a", integer variable)`,
`insert_name("f", procedure)`, `open_subroutine("f", ...)`, which opens the
scope because its insertion fails, and `insert_name("a", boolean variable)`,
from the initial symbol table. -/
def shared_scope : Option SymbolTable :=
  (insert_name init_symbol_table (bytes "a") (var_prop TYPE_INTEGER)).bind fun r1 =>
  (insert_name r1.2 (bytes "f") proc_prop).bind fun r2 =>
  (open_subroutine r2.2 (bytes "f") proc_prop).bind fun r3 =>
  (insert_name r3.2 (bytes "a") (var_prop TYPE_BOOLEAN)).map fun r4 => r4.2

/-- The Boolean of `find_name` for an unset `*prop`. -/
def resolves (st : SymbolTable) (id : List Nat) : Option Int :=
  (find_name st id (var_prop TYPE_NONE)).map Prod.fst

/-- Trial division of `n` by `a`, `a + 2`, ..., `f` divisors in all. -/
def trial (n : Nat) : Nat → Nat → Bool
  | 0, _ => true
  | f + 1, a => n % a != 0 && trial n f (a + 2)

/-- The entries of a table: the nodes of its chains, bucket by bucket. -/
def entries {K V : Type} (ht : HashTab K V) : List (K × V) := ht.table.flatten

/-- Well-formed buckets: the bucket array has `size` buckets, every node is in
the bucket of its hash, no key occurs twice, the comparison function returns
zero exactly on equal keys, and the hash function returns an index below the
size. -/
structure Buckets {K V : Type} (ht : HashTab K V) : Prop where
  len : ht.table.length = ht.size
  pos : 0 < ht.size
  hashed : ∀ i, i < ht.table.length → ∀ p ∈ ht.table.getD i [], ht.hash p.1 ht.size = i
  nodup : ((entries ht).map Prod.fst).Nodup
  cmp_eq : ∀ a b, ht.cmp a b = 0 ↔ a = b
  hash_lt : ∀ k s, 0 < s → ht.hash k s < s

/-- The table after `ht_insert` links a new node and does not rehash. -/
def link {K V : Type} (ht : HashTab K V) (key : K) (value : V) : HashTab K V :=
  { ht with
    num_entries := (ht.num_entries + 1) % 4294967296
    table := ht.table.set (ht.hash key ht.size)
      (ht.table.getD (ht.hash key ht.size) [] ++ [(key, value)]) }

/-- The invariant of a table under `ht_insert` calls with new keys at maximum
load factor `L`: well-formed buckets, a size taken from `delta` at an index
from 4 to 26 (the sizes `talloc` serves), an entry count equal to the number
of nodes, and a load that `ht_insert` finds within the maximum. -/
structure Inv {K V : Type} (L : ℚ) (ht : HashTab K V) : Prop where
  buckets : Buckets ht
  sized : prime_size ht.idx = some ht.size
  idx_ge : 4 ≤ ht.idx
  idx_le : ht.idx ≤ 26
  count : ht.num_entries = (entries ht).length
  load : float_load ht.num_entries ht.size ≤ L
  lf : ht.max_loadfactor = L

/-- The state at global level: one live table, which is the current scope, no
saved scope, and no object freed. -/
structure Global (st : SymbolTable) (ht : HashTab (List Nat) IDprop) : Prop where
  heap : st.heap = [some ht]
  table : st.table = some 0
  saved : st.saved_table = none
  freed : st.freed = []

/-- The first `n` tokens of a scanner run, each with the global `position`
after the call of `get_token` that returned it; the run stops at `TOK_EOF`, at
an abort and at a fault. -/
def scan_tokens : Nat → Scanner → Token → List (TokenType × List Nat × SourcePos)
  | 0, _, _ => []
  | n + 1, s, token =>
    match get_token s token with
    | .ok r =>
      (r.2.type, r.2.lexeme, r.1.position) ::
        (if r.2.type = .TOK_EOF then [] else scan_tokens n r.1 r.2)
    | .abort _ _ => []
    | .fault => []

/-- An identifier of seven letters from `a` to `p`: the digits of `n` to base
16, the lowest first. -/
def name_of (n : Nat) : List Nat :=
  [97 + n % 16, 97 + n / 16 % 16, 97 + n / 256 % 16, 97 + n / 4096 % 16,
   97 + n / 65536 % 16, 97 + n / 1048576 % 16, 97 + n / 16777216 % 16]

/-- An example run of 50331700 pairwise distinct identifiers, `aaaaaaa`,
`baaaaaa`, `caaaaaa` and so on, each with the property of an integer
variable. -/
def many_names : List (List Nat × IDprop) :=
  List.map (fun n => (name_of n, var_prop TYPE_INTEGER)) (List.range 50331700)

/-- The scanner stands on the text `l`: `ch` is its first byte (`EOF` when it
is empty) and the unread bytes of the source file are the rest of it. -/
def Reads (s : Scanner) (l : List Nat) : Prop :=
  s.src = l.tail ∧ s.ch = (match l with
    | [] => -1
    | c :: _ => (c : Int))

/-- The number a run of decimal digit characters denotes. -/
def decimal_value (ds : List Nat) : Nat :=
  ds.foldl (fun a d => 10 * a + (d - 48)) 0

/-- The character `c` may occur in a word: a letter, a digit or `_`. -/
def word_char (c : Nat) : Bool :=
  isalpha (c : Int) || (c : Int) == 95 || isdigit (c : Int)

/-- The text `rest` does not continue a word: it is empty or starts with a
character that is no letter, digit or `_`. -/
def word_end : List Nat → Bool
  | [] => true
  | c :: _ => !word_char c

/-- The text `rest` does not continue a number: it is empty or starts with a
character that is no digit. -/
def number_end : List Nat → Bool
  | [] => true
  | c :: _ => !isdigit (c : Int)

/-- Modelled from the spec: the 23 keywords of the language, as the spec's
data model lists them under `TokenKind`. -/
def keywords : List String :=
  ["and", "array", "begin", "boolean", "chill", "define", "do", "else", "elsif",
   "end", "exit", "false", "if", "integer", "mod", "not", "or", "program", "read",
   "then", "true", "while", "write"]

/-- A byte that a string literal holds as it is: its code is 32 or more, and it
is neither `"` nor `\`. -/
def plain_byte (c : Nat) : Bool := decide (32 ≤ c) && c != 34 && c != 92

/-- The calls of `get_token` in a row, `n` of them, each on the token the one
before filled in: the outcome of the last call. -/
def get_tokens : Nat → Scanner → Token → Scan (Scanner × Token)
  | 0, s, token => .ok (s, token)
  | n + 1, s, token => (get_token s token).bind fun r => get_tokens n r.1 r.2

/-- The end of a comment in a text: it is closed, with the text after its `*)`
and the line on which that text starts, or it is still open at the end of the
text, with the stack of the open comments. -/
inductive CommentEnd where
  | closed (rest : List Nat) (line : Int)
  | unclosed (stack : List Int)
deriving DecidableEq, Repr

/-- Modelled from the spec: the text `t`, whose first character is on line
`line`, read inside nested comments.  The `stack` holds the lines on which the
comments now open start, the innermost first: `(*` opens a comment, `*)` closes
the innermost one, and the comment that was opened first ends the reading when
it is closed. -/
def comment_scan : List Nat → Int → List Int → CommentEnd
  | [], _, stack => .unclosed stack
  | [_], _, stack => .unclosed stack
  | c :: d :: l, line, stack =>
    if c = 40 ∧ d = 42 then comment_scan l line (line :: stack)
    else if c = 42 ∧ d = 41 then
      if stack.length ≤ 1 then .closed l line else comment_scan l line stack.tail
    else comment_scan (d :: l) (if c = 10 then line + 1 else line) stack

/-- The text holds a comment opener directly followed by `)`. -/
def has_empty_opener : List Nat → Bool
  | [] => false
  | c :: l => (c == 40 && l.take 2 == [42, 41]) || has_empty_opener l

/-- Modelled from the spec: the text `t`, whose first character is on line
`line`, is whitespace and comments up to its end, and its last comment is not
closed: the lines of the comments open at the end of the text, the innermost
first.  At most `n` characters of whitespace and comments are read. -/
def unclosed_comment : Nat → List Nat → Int → Option (List Int)
  | 0, _, _ => none
  | n + 1, t, line =>
    match t with
    | c :: d :: l =>
      if isspace (c : Int) then
        unclosed_comment n (d :: l) (if c = 10 then line + 1 else line)
      else if c = 40 ∧ d = 42 then
        match comment_scan l line [line] with
        | .closed r line1 => unclosed_comment n r line1
        | .unclosed stack => some stack
      else none
    | _ => none

/-! ## simplc.c -/

/-- Modelled from the spec: `jvm.h` is not among the sources; these are the
instructions `simplc.c` hands to `gen_1` and `gen_2`. -/
inductive Bytecode where
  | JVM_ALOAD | JVM_ASTORE | JVM_IADD | JVM_IALOAD | JVM_IAND | JVM_IASTORE
  | JVM_IDIV | JVM_IF_ICMPEQ | JVM_IF_ICMPGE | JVM_IF_ICMPGT | JVM_IF_ICMPLE
  | JVM_IF_ICMPLT | JVM_IF_ICMPNE | JVM_ILOAD | JVM_IMUL | JVM_IOR | JVM_IREM
  | JVM_ISTORE | JVM_ISUB | JVM_IXOR | JVM_LDC | JVM_RETURN
deriving DecidableEq, Repr

/-- Modelled from the spec: `jvm.h` is not among the sources; the element
types of `gen_newarray`. -/
inductive ArrayType where
  | T_BOOLEAN | T_INT
deriving DecidableEq, Repr

/-- Modelled from the spec: `codegen.h` is not among the sources; a call of
the code emitter, which the spec takes as a sink that records the calls in
order. -/
inductive Emit where
  | set_class_name (name : List Nat)
  | init_subroutine_codegen (name : List Nat) (prop : Option IDprop)
  | close_subroutine_codegen (width : Nat)
  | gen_1 (op : Bytecode)
  | gen_2 (op : Bytecode) (arg : Int)
  | gen_newarray (atype : ArrayType)
  | gen_call (name : List Nat) (prop : IDprop)
  | gen_read (type : Nat)
  | gen_print (type : Nat)
  | gen_print_string (string : List Nat)
deriving DecidableEq, Repr

/-- Modelled from the spec: `errmsg.h` is not among the sources; these are the
error codes `simplc.c` names. -/
inductive Error where
  | ERR_ARGUMENT_LIST_OR_VARIABLE_ASSIGNMENT_EXPECTED
  | ERR_ARRAY_ALLOCATION_OR_EXPRESSION_EXPECTED
  | ERR_EXIT_EXPRESSION_NOT_ALLOWED_FOR_PROCEDURE
  | ERR_EXPECT
  | ERR_EXPRESSION_OR_STRING_EXPECTED
  | ERR_FACTOR_EXPECTED
  | ERR_MISSING_EXIT_EXPRESSION_FOR_FUNCTION
  | ERR_STATEMENT_EXPECTED
  | ERR_TYPE_EXPECTED
  | ERR_UNKNOWN_IDENTIFIER
  | ERR_MULTIPLE_DEFINITION
  | ERR_UNREACHABLE
deriving DecidableEq, Repr

/-- An argument in the variable part of a call: a string, a null string
pointer, or a token type passed as `int`. -/
inductive Arg where
  | str (s : List Nat)
  | null
  | tok (t : TokenType)
deriving DecidableEq, Repr

/-- A part of a message of the parser: literal text, the text `get_token_string`
returns for a token type, the text `get_valtype_string` returns for a value
type, the text of a string of bytes, or what a `%s` conversion finds at a
pointer that was never assigned.  The definitions of the two functions are not
among the sources. -/
inductive Piece where
  | lit (s : String)
  | token (t : TokenType)
  | valtype (t : Nat)
  | str (s : List Nat)
  | unassigned
deriving DecidableEq, Repr

/-- The outcome of a parser routine: a normal return, a call of `leprintf`
(which prints the global position and the message and exits), a fault (a null
pointer dereferenced, a missing variable argument or a variable that was never
assigned read, a fault of a routine called), or the end of the fuel that bounds
the depth of the calls. -/
inductive Parse (α : Type) where
  | ok (a : α)
  | abort (pos : SourcePos) (msg : List Piece)
  | fault
  | nofuel
deriving DecidableEq, Repr

/-- Sequencing of parser routines: an abort, a fault or the end of the fuel
ends the run. -/
def Parse.bind {α β : Type} (x : Parse α) (f : α → Parse β) : Parse β :=
  match x with
  | .ok a => f a
  | .abort pos msg => .abort pos msg
  | .fault => .fault
  | .nofuel => .nofuel

/-- The outcome of a routine of `symboltable.c` inside the parser, and the
value read from a variable: `none` is a fault. -/
def Parse.of_option {α : Type} : Option α → Parse α
  | some a => .ok a
  | none => .fault

/-- The outcome of a scanner routine inside the parser. -/
def Parse.of_scan {α : Type} : Scan α → Parse α
  | .ok a => .ok a
  | .abort pos msg => .abort pos [.lit msg]
  | .fault => .fault

/-- The global variables of `simplc.c` and of the units it drives: the scanner,
the lookahead `token`, the symbol table, the calls of the code emitter so far,
`relop` and `flag`. -/
structure Parser where
  scanner : Scanner
  token : Token
  symtab : SymbolTable
  code : List Emit
  relop : Int
  flag : Int

/-- The macro `IS_STATEMENT`. -/
def IS_STATEMENT (toktype : TokenType) : Bool :=
  toktype == .TOK_EXIT || toktype == .TOK_IF || toktype == .TOK_ID ||
  toktype == .TOK_READ || toktype == .TOK_WHILE || toktype == .TOK_WRITE

/-- The macro `STARTS_FACTOR`. -/
def STARTS_FACTOR (toktype : TokenType) : Bool :=
  toktype == .TOK_ID || toktype == .TOK_NUM || toktype == .TOK_LPAR ||
  toktype == .TOK_NOT || toktype == .TOK_TRUE || toktype == .TOK_FALSE

/-- The macro `STARTS_EXPR`. -/
def STARTS_EXPR (toktype : TokenType) : Bool :=
  STARTS_FACTOR toktype || toktype == .TOK_MINUS

/-- The macro `IS_ADDOP`, a range test on the enumeration: the token types
from `TOK_MINUS` to `TOK_PLUS`. -/
def IS_ADDOP (toktype : TokenType) : Bool :=
  decide (TokenType.TOK_MINUS.toCtorIdx ≤ toktype.toCtorIdx) &&
  decide (toktype.toCtorIdx ≤ TokenType.TOK_PLUS.toCtorIdx)

/-- The macro `IS_MULOP`. -/
def IS_MULOP (toktype : TokenType) : Bool :=
  toktype == .TOK_AND || toktype == .TOK_DIV || toktype == .TOK_MUL ||
  toktype == .TOK_MOD

/-- The macro `IS_ORDOP`. -/
def IS_ORDOP (toktype : TokenType) : Bool :=
  toktype == .TOK_GE || toktype == .TOK_GT || toktype == .TOK_LE ||
  toktype == .TOK_LT

/-- The macro `IS_RELOP`. -/
def IS_RELOP (toktype : TokenType) : Bool :=
  toktype == .TOK_EQ || toktype == .TOK_GE || toktype == .TOK_GT ||
  toktype == .TOK_LE || toktype == .TOK_LT || toktype == .TOK_NE

/-- The macro `IS_TYPE_TOKEN`. -/
def IS_TYPE_TOKEN (toktype : TokenType) : Bool :=
  toktype == .TOK_BOOLEAN || toktype == .TOK_INTEGER

/-- The macro `MAX_MESSAGE_LENGTH`. -/
def MAX_MESSAGE_LENGTH : Nat := 256

/-- A call of the code emitter: the call is recorded. -/
def gen (p : Parser) (e : Emit) : Parser := { p with code := p.code ++ [e] }

/-- The value of a pointer to `IDprop` that is handed to `find_name` before it
was assigned: it is read only after `find_name` has overwritten it. -/
def unset_prop : IDprop := { type := 0, offset := 0, nparams := 0, params := [] }

/-- The library function `vsnprintf` on a format whose only conversions are
`%s`, before the cut to the size of the buffer: a `%s` without a string
argument is a fault. -/
def vsnprintf : List Nat → List Arg → Option (List Nat)
  | [], _ => some []
  | [c], _ => some [c]
  | c :: d :: fmt, args =>
    if c = 37 ∧ d = 115 then
      match args with
      | .str s :: rest => (vsnprintf fmt rest).map fun t => s ++ t
      | _ => none
    else (vsnprintf (d :: fmt) args).map fun t => c :: t

/-- The statement `position.col = position.col - 1`. -/
def col_back (p : Parser) : Parser :=
  { p with scanner := { p.scanner with
      position := { p.scanner.position with col := p.scanner.position.col - 1 } } }

/-- The function `_abort_compile`, with `abort_c`'s variable arguments as a
list.  The pointer `s` is assigned for `ERR_UNREACHABLE` only, the one error
code that reaches the `default` of the first `switch`; the second `switch`
returns without a message for the two codes it has no case for.  The cut of
`expstr` to `MAX_MESSAGE_LENGTH` and conversions inside a token string are left
out. -/
def _abort_compile (p : Parser) (posp : Option SourcePos) (err : Error)
    (args : List Arg) : Parse Parser :=
  let p : Parser := match posp with
    | some pos => { p with scanner := { p.scanner with position := pos } }
    | none => p
  let found := Piece.token p.token.type
  match err with
  | .ERR_EXPECT =>
    match args with
    | .tok tok :: _ =>
      .abort (col_back p).scanner.position
        [.lit "expected ", .token tok, .lit ", but found ", found]
    | _ => .fault
  | .ERR_FACTOR_EXPECTED =>
    .abort (col_back p).scanner.position
      [.lit "expected ", .lit "factor", .lit ", but found ", found]
  | .ERR_UNREACHABLE =>
    match args with
    | .str s :: _ => .abort p.scanner.position [.lit "unreachable: ", .str s]
    | _ => .fault
  | .ERR_STATEMENT_EXPECTED =>
    .abort (col_back p).scanner.position [.lit "expected statement, but found ", found]
  | .ERR_TYPE_EXPECTED =>
    .abort (col_back p).scanner.position [.lit "expected type, but found ", found]
  | .ERR_ARGUMENT_LIST_OR_VARIABLE_ASSIGNMENT_EXPECTED =>
    .abort (col_back p).scanner.position
      [.lit "expected argument list or variable assignment, but found ", found]
  | .ERR_ARRAY_ALLOCATION_OR_EXPRESSION_EXPECTED =>
    .abort p.scanner.position
      [.lit "expected array allocation or expression, but found ", found]
  | .ERR_EXPRESSION_OR_STRING_EXPECTED =>
    .abort (col_back p).scanner.position
      [.lit "expected expression or string, but found ", found]
  | .ERR_UNKNOWN_IDENTIFIER =>
    .abort p.scanner.position [.lit "unknown identifier '", .unassigned, .lit "'"]
  | .ERR_MULTIPLE_DEFINITION =>
    .abort p.scanner.position [.lit "multiple definition of '", .unassigned, .lit "'"]
  | .ERR_EXIT_EXPRESSION_NOT_ALLOWED_FOR_PROCEDURE => .ok p
  | .ERR_MISSING_EXIT_EXPRESSION_FOR_FUNCTION => .ok p

/-- The function `abort_c`. -/
def abort_c (p : Parser) (err : Error) (args : List Arg) : Parse Parser :=
  _abort_compile p none err args

/-- The function `abort_cp`. -/
def abort_cp (p : Parser) (posp : Option SourcePos) (err : Error)
    (args : List Arg) : Parse Parser :=
  _abort_compile p posp err args

/-- The function `check_types`, with its variable arguments as a list; a
`ValType` variable that was never assigned is `none`.  When the types differ
the function reads the format `s` from the variable arguments, which is a fault
when the call has none. -/
def check_types (p : Parser) (found expected : Option Nat)
    (pos : Option SourcePos) (args : List Arg) : Parse Parser :=
  (Parse.of_option found).bind fun found =>
  (Parse.of_option expected).bind fun expected =>
  if found ≠ expected then
    match args with
    | .str s :: rest =>
      match vsnprintf s rest with
      | some buf =>
        let p1 : Parser := match pos with
          | some q => { p with scanner := { p.scanner with position := q } }
          | none => p
        .abort p1.scanner.position
          [.lit "incompatible types (expected ", .valtype expected, .lit ", found ",
            .valtype found, .lit ") ", .str (buf.take (MAX_MESSAGE_LENGTH - 1))]
      | none => .fault
    | _ => .fault
  else .ok p

/-- The call `get_token(&token)`. -/
def next_token (p : Parser) : Parse Parser :=
  (Parse.of_scan (get_token p.scanner p.token)).bind fun r =>
  .ok { p with scanner := r.1, token := r.2 }

/-- The function `expect`. -/
def expect (p : Parser) (type : TokenType) : Parse Parser :=
  if p.token.type = type then next_token p
  else abort_c p .ERR_EXPECT [.tok type]

/-- The function `expect_id`: the state and the copy of the lexeme in `*id`. -/
def expect_id (p : Parser) : Parse (Parser × List Nat) :=
  if p.token.type = .TOK_ID then
    (next_token p).bind fun p1 => .ok (p1, p.token.lexeme)
  else (abort_c p .ERR_EXPECT [.tok .TOK_ID]).bind fun p1 => .ok (p1, [])

/-- The function `make_idprop`; a null `params` is the empty list. -/
def make_idprop (type offset nparams : Nat) (params : List Nat) : IDprop :=
  { type := type, offset := offset, nparams := nparams, params := params }

/-- The struct `Variable`; the `next` pointers are the order of a list. -/
structure Variable where
  id : List Nat
  type : Nat
  pos : SourcePos
deriving DecidableEq, Repr

/-- The function `make_var`. -/
def make_var (id : List Nat) (type : Nat) (pos : SourcePos) : Variable :=
  { id := id, type := type, pos := pos }

/-- The argument `id` of a `%s` conversion: a string, or a null pointer. -/
def Arg.of_id : Option (List Nat) → Arg
  | some id => .str id
  | none => .null

mutual

/-- The function `parse_expr`, at most `n` calls deep: the state and the value
of `*type` afterwards, `none` while it was never assigned.  The local `t1` is
declared without initialiser. -/
def parse_expr : Nat → Parser → Option Nat → Parse (Parser × Option Nat)
  | 0, _, _ => .nofuel
  | n + 1, p, type =>
    (parse_simple n p type).bind fun r =>
    if IS_RELOP r.1.token.type then
      let p1 : Parser := { r.1 with relop := r.1.relop + 1 }
      if p1.token.type = .TOK_EQ then
        (expect p1 p1.token.type).bind fun p2 =>
        (parse_simple n p2 none).bind fun q =>
        (check_types q.1 r.2 q.2 (some q.1.scanner.position) []).bind fun p3 =>
        .ok (gen p3 (.gen_1 .JVM_IF_ICMPEQ), r.2)
      else if p1.token.type = .TOK_NE then
        (expect p1 p1.token.type).bind fun p2 =>
        (parse_simple n p2 none).bind fun q =>
        (check_types q.1 r.2 q.2 (some q.1.scanner.position) []).bind fun p3 =>
        .ok (gen p3 (.gen_1 .JVM_IF_ICMPNE), r.2)
      else if p1.token.type = .TOK_GE then
        (expect p1 p1.token.type).bind fun p2 =>
        (parse_simple n p2 none).bind fun q =>
        (check_types q.1 q.2 r.2 (some q.1.scanner.position) []).bind fun p3 =>
        .ok (gen p3 (.gen_1 .JVM_IF_ICMPGE), r.2)
      else if p1.token.type = .TOK_GT then
        (expect p1 p1.token.type).bind fun p2 =>
        (parse_simple n p2 none).bind fun q =>
        (check_types q.1 q.2 r.2 (some q.1.scanner.position) []).bind fun p3 =>
        .ok (gen p3 (.gen_1 .JVM_IF_ICMPGT), r.2)
      else if p1.token.type = .TOK_LE then
        (expect p1 p1.token.type).bind fun p2 =>
        (parse_simple n p2 none).bind fun q =>
        (check_types q.1 q.2 r.2 (some q.1.scanner.position) []).bind fun p3 =>
        .ok (gen p3 (.gen_1 .JVM_IF_ICMPLE), r.2)
      else if p1.token.type = .TOK_LT then
        (expect p1 p1.token.type).bind fun p2 =>
        (parse_simple n p2 none).bind fun q =>
        (check_types q.1 q.2 r.2 (some q.1.scanner.position) []).bind fun p3 =>
        .ok (gen p3 (.gen_1 .JVM_IF_ICMPLT), r.2)
      else .ok (p1, r.2)
    else .ok r

/-- The function `parse_simple`. -/
def parse_simple : Nat → Parser → Option Nat → Parse (Parser × Option Nat)
  | 0, _, _ => .nofuel
  | n + 1, p, type =>
    (if p.token.type = .TOK_MINUS then expect p .TOK_MINUS else .ok p).bind fun p1 =>
    (parse_term n p1 type).bind fun r =>
    (simple_loop n r.1 r.2 none).bind fun p2 =>
    .ok (p2, r.2)

/-- The `while` loop of `parse_simple`: `type` is the value of `*type` and
`t1` the value of the local `t1`. -/
def simple_loop : Nat → Parser → Option Nat → Option Nat → Parse Parser
  | 0, _, _, _ => .nofuel
  | n + 1, p, type, t1 =>
    if IS_ADDOP p.token.type then
      if p.token.type = .TOK_PLUS then
        (expect p p.token.type).bind fun p1 =>
        (parse_term n p1 t1).bind fun r =>
        (check_types r.1 r.2 type (some r.1.scanner.position) []).bind fun p2 =>
        simple_loop n (gen p2 (.gen_1 .JVM_IADD)) type r.2
      else if p.token.type = .TOK_MINUS then
        (expect p p.token.type).bind fun p1 =>
        (parse_term n p1 t1).bind fun r =>
        (check_types r.1 r.2 type (some r.1.scanner.position) []).bind fun p2 =>
        simple_loop n (gen p2 (.gen_1 .JVM_ISUB)) type r.2
      else if p.token.type = .TOK_OR then
        (expect p p.token.type).bind fun p1 =>
        (parse_term n p1 t1).bind fun r =>
        (check_types r.1 r.2 type (some r.1.scanner.position) []).bind fun p2 =>
        simple_loop n (gen p2 (.gen_1 .JVM_IOR)) type r.2
      else simple_loop n p type t1
    else .ok p

/-- The function `parse_term`. -/
def parse_term : Nat → Parser → Option Nat → Parse (Parser × Option Nat)
  | 0, _, _ => .nofuel
  | n + 1, p, type =>
    (parse_factor n p type).bind fun r =>
    (term_loop n r.1 r.2 none).bind fun p2 =>
    .ok (p2, r.2)

/-- The `while` loop of `parse_term`. -/
def term_loop : Nat → Parser → Option Nat → Option Nat → Parse Parser
  | 0, _, _, _ => .nofuel
  | n + 1, p, type, t1 =>
    if IS_MULOP p.token.type then
      if p.token.type = .TOK_MUL then
        (expect p p.token.type).bind fun p1 =>
        (parse_factor n p1 t1).bind fun r =>
        (check_types r.1 r.2 type (some r.1.scanner.position) []).bind fun p2 =>
        term_loop n (gen p2 (.gen_1 .JVM_IMUL)) type r.2
      else if p.token.type = .TOK_DIV then
        (expect p p.token.type).bind fun p1 =>
        (parse_factor n p1 t1).bind fun r =>
        (check_types r.1 r.2 type (some r.1.scanner.position) []).bind fun p2 =>
        term_loop n (gen p2 (.gen_1 .JVM_IDIV)) type r.2
      else if p.token.type = .TOK_MOD then
        (expect p p.token.type).bind fun p1 =>
        (parse_factor n p1 t1).bind fun r =>
        (check_types r.1 r.2 type (some r.1.scanner.position) []).bind fun p2 =>
        term_loop n (gen p2 (.gen_1 .JVM_IREM)) type r.2
      else if p.token.type = .TOK_AND then
        (expect p p.token.type).bind fun p1 =>
        (parse_factor n p1 t1).bind fun r =>
        (check_types r.1 r.2 type (some r.1.scanner.position) []).bind fun p2 =>
        term_loop n (gen p2 (.gen_1 .JVM_IAND)) type r.2
      else term_loop n p type t1
    else .ok p

/-- The function `parse_factor`.  After `find_name` has returned `TRUE` the
pointer `prop` refers to the property found; `abort_c` does not return for the
error codes it is called with, and what follows such a call passes the values
on unchanged. -/
def parse_factor : Nat → Parser → Option Nat → Parse (Parser × Option Nat)
  | 0, _, _ => .nofuel
  | n + 1, p, type =>
    if p.token.type = .TOK_ID then
      (expect_id p).bind fun r =>
      (Parse.of_option (find_name r.1.symtab r.2 unset_prop)).bind fun f =>
      (if f.1 = TRUE then
        if f.2.type = TYPE_INTEGER + TYPE_ARRAY ∨ f.2.type = TYPE_BOOLEAN + TYPE_ARRAY
        then
          Parse.ok (gen r.1 (.gen_2 .JVM_IALOAD f.2.offset), some f.2.type, some f.2)
        else .ok (gen r.1 (.gen_2 .JVM_ILOAD f.2.offset), some f.2.type, some f.2)
      else
        (abort_c r.1 .ERR_UNKNOWN_IDENTIFIER [.str r.2]).bind fun p1 =>
        .ok (p1, type, none)).bind fun q =>
      if q.1.token.type = .TOK_LBRACK then
        (parse_index n q.1 (some r.2)).bind fun p2 => .ok (p2, q.2.1)
      else if q.1.token.type = .TOK_LPAR then
        (parse_arglist n q.1 (some r.2) q.2.2).bind fun p2 => .ok (p2, q.2.1)
      else .ok (q.1, q.2.1)
    else if p.token.type = .TOK_LBRACK then
      (parse_index n p none).bind fun p2 => .ok (p2, type)
    else if p.token.type = .TOK_LPAR then
      (parse_arglist n { p with flag := 1 } none none).bind fun p2 =>
      .ok ({ p2 with flag := 0 }, type)
    else if p.token.type = .TOK_NUM then
      (expect (gen p (.gen_2 .JVM_LDC p.token.value)) .TOK_NUM).bind fun p2 =>
      .ok (p2, some TYPE_INTEGER)
    else if IS_RELOP p.token.type then
      let p1 : Parser := { p with relop := p.relop + 1 }
      if p1.relop > 1 then
        (abort_c p1 .ERR_FACTOR_EXPECTED []).bind fun p2 => .ok (p2, type)
      else .ok (p1, type)
    else if p.token.type = .TOK_NOT then
      (expect p .TOK_NOT).bind fun p1 =>
      (parse_factor n p1 none).bind fun r =>
      (check_types r.1 r.2 type (some r.1.scanner.position) []).bind fun p2 =>
      .ok (gen p2 (.gen_2 .JVM_IXOR 1), type)
    else if p.token.type = .TOK_TRUE then
      (expect p .TOK_TRUE).bind fun p1 =>
      .ok (gen p1 (.gen_2 .JVM_LDC 1), some TYPE_BOOLEAN)
    else if p.token.type = .TOK_FALSE then
      (expect p .TOK_FALSE).bind fun p1 =>
      .ok (gen p1 (.gen_2 .JVM_LDC 0), some TYPE_BOOLEAN)
    else (abort_c p .ERR_FACTOR_EXPECTED []).bind fun p2 => .ok (p2, type)

/-- The function `parse_index`; `id` is a null pointer in the call for a
factor that starts with `[`. -/
def parse_index : Nat → Parser → Option (List Nat) → Parse Parser
  | 0, _, _ => .nofuel
  | n + 1, p, id =>
    (expect p .TOK_LBRACK).bind fun p1 =>
    (parse_simple n p1 none).bind fun r =>
    (check_types r.1 r.2 (some TYPE_INTEGER) (some r.1.scanner.position)
      [.str (bytes "for array index of '%s'"), Arg.of_id id]).bind fun p2 =>
    expect p2 .TOK_RBRACK

/-- The function `parse_arglist`; `prop` is a null pointer in the call for a
factor that starts with `(`, and `prop->type` is then a fault. -/
def parse_arglist :
    Nat → Parser → Option (List Nat) → Option IDprop → Parse Parser
  | 0, _, _, _ => .nofuel
  | n + 1, p, _, prop =>
    let p : Parser := { p with relop := 0 }
    (expect p .TOK_LPAR).bind fun p1 =>
    (if p1.token.type = .TOK_RPAR ∧ p1.flag = 1 then
      abort_c p1 .ERR_FACTOR_EXPECTED []
     else .ok p1).bind fun p2 =>
    (if STARTS_EXPR p2.token.type then
      (parse_expr n p2 none).bind fun r =>
      (Parse.of_option prop).bind fun pr =>
      (check_types r.1 r.2 (some pr.type) (some r.1.scanner.position) []).bind
        fun p3 =>
      arglist_loop n p3 r.2 pr
     else .ok p2).bind fun p4 =>
    expect p4 .TOK_RPAR

/-- The `while` loop of `parse_arglist`. -/
def arglist_loop : Nat → Parser → Option Nat → IDprop → Parse Parser
  | 0, _, _, _ => .nofuel
  | n + 1, p, type, prop =>
    if p.token.type = .TOK_COMMA then
      (expect p .TOK_COMMA).bind fun p1 =>
      (parse_expr n p1 type).bind fun r =>
      (check_types r.1 r.2 (some prop.type) (some r.1.scanner.position) []).bind
        fun p2 =>
      arglist_loop n p2 r.2 prop
    else .ok p

end

/-- The function `parse_exit`, with `n` the depth allowed to `parse_expr`. -/
def parse_exit (n : Nat) (p : Parser) : Parse Parser :=
  (expect p .TOK_EXIT).bind fun p1 =>
  if STARTS_EXPR p1.token.type then
    (parse_expr n p1 none).bind fun r => .ok r.1
  else .ok p1

/-- The function `parse_read`: when `find_name` does not return `TRUE` the
function returns without a message. -/
def parse_read (n : Nat) (p : Parser) : Parse Parser :=
  (expect p .TOK_READ).bind fun p1 =>
  (expect_id p1).bind fun r =>
  if r.1.token.type = .TOK_LBRACK then parse_index n r.1 (some r.2)
  else
    (Parse.of_option (find_name r.1.symtab r.2 unset_prop)).bind fun f =>
    if f.1 = TRUE then
      .ok (gen (gen r.1 (.gen_read f.2.type)) (.gen_2 .JVM_ISTORE f.2.offset))
    else .ok r.1

/-- The `while` loops of `parse_write`, which are the same, with the value of
the local `type`. -/
def write_loop : Nat → Parser → Option Nat → Parse Parser
  | 0, _, _ => .nofuel
  | n + 1, p, type =>
    if p.token.type = .TOK_AMPERSAND then
      (expect p .TOK_AMPERSAND).bind fun p1 =>
      if p1.token.type = .TOK_STR then
        (expect (gen p1 (.gen_print_string p1.token.string)) .TOK_STR).bind fun p2 =>
        write_loop n p2 type
      else if STARTS_EXPR p1.token.type then
        (parse_expr n p1 type).bind fun r =>
        (Parse.of_option r.2).bind fun t =>
        write_loop n (gen r.1 (.gen_print t)) r.2
      else write_loop n p1 type
    else .ok p

/-- The function `parse_write`. -/
def parse_write (n : Nat) (p : Parser) : Parse Parser :=
  (expect p .TOK_WRITE).bind fun p1 =>
  if p1.token.type = .TOK_STR then
    (expect (gen p1 (.gen_print_string p1.token.string)) .TOK_STR).bind fun p2 =>
    if p2.token.type = .TOK_AMPERSAND then write_loop n p2 none else .ok p2
  else if STARTS_EXPR p1.token.type then
    (parse_expr n p1 none).bind fun r =>
    (Parse.of_option r.2).bind fun t =>
    let p2 :=
      if t = TYPE_INTEGER + TYPE_ARRAY then gen r.1 (.gen_print TYPE_INTEGER)
      else if t = TYPE_BOOLEAN + TYPE_ARRAY then gen r.1 (.gen_print TYPE_BOOLEAN)
      else gen r.1 (.gen_print t)
    if p2.token.type = .TOK_AMPERSAND then write_loop n p2 r.2 else .ok p2
  else abort_c p1 .ERR_EXPRESSION_OR_STRING_EXPECTED [.tok p1.token.type]

mutual

/-- The function `parse_statements`, at most `n` calls deep. -/
def parse_statements : Nat → Parser → Parse Parser
  | 0, _ => .nofuel
  | n + 1, p =>
    if IS_STATEMENT p.token.type then
      (parse_statement n p).bind fun p1 => statements_loop n p1
    else if !IS_STATEMENT p.token.type ∧ p.token.type ≠ .TOK_CHILL then
      abort_c p .ERR_STATEMENT_EXPECTED [.tok p.token.type]
    else if p.token.type = .TOK_CHILL then expect p .TOK_CHILL
    else .ok p

/-- The `while` loop of `parse_statements`. -/
def statements_loop : Nat → Parser → Parse Parser
  | 0, _ => .nofuel
  | n + 1, p =>
    if p.token.type = .TOK_SEMICOLON then
      (expect p .TOK_SEMICOLON).bind fun p1 =>
      (parse_statement n p1).bind fun p2 => statements_loop n p2
    else .ok p

/-- The function `parse_statement`. -/
def parse_statement : Nat → Parser → Parse Parser
  | 0, _ => .nofuel
  | n + 1, p =>
    if p.token.type = .TOK_EXIT then parse_exit n p
    else if p.token.type = .TOK_IF then parse_if n p
    else if p.token.type = .TOK_ID then parse_name n p
    else if p.token.type = .TOK_READ then parse_read n p
    else if p.token.type = .TOK_WHILE then parse_while n p
    else if p.token.type = .TOK_WRITE then parse_write n p
    else abort_c p .ERR_STATEMENT_EXPECTED [.tok p.token.type]

/-- The function `parse_if`. -/
def parse_if : Nat → Parser → Parse Parser
  | 0, _ => .nofuel
  | n + 1, p =>
    (expect p .TOK_IF).bind fun p1 =>
    (parse_expr n p1 none).bind fun r =>
    (check_types r.1 r.2 (some TYPE_BOOLEAN) (some r.1.scanner.position)
      [.str (bytes "for 'if' guard")]).bind fun p2 =>
    (expect p2 .TOK_THEN).bind fun p3 =>
    (parse_statements n p3).bind fun p4 =>
    (elsif_loop n p4 r.2).bind fun p5 =>
    (if p5.token.type = .TOK_ELSE then
      (expect p5 .TOK_ELSE).bind fun p6 => parse_statements n p6
     else .ok p5).bind fun p7 =>
    expect p7 .TOK_END

/-- The `while` loop of `parse_if`, with the value of the local `type`. -/
def elsif_loop : Nat → Parser → Option Nat → Parse Parser
  | 0, _, _ => .nofuel
  | n + 1, p, type =>
    if p.token.type = .TOK_ELSIF then
      (expect p .TOK_ELSIF).bind fun p1 =>
      (parse_expr n p1 type).bind fun r =>
      (check_types r.1 r.2 (some TYPE_BOOLEAN) (some r.1.scanner.position)
        [.str (bytes "for 'elsif' guard")]).bind fun p2 =>
      (expect p2 .TOK_THEN).bind fun p3 =>
      (parse_statements n p3).bind fun p4 =>
      elsif_loop n p4 r.2
    else .ok p

/-- The function `parse_name`: `type`, `offset` and `prop` are assigned when
`find_name` returns `TRUE`. -/
def parse_name : Nat → Parser → Parse Parser
  | 0, _ => .nofuel
  | n + 1, p =>
    (expect_id p).bind fun r =>
    let name := r.2
    (Parse.of_option (find_name r.1.symtab name unset_prop)).bind fun f =>
    (if f.1 = TRUE then
      Parse.ok (r.1, some f.2.type, (f.2.offset : Int), some f.2)
     else
      (abort_c r.1 .ERR_UNKNOWN_IDENTIFIER [.str name]).bind fun p1 =>
      .ok (p1, none, (0 : Int), none)).bind fun q =>
    let p1 := q.1
    let type := q.2.1
    let offset := q.2.2.1
    let prop := q.2.2.2
    if p1.token.type = .TOK_LPAR then
      (parse_arglist n p1 (some name) prop).bind fun p2 =>
      if p2.token.type = .TOK_SEMICOLON then
        (expect p2 .TOK_SEMICOLON).bind fun p3 => parse_statement n p3
      else if p2.token.type = .TOK_GETS then
        (expect p2 .TOK_GETS).bind fun p3 =>
        (if STARTS_EXPR p3.token.type then
          (expect p3 p3.token.type).bind fun p4 =>
          (parse_expr n p4 type).bind fun e => .ok e.1
         else if p3.token.type = .TOK_ARRAY then
          (expect p3 .TOK_ARRAY).bind fun p4 =>
          (parse_simple n p4 type).bind fun e =>
          check_types e.1 e.2 (some TYPE_INTEGER) (some e.1.scanner.position)
            [.str (bytes "for array size of '%s'"), .str name]
         else
          abort_c p3 .ERR_ARRAY_ALLOCATION_OR_EXPRESSION_EXPECTED
            [.tok p3.token.type]).bind fun p5 =>
        .ok (gen p5 (.gen_2 .JVM_ISTORE offset))
      else .ok p2
    else if p1.token.type = .TOK_LBRACK then
      (parse_index n (gen p1 (.gen_2 .JVM_ALOAD offset)) (some name)).bind fun p2 =>
      (expect p2 .TOK_GETS).bind fun p3 =>
      if STARTS_EXPR p3.token.type then
        (if STARTS_EXPR p3.token.type then parse_expr n p3 type
         else .ok (p3, type)).bind fun e =>
        (if IS_ADDOP e.1.token.type then
          (expect e.1 e.1.token.type).bind fun p4 => parse_expr n p4 e.2
         else .ok e).bind fun e2 =>
        .ok (gen e2.1 (.gen_2 .JVM_IASTORE offset))
      else if p3.token.type = .TOK_ARRAY then
        (expect p3 .TOK_ARRAY).bind fun p4 =>
        (parse_simple n p4 type).bind fun e =>
        check_types e.1 e.2 (some TYPE_INTEGER) (some e.1.scanner.position)
          [.str (bytes "for array size of '%s'"), .str name]
      else
        abort_c p3 .ERR_ARRAY_ALLOCATION_OR_EXPRESSION_EXPECTED
          [.tok p3.token.type]
    else if p1.token.type = .TOK_GETS then
      (Parse.of_option type).bind fun t =>
      let p2 :=
        if t = TYPE_INTEGER + TYPE_ARRAY then gen p1 (.gen_2 .JVM_ASTORE offset)
        else p1
      (expect p2 .TOK_GETS).bind fun p3 =>
      if STARTS_EXPR p3.token.type then
        (parse_expr n p3 type).bind fun e =>
        .ok (gen e.1 (.gen_2 .JVM_ISTORE offset))
      else if p3.token.type = .TOK_ARRAY then
        (expect p3 .TOK_ARRAY).bind fun p4 =>
        (parse_simple n p4 type).bind fun e =>
        check_types e.1 e.2 (some TYPE_INTEGER) (some e.1.scanner.position)
          [.str (bytes "for array size of '%s'"), .str name]
      else
        abort_c (col_back p3) .ERR_ARRAY_ALLOCATION_OR_EXPRESSION_EXPECTED
          [.tok p3.token.type]
    else
      abort_c p1 .ERR_ARGUMENT_LIST_OR_VARIABLE_ASSIGNMENT_EXPECTED
        [.tok p1.token.type]

/-- The function `parse_while`. -/
def parse_while : Nat → Parser → Parse Parser
  | 0, _ => .nofuel
  | n + 1, p =>
    (expect p .TOK_WHILE).bind fun p1 =>
    (parse_expr n p1 none).bind fun r =>
    (check_types r.1 r.2 (some TYPE_BOOLEAN) (some r.1.scanner.position)
      [.str (bytes "for 'while' guard")]).bind fun p2 =>
    (expect p2 .TOK_DO).bind fun p3 =>
    (parse_statements n p3).bind fun p4 =>
    expect p4 .TOK_END

end

/-- The function `parse_type`: the state and the value of `*type`. -/
def parse_type (p : Parser) (type : Option Nat) : Parse (Parser × Option Nat) :=
  if p.token.type = .TOK_BOOLEAN then
    (expect p .TOK_BOOLEAN).bind fun p1 =>
    if p1.token.type = .TOK_ARRAY then
      (expect p1 .TOK_ARRAY).bind fun p2 => .ok (p2, some (SET_AS_ARRAY TYPE_BOOLEAN))
    else .ok (p1, some TYPE_BOOLEAN)
  else if p.token.type = .TOK_INTEGER then
    (expect p .TOK_INTEGER).bind fun p1 =>
    if p1.token.type = .TOK_ARRAY then
      (expect p1 .TOK_ARRAY).bind fun p2 => .ok (p2, some (SET_AS_ARRAY TYPE_INTEGER))
    else .ok (p1, some TYPE_INTEGER)
  else
    (abort_c p .ERR_TYPE_EXPECTED [.tok p.token.type]).bind fun p1 =>
    .ok (p1, type)

/-- The declaration of the variable `vname` in `parse_vardef`, which has these
statements twice: `make_var`, `make_idprop` with the current width as offset,
and `insert_name` when `find_name` returns `FALSE`, `abort_c` when it does
not.  The result of `insert_name` is not looked at. -/
def declare_variable (p : Parser) (vname : List Nat) (type : Nat) : Parse Parser :=
  let v := make_var vname type p.scanner.position
  let prop := make_idprop v.type (get_variables_width p.symtab) 0 []
  (Parse.of_option (find_name p.symtab vname prop)).bind fun f =>
  if f.1 = FALSE then
    (Parse.of_option (insert_name p.symtab vname f.2)).bind fun r =>
    .ok { p with symtab := r.2 }
  else abort_c p .ERR_MULTIPLE_DEFINITION [.str vname]

/-- The `while` loop of `parse_vardef`, at most `n` iterations. -/
def vardef_loop : Nat → Parser → Nat → Parse Parser
  | 0, _, _ => .nofuel
  | n + 1, p, type =>
    if p.token.type = .TOK_COMMA then
      (expect p .TOK_COMMA).bind fun p1 =>
      (expect_id p1).bind fun r =>
      (declare_variable r.1 r.2 type).bind fun p2 =>
      vardef_loop n p2 type
    else .ok p

/-- The function `parse_vardef`. -/
def parse_vardef (n : Nat) (p : Parser) : Parse Parser :=
  (parse_type p none).bind fun r =>
  (expect_id r.1).bind fun q =>
  (Parse.of_option r.2).bind fun type =>
  (declare_variable q.1 q.2 type).bind fun p1 =>
  (vardef_loop n p1 type).bind fun p2 =>
  expect p2 .TOK_SEMICOLON

/-- The `while` loop of `parse_body`, at most `n` iterations. -/
def body_loop : Nat → Parser → Parse Parser
  | 0, _ => .nofuel
  | n + 1, p =>
    if IS_TYPE_TOKEN p.token.type then
      (parse_vardef n p).bind fun p1 => body_loop n p1
    else .ok p

/-- The function `parse_body`. -/
def parse_body (n : Nat) (p : Parser) : Parse Parser :=
  (expect p .TOK_BEGIN).bind fun p1 =>
  (if IS_TYPE_TOKEN p1.token.type then body_loop n p1 else .ok p1).bind fun p2 =>
  (parse_statements n p2).bind fun p3 =>
  expect p3 .TOK_END

/-- The `while` loop of `parse_funcdef` over the parameters after the first:
the state and the list from `head` on. -/
def params_loop : Nat → Parser → List Variable → Parse (Parser × List Variable)
  | 0, _, _ => .nofuel
  | n + 1, p, vars =>
    if p.token.type = .TOK_COMMA then
      (expect p .TOK_COMMA).bind fun p1 =>
      (parse_type p1 none).bind fun r =>
      (expect_id r.1).bind fun q =>
      (Parse.of_option r.2).bind fun type =>
      params_loop n q.1 (vars ++ [make_var q.2 type q.1.scanner.position])
    else .ok (p, vars)

/-- The second `for` loop of `parse_funcdef`: every parameter is inserted with
the current width as its offset, and the result of `insert_name` is not looked
at. -/
def insert_params : Parser → List Variable → Parse Parser
  | p, [] => .ok p
  | p, v :: rest =>
    let var := make_var v.id v.type p.scanner.position
    let idprop := make_idprop var.type (get_variables_width p.symtab) 0 []
    (Parse.of_option (insert_name p.symtab var.id idprop)).bind fun r =>
    insert_params { p with symtab := r.2 } rest

/-- The function `parse_funcdef`: `params[0] = head->type` is a fault when the
list of parameters is empty, `head` being null then.  The type after `->` is
parsed into the local `type` and not used. -/
def parse_funcdef (n : Nat) (p : Parser) : Parse Parser :=
  (expect p .TOK_DEFINE).bind fun p1 =>
  (expect_id p1).bind fun f =>
  let function_name := f.2
  (expect f.1 .TOK_LPAR).bind fun p2 =>
  (if IS_TYPE_TOKEN p2.token.type then
    (parse_type p2 none).bind fun r =>
    (expect_id r.1).bind fun q =>
    (Parse.of_option r.2).bind fun type =>
    params_loop n q.1 [make_var q.2 type q.1.scanner.position]
   else .ok (p2, [])).bind fun a =>
  let vars := a.2
  (expect a.1 .TOK_RPAR).bind fun p3 =>
  (if p3.token.type = .TOK_TO then
    (expect p3 .TOK_TO).bind fun p4 =>
    (parse_type p4 none).bind fun r => .ok r.1
   else .ok p3).bind fun p5 =>
  match vars with
  | [] => .fault
  | _ :: _ =>
    let params := vars.map Variable.type
    let prop := make_idprop TYPE_CALLABLE (get_variables_width p5.symtab) vars.length
      params
    let p6 := gen p5 (.gen_call function_name prop)
    (Parse.of_option (open_subroutine p6.symtab function_name prop)).bind fun o =>
    let p7 := gen { p6 with symtab := o.2 } (.init_subroutine_codegen function_name
      (some prop))
    (insert_params p7 vars).bind fun p8 =>
    (parse_body n p8).bind fun p9 =>
    let p10 := gen (gen p9 (.gen_1 .JVM_RETURN))
      (.close_subroutine_codegen (get_variables_width p9.symtab))
    (Parse.of_option (close_subroutine p10.symtab)).bind fun st =>
    .ok { p10 with symtab := st }

/-- The `while` loop of `parse_program`, at most `n` iterations. -/
def program_loop : Nat → Parser → Parse Parser
  | 0, _ => .nofuel
  | n + 1, p =>
    if p.token.type = .TOK_DEFINE then
      (parse_funcdef n p).bind fun p1 => program_loop n p1
    else .ok p

/-- The function `parse_program`, with `n` the depth allowed to the calls and
loops below it. -/
def parse_program (n : Nat) (p : Parser) : Parse Parser :=
  let p0 := gen p (.init_subroutine_codegen (bytes "main") none)
  (expect p0 .TOK_PROGRAM).bind fun p1 =>
  (expect_id p1).bind fun r =>
  let p2 := gen r.1 (.set_class_name r.2)
  (program_loop n p2).bind fun p3 =>
  (parse_body n p3).bind fun p4 =>
  .ok (gen (gen p4 (.gen_1 .JVM_RETURN))
    (.close_subroutine_codegen (get_variables_width p4.symtab)))

/-- The function `main` from `init_scanner` to the return of `parse_program`,
for a source file with the bytes `in_file`: the scanner, the symbol table and
the code emitter are initialised, the first token is read, and the program is
parsed.  The depth of the calls is bounded by a multiple of the length of the
source file. -/
def main (in_file : List Nat) : Parse Parser :=
  let p : Parser :=
    { scanner := init_scanner in_file, token := empty_token,
      symtab := init_symbol_table, code := [], relop := 0, flag := 0 }
  (next_token p).bind fun p1 => parse_program (8 * (in_file.length + 8)) p1

/-- The calls of the code emitter a run has made when it returns. -/
def emitted (x : Parse Parser) : Parse (List Emit) := x.bind fun p => .ok p.code

/-- The guard of `if`, `elsif` or `while`: `expect` reads the keyword `tok`,
then `parse_expr` runs on the local `type`, at most `n` calls deep.  The result
is the global position and the value of `type` when both calls return and
`type` is assigned. -/
def parse_guard (n : Nat) (p : Parser) (tok : TokenType) (type : Option Nat) :
    Option (SourcePos × Nat) :=
  match (expect p tok).bind fun p1 => parse_expr n p1 type with
  | .ok r => r.2.map fun t => (r.1.scanner.position, t)
  | .abort _ _ => none
  | .fault => none
  | .nofuel => none

/-- An example state of the parser: the lookahead is the keyword `tok`, the
rest of the source file is `rest`, and no name is declared. -/
def keyword_state (tok : TokenType) (rest : String) : Parser :=
  { scanner := init_scanner (bytes rest), token := { empty_token with type := tok },
    symtab := init_symbol_table, code := [], relop := 0, flag := 0 }

/-- The state of the parser when `main` calls `parse_program`: the scanner, the
symbol table and the code emitter are initialised and the first token is read.
When that `get_token` does not return, it is the state before it. -/
def first_token (in_file : List Nat) : Parser :=
  let p : Parser :=
    { scanner := init_scanner in_file, token := empty_token,
      symtab := init_symbol_table, code := [], relop := 0, flag := 0 }
  match next_token p with
  | .ok p1 => p1
  | .abort _ _ => p
  | .fault => p
  | .nofuel => p

/-- The tokens ahead of the parser, each given by its type and, for a number,
its value: the lookahead token is the first of `ts`, and every further token of
`ts` is what the next call of `get_token` returns. -/
def reads_tokens : Scanner → Token → List (TokenType × Int) → Bool
  | _, _, [] => true
  | s, tok, t :: ts =>
    (tok.type == t.1 && (t.1 != .TOK_NUM || tok.value == t.2)) &&
    (ts.isEmpty ||
      match get_token s tok with
      | .ok r => reads_tokens r.1 r.2 ts
      | .abort _ _ => false
      | .fault => false)

/-- A literal: a number, `true` or `false`. -/
inductive Literal where
  | num (value : Int)
  | tru
  | fls
deriving DecidableEq, Repr

/-- The token of a literal. -/
def Literal.token : Literal → TokenType × Int
  | .num value => (.TOK_NUM, value)
  | .tru => (.TOK_TRUE, 0)
  | .fls => (.TOK_FALSE, 0)

/-- The type of a literal. -/
def Literal.type : Literal → Nat
  | .num _ => TYPE_INTEGER
  | .tru => TYPE_BOOLEAN
  | .fls => TYPE_BOOLEAN

/-- Modelled from the spec: an expression built from literals and binary
operators, an operator being given by its token type. -/
inductive Exp where
  | lit (l : Literal)
  | bin (op : TokenType) (left right : Exp)
deriving DecidableEq, Repr

/-- Modelled from the spec: the instruction of a binary operator, as the table
of emitted instructions gives it. -/
def instruction : TokenType → Option Bytecode
  | .TOK_PLUS => some .JVM_IADD
  | .TOK_MINUS => some .JVM_ISUB
  | .TOK_OR => some .JVM_IOR
  | .TOK_MUL => some .JVM_IMUL
  | .TOK_DIV => some .JVM_IDIV
  | .TOK_MOD => some .JVM_IREM
  | .TOK_AND => some .JVM_IAND
  | .TOK_EQ => some .JVM_IF_ICMPEQ
  | .TOK_NE => some .JVM_IF_ICMPNE
  | .TOK_LT => some .JVM_IF_ICMPLT
  | .TOK_LE => some .JVM_IF_ICMPLE
  | .TOK_GT => some .JVM_IF_ICMPGT
  | .TOK_GE => some .JVM_IF_ICMPGE
  | _ => none

/-- Modelled from the spec: the calls of the code emitter for a literal. -/
def Literal.code : Literal → List Emit
  | .num value => [.gen_2 .JVM_LDC value]
  | .tru => [.gen_2 .JVM_LDC 1]
  | .fls => [.gen_2 .JVM_LDC 0]

/-- Modelled from the spec: the post-order of an expression: the instructions
of the left operand, then those of the right operand, then the instruction of
the operator. -/
def postorder : Exp → List Emit
  | .lit l => l.code
  | .bin op left right =>
    postorder left ++ postorder right ++ (instruction op).toList.map Emit.gen_1

/-- A term of literals as the grammar writes it: a literal, and the operators
with the literals that follow them. -/
abbrev Term := Literal × List (TokenType × Literal)

/-- A simple expression of literals without a sign: a term, and the operators
with the terms that follow them. -/
abbrev Simple := Term × List (TokenType × Term)

/-- An expression of literals: a simple expression, and at most one operator
with a simple expression after it. -/
abbrev Expression := Simple × Option (TokenType × Simple)

/-- The tokens of the operators and literals after the first literal of a
term. -/
def factors_tokens (fs : List (TokenType × Literal)) : List (TokenType × Int) :=
  (fs.map fun o => [(o.1, (0 : Int)), o.2.token]).flatten

/-- The tokens of a term. -/
def Term.tokens (t : Term) : List (TokenType × Int) := t.1.token :: factors_tokens t.2

/-- The tokens of the operators and terms after the first term of a simple
expression. -/
def terms_tokens (ts : List (TokenType × Term)) : List (TokenType × Int) :=
  (ts.map fun o => (o.1, (0 : Int)) :: Term.tokens o.2).flatten

/-- The tokens of a simple expression. -/
def Simple.tokens (s : Simple) : List (TokenType × Int) :=
  Term.tokens s.1 ++ terms_tokens s.2

/-- The tokens of an expression. -/
def Expression.tokens (e : Expression) : List (TokenType × Int) :=
  match e.2 with
  | none => Simple.tokens e.1
  | some o => Simple.tokens e.1 ++ (o.1, (0 : Int)) :: Simple.tokens o.2

/-- The tree of a term: its operators associate to the left. -/
def Term.tree (t : Term) : Exp :=
  t.2.foldl (fun a o => .bin o.1 a (.lit o.2)) (.lit t.1)

/-- The tree of a simple expression: its operators associate to the left. -/
def Simple.tree (s : Simple) : Exp :=
  s.2.foldl (fun a o => .bin o.1 a (Term.tree o.2)) (Term.tree s.1)

/-- The tree of an expression. -/
def Expression.tree (e : Expression) : Exp :=
  match e.2 with
  | none => Simple.tree e.1
  | some o => .bin o.1 (Simple.tree e.1) (Simple.tree o.2)

/-- The operators of a term are `*`, `/`, `mod` (or `%`) and `and`, and every
literal has the type `T`. -/
def Term.valid (T : Nat) (t : Term) : Bool :=
  t.1.type == T && t.2.all fun o => IS_MULOP o.1 && o.2.type == T

/-- The operators between the terms are `+`, `-` and `or`, and every term is
valid. -/
def Simple.valid (T : Nat) (s : Simple) : Bool :=
  Term.valid T s.1 && s.2.all fun o => IS_ADDOP o.1 && Term.valid T o.2

/-- The operator of the expression, when it has one, is relational, and both
simple expressions are valid. -/
def Expression.valid (T : Nat) (e : Expression) : Bool :=
  Simple.valid T e.1 &&
    match e.2 with
    | none => true
    | some o => IS_RELOP o.1 && Simple.valid T o.2

/-- The token type cannot continue an expression: it is no operator. -/
def ends_expression (toktype : TokenType) : Bool :=
  !IS_MULOP toktype && !IS_ADDOP toktype && !IS_RELOP toktype

/-- Modelled from the spec: the operator token that starts with the character
`c` when the character after it is `d`, and the number of characters it takes:
the longest match with one character of lookahead.  A `(` followed by `*`
opens a comment and is no token. -/
def operator_token (c d : Int) : Option (TokenType × Nat) :=
  if c = 60 then
    if d = 61 then some (.TOK_LE, 2)
    else if d = 45 then some (.TOK_GETS, 2)
    else some (.TOK_LT, 1)
  else if c = 62 then
    if d = 61 then some (.TOK_GE, 2) else some (.TOK_GT, 1)
  else if c = 45 then
    if d = 62 then some (.TOK_TO, 2) else some (.TOK_MINUS, 1)
  else if c = 40 then
    if d = 42 then none else some (.TOK_LPAR, 1)
  else if c = 61 then some (.TOK_EQ, 1)
  else if c = 35 then some (.TOK_NE, 1)
  else if c = 43 then some (.TOK_PLUS, 1)
  else if c = 42 then some (.TOK_MUL, 1)
  else if c = 47 then some (.TOK_DIV, 1)
  else if c = 38 then some (.TOK_AMPERSAND, 1)
  else if c = 91 then some (.TOK_LBRACK, 1)
  else if c = 93 then some (.TOK_RBRACK, 1)
  else if c = 44 then some (.TOK_COMMA, 1)
  else if c = 41 then some (.TOK_RPAR, 1)
  else if c = 59 then some (.TOK_SEMICOLON, 1)
  else none

/-- The statement `position.col = column_number` of `get_token`, which
remembers where the token starts. -/
def token_start (s : Scanner) : Scanner :=
  { s with position := { s.position with col := s.column_number } }

/-- Modelled from the spec: the rotation of a 32-bit word to the left by `k`
bits, for `k` up to 32: the low `32 - k` bits move up by `k` places and the
high `k` bits come down to the low end. -/
def rotate_left_32 (h k : Nat) : Nat :=
  (h % 2 ^ (32 - k)) * 2 ^ k + h / 2 ^ (32 - k)

/-- Modelled from the spec: the hash of a key before the reduction to the
table, `h = rotate_left(h, 5) + b` for each byte `b` in order, from `h = 0`, in
unsigned 32-bit arithmetic. -/
def rotate_hash (key : List Nat) : Nat :=
  key.foldl (fun h b => (rotate_left_32 h 5 + b) % 2 ^ 32) 0

/-! ## Theorems -/

theorem log2_fuel_spec : ∀ (fuel n : Nat), n ≤ fuel → 0 < n →
    2 ^ log2_fuel fuel n ≤ n ∧ n < 2 ^ (log2_fuel fuel n + 1)
  | 0, n, h, hp => by omega
  | fuel + 1, n, h, hp => by
    by_cases h2 : n < 2
    · simp only [log2_fuel, h2, if_true]
      constructor <;> norm_num <;> omega
    · simp only [log2_fuel, h2, if_false]
      obtain ⟨a, b⟩ := log2_fuel_spec fuel (n / 2) (by omega) (by omega)
      generalize log2_fuel fuel (n / 2) = k at a b
      rw [pow_succ, pow_succ]
      rw [pow_succ] at b
      constructor <;> omega

theorem ilog2_spec (n : Nat) (hp : 0 < n) : 2 ^ ilog2 n ≤ n ∧ n < 2 ^ (ilog2 n + 1) :=
  log2_fuel_spec n n (le_refl n) hp

theorem round_half_even_near (N D : Nat) (hD : 0 < D) :
    2 * (round_half_even N D * D) ≤ 2 * N + D ∧
    2 * N ≤ 2 * (round_half_even N D * D) + D := by
  have h1 := Nat.div_add_mod N D
  have h2 := Nat.mod_lt N hD
  have e : (N / D + 1) * D = D * (N / D) + D := by ring
  have e0 : N / D * D = D * (N / D) := by ring
  unfold round_half_even
  simp only
  split_ifs <;> simp only [e, e0] <;> constructor <;> omega

theorem round_quot_near (a b c k Z : ℚ) (hb : 0 < b) (hZ : 0 < Z)
    (h1 : 2 * (k * (b * c)) ≤ 2 * (a * Z) + b * c)
    (h2 : 2 * (a * Z) ≤ 2 * (k * (b * c)) + b * c)
    (h3 : 2 ^ 23 * (b * c) ≤ a * Z) :
    a / b * (1 - 1 / 2 ^ 24) ≤ k * c / Z ∧ k * c / Z ≤ a / b * (1 + 1 / 2 ^ 24) := by
  constructor
  · rw [div_mul_eq_mul_div, div_le_div_iff₀ hb hZ]
    norm_num at h3 ⊢
    linarith
  · rw [div_mul_eq_mul_div, div_le_div_iff₀ hZ hb]
    norm_num at h3 ⊢
    linarith

/-- The rounding to binary32 changes a positive value by at most one part in
`2 ^ 24`. -/
theorem to_float_near (q : ℚ) (hq : 0 < q) :
    q * (1 - 1 / 2 ^ 24) ≤ to_float q ∧ to_float q ≤ q * (1 + 1 / 2 ^ 24) := by
  have hnum : 0 < q.num := Rat.num_pos.mpr hq
  obtain ⟨a, ha⟩ : ∃ a : Nat, q.num = (a : Int) :=
    ⟨q.num.toNat, (Int.toNat_of_nonneg hnum.le).symm⟩
  have ha0 : 0 < a := by omega
  have hb0 : 0 < q.den := q.den_pos
  have hq2 : q = (a : ℚ) / (q.den : ℚ) := by
    have := Rat.num_div_den q
    rw [ha, Int.cast_natCast] at this
    exact this.symm
  have hta : q.num.toNat = a := by rw [ha]; rfl
  unfold to_float
  simp only [hta, if_neg (by omega : ¬ a = 0)]
  generalize q.den = b at hb0 hq2 ⊢
  obtain ⟨la1, _⟩ := ilog2_spec a ha0
  obtain ⟨_, lb2⟩ := ilog2_spec b hb0
  have hZ : (2 : Nat) ^ (ilog2 b + 24) = 2 ^ (ilog2 b + 1) * 2 ^ 23 := by
    rw [← pow_add]
  have hMD : 2 ^ 23 * (b * 2 ^ ilog2 a) ≤ a * 2 ^ (ilog2 b + 24) := by
    rw [hZ]
    have := Nat.mul_le_mul (Nat.mul_le_mul lb2.le la1) (le_refl (2 ^ 23))
    calc 2 ^ 23 * (b * 2 ^ ilog2 a) = b * 2 ^ ilog2 a * 2 ^ 23 := by ring
      _ ≤ 2 ^ (ilog2 b + 1) * a * 2 ^ 23 := this
      _ = a * (2 ^ (ilog2 b + 1) * 2 ^ 23) := by ring
  have hZq : (0 : ℚ) < ((2 ^ (ilog2 b + 24) : Nat) : ℚ) := by positivity
  have hbq : (0 : ℚ) < (b : ℚ) := by exact_mod_cast hb0
  rw [hq2]
  generalize ilog2 b + 24 = zb at hMD hZq ⊢
  generalize ilog2 a = la at hMD la1 ⊢
  split_ifs with hc
  · have hD : 0 < b * 2 ^ la := by positivity
    obtain ⟨r1, r2⟩ := round_half_even_near (a * 2 ^ zb) (b * 2 ^ la) hD
    generalize round_half_even (a * 2 ^ zb) (b * 2 ^ la) = k at r1 r2
    have := round_quot_near (a : ℚ) (b : ℚ) ((2 ^ la : Nat) : ℚ) (k : ℚ)
      ((2 ^ zb : Nat) : ℚ) hbq hZq (by exact_mod_cast r1) (by exact_mod_cast r2)
      (by exact_mod_cast hMD)
    simpa using this
  · have hD : 0 < 2 * (b * 2 ^ la) := by positivity
    obtain ⟨r1, r2⟩ := round_half_even_near (a * 2 ^ zb) (2 * (b * 2 ^ la)) hD
    generalize round_half_even (a * 2 ^ zb) (2 * (b * 2 ^ la)) = k at r1 r2
    have hc2 : 2 ^ 23 * (b * (2 * 2 ^ la)) ≤ a * 2 ^ zb := by
      have : 2 ^ 24 * (b * 2 ^ la) ≤ a * 2 ^ zb := Nat.le_of_not_lt hc
      calc 2 ^ 23 * (b * (2 * 2 ^ la)) = 2 ^ 24 * (b * 2 ^ la) := by ring
        _ ≤ a * 2 ^ zb := this
    have e : 2 * (b * 2 ^ la) = b * (2 * 2 ^ la) := by ring
    rw [e] at r1 r2
    have := round_quot_near (a : ℚ) (b : ℚ) ((2 * 2 ^ la : Nat) : ℚ) (k : ℚ)
      ((2 ^ zb : Nat) : ℚ) hbq hZq (by exact_mod_cast r1) (by exact_mod_cast r2)
      (by exact_mod_cast hc2)
    simpa using this

theorem to_float_zero : to_float 0 = 0 := by
  unfold to_float
  simp

theorem to_float_nonneg (q : ℚ) (hq : 0 ≤ q) : 0 ≤ to_float q := by
  rcases hq.eq_or_lt with h | h
  · rw [← h, to_float_zero]
  · have := (to_float_near q h).1
    have h2 : 0 ≤ q * (1 - 1 / 2 ^ 24) := mul_nonneg h.le (by norm_num)
    linarith

/-- The load that `ht_insert` computes differs from the exact quotient by at
most one part in `2 ^ 22`. -/
theorem float_load_near (n s : Nat) (hs : 0 < s) :
    (n : ℚ) / (s : ℚ) * (1 - 1 / 2 ^ 22) ≤ float_load n s ∧
    float_load n s ≤ (n : ℚ) / (s : ℚ) * (1 + 1 / 2 ^ 22) := by
  unfold float_load
  have hsq : (0 : ℚ) < (s : ℚ) := by exact_mod_cast hs
  obtain ⟨s1, s2⟩ := to_float_near (s : ℚ) hsq
  have hfs : 0 < to_float (s : ℚ) := by
    have : 0 < (s : ℚ) * (1 - 1 / 2 ^ 24) := mul_pos hsq (by norm_num)
    linarith
  rcases Nat.eq_zero_or_pos n with h0 | hn
  · subst h0
    simp [to_float_zero]
  · have hnq : (0 : ℚ) < (n : ℚ) := by exact_mod_cast hn
    obtain ⟨n1, n2⟩ := to_float_near (n : ℚ) hnq
    have hfn : 0 < to_float (n : ℚ) := by
      have : 0 < (n : ℚ) * (1 - 1 / 2 ^ 24) := mul_pos hnq (by norm_num)
      linarith
    have hx : 0 < to_float (n : ℚ) / to_float (s : ℚ) := div_pos hfn hfs
    obtain ⟨x1, x2⟩ := to_float_near _ hx
    have hup : to_float (n : ℚ) / to_float (s : ℚ) ≤
        (n : ℚ) / (s : ℚ) * ((1 + 1 / 2 ^ 24) / (1 - 1 / 2 ^ 24)) := by
      rw [div_mul_div_comm]
      exact div_le_div₀ (by positivity) n2 (mul_pos hsq (by norm_num)) s1
    have hlo : (n : ℚ) / (s : ℚ) * ((1 - 1 / 2 ^ 24) / (1 + 1 / 2 ^ 24)) ≤
        to_float (n : ℚ) / to_float (s : ℚ) := by
      rw [div_mul_div_comm]
      exact div_le_div₀ hfn.le n1 hfs s2
    have hr : (0 : ℚ) ≤ (n : ℚ) / (s : ℚ) := by positivity
    constructor
    · refine le_trans ?_ x1
      refine le_trans ?_ (mul_le_mul_of_nonneg_right hlo (by norm_num))
      rw [mul_assoc]
      exact mul_le_mul_of_nonneg_left (by norm_num) hr
    · refine le_trans x2 ?_
      refine le_trans (mul_le_mul_of_nonneg_right hup (by norm_num)) ?_
      rw [mul_assoc]
      exact mul_le_mul_of_nonneg_left (by norm_num) hr

theorem float_load_le (n s : Nat) (L : ℚ) (hs : 0 < s)
    (h : (n : ℚ) * (1 + 1 / 2 ^ 22) ≤ L * (s : ℚ)) : float_load n s ≤ L := by
  have hsq : (0 : ℚ) < (s : ℚ) := by exact_mod_cast hs
  refine le_trans (float_load_near n s hs).2 ?_
  rw [div_mul_eq_mul_div, div_le_iff₀ hsq]
  exact h

theorem le_of_float_load (n s : Nat) (L : ℚ) (hs : 0 < s) (h : float_load n s ≤ L) :
    (n : ℚ) * (1 - 1 / 2 ^ 22) ≤ L * (s : ℚ) := by
  have hsq : (0 : ℚ) < (s : ℚ) := by exact_mod_cast hs
  have := le_trans (float_load_near n s hs).1 h
  rwa [div_mul_eq_mul_div, div_le_iff₀ hsq] at this

theorem trial_spec (n : Nat) : ∀ (f a : Nat), trial n f a = true →
    ∀ j, j < f → ¬ (a + 2 * j) ∣ n
  | 0, _, _, j, hj => by omega
  | f + 1, a, h, j, hj => by
    simp only [trial, Bool.and_eq_true, bne_iff_ne, ne_eq] at h
    cases j with
    | zero => intro hd; exact h.1 (Nat.mod_eq_zero_of_dvd hd)
    | succ j =>
      have := trial_spec n f (a + 2) h.2 j (by omega)
      have e : a + 2 * (j + 1) = a + 2 + 2 * j := by ring
      rw [e]; exact this

theorem prime_of_trial (n f : Nat) (h2 : 2 ≤ n) (hodd : n % 2 = 1)
    (hf : n < (3 + 2 * f) * (3 + 2 * f)) (h : trial n f 3 = true) : n.Prime := by
  rw [Nat.prime_def_le_sqrt]
  refine ⟨h2, fun m hm hs hd => ?_⟩
  have h3 : m * m ≤ n := Nat.le_sqrt.mp hs
  have hlt : m < 3 + 2 * f := by
    by_contra hcon
    have h4 : 3 + 2 * f ≤ m := by omega
    have := Nat.mul_le_mul h4 h4
    omega
  rcases Nat.even_or_odd m with he | ho
  · have : 2 ∣ n := Dvd.dvd.trans (even_iff_two_dvd.mp he) hd
    omega
  · obtain ⟨j, hj⟩ := ho
    have hj1 : 1 ≤ j := by omega
    have := trial_spec n f 3 h (j - 1) (by omega)
    apply this
    have e : 3 + 2 * (j - 1) = m := by omega
    rw [e]; exact hd

set_option maxRecDepth 1000000 in
theorem prime_size_table (i : Nat) (h4 : 4 ≤ i) (h31 : i ≤ 31) :
    Nat.Prime (2 ^ i - delta.getD i 0) := by
  interval_cases i
  · exact prime_of_trial 13 1 (by decide) (by decide) (by decide) (by decide!)
  · exact prime_of_trial 31 2 (by decide) (by decide) (by decide) (by decide!)
  · exact prime_of_trial 61 3 (by decide) (by decide) (by decide) (by decide!)
  · exact prime_of_trial 127 5 (by decide) (by decide) (by decide) (by decide!)
  · exact prime_of_trial 251 7 (by decide) (by decide) (by decide) (by decide!)
  · exact prime_of_trial 509 10 (by decide) (by decide) (by decide) (by decide!)
  · exact prime_of_trial 1021 15 (by decide) (by decide) (by decide) (by decide!)
  · exact prime_of_trial 2039 22 (by decide) (by decide) (by decide) (by decide!)
  · exact prime_of_trial 4093 31 (by decide) (by decide) (by decide) (by decide!)
  · exact prime_of_trial 8191 44 (by decide) (by decide) (by decide) (by decide!)
  · exact prime_of_trial 16381 63 (by decide) (by decide) (by decide) (by decide!)
  · exact prime_of_trial 32749 90 (by decide) (by decide) (by decide) (by decide!)
  · exact prime_of_trial 65521 127 (by decide) (by decide) (by decide) (by decide!)
  · exact prime_of_trial 131071 180 (by decide) (by decide) (by decide) (by decide!)
  · exact prime_of_trial 262139 255 (by decide) (by decide) (by decide) (by decide!)
  · exact prime_of_trial 524287 361 (by decide) (by decide) (by decide) (by decide!)
  · exact prime_of_trial 1048573 511 (by decide) (by decide) (by decide) (by decide!)
  · exact prime_of_trial 2097143 723 (by decide) (by decide) (by decide) (by decide!)
  · exact prime_of_trial 4194301 1023 (by decide) (by decide) (by decide) (by decide!)
  · exact prime_of_trial 8388593 1447 (by decide) (by decide) (by decide) (by decide!)
  · exact prime_of_trial 16777213 2047 (by decide) (by decide) (by decide) (by decide!)
  · exact prime_of_trial 33554393 2895 (by decide) (by decide) (by decide) (by decide!)
  · exact prime_of_trial 67108859 4095 (by decide) (by decide) (by decide) (by decide!)
  · exact prime_of_trial 134217689 5792 (by decide) (by decide) (by decide) (by decide!)
  · exact prime_of_trial 268435399 8191 (by decide) (by decide) (by decide) (by decide!)
  · exact prime_of_trial 536870909 11584 (by decide) (by decide) (by decide) (by decide!)
  · exact prime_of_trial 1073741789 16383 (by decide) (by decide) (by decide) (by decide!)
  · exact prime_of_trial 2147483647 23170 (by decide) (by decide) (by decide) (by decide!)


theorem rehash_core_sized {K V : Type}
    (ins : HashTab K V → K → V → Option (Int × HashTab K V))
    (ht h : HashTab K V) (hr : rehash_core ins ht = some h) :
    prime_size h.idx = some h.size ∧ h.idx = ht.idx + 1 := by
  unfold rehash_core at hr
  cases hg : getsize ht with
  | none => simp [hg] at hr
  | some new_size =>
    simp only [hg] at hr
    split at hr
    · split at hr
      · exact absurd hr (by simp)
      · simp only [Option.some.injEq] at hr
        subst hr
        exact ⟨hg, rfl⟩
    · exact absurd hr (by simp)

theorem ht_insert_core_sized {K V : Type}
    (rh : HashTab K V → Option (HashTab K V))
    (hrh : ∀ a b, rh a = some b → prime_size b.idx = some b.size ∧ b.idx = a.idx + 1)
    (ht : HashTab K V) (key : K) (value : V) (r : Int × HashTab K V)
    (hr : ht_insert_core rh ht key value = some r)
    (hs : prime_size ht.idx = some ht.size) :
    prime_size r.2.idx = some r.2.size ∧ ht.idx ≤ r.2.idx := by
  unfold ht_insert_core at hr
  simp only at hr
  split at hr
  · split at hr
    · simp only [Option.some.injEq] at hr
      subst hr
      exact ⟨hs, le_refl _⟩
    · split at hr
      · simp only [Option.map_eq_some'] at hr
        obtain ⟨b, hq, rfl⟩ := hr
        have := hrh _ _ hq
        exact ⟨this.1, by simp [this.2]⟩
      · simp only [Option.some.injEq] at hr
        subst hr
        exact ⟨hs, le_refl _⟩
  · exact absurd hr (by simp)

theorem ht_insert_fuel_sized {K V : Type} (n : Nat) (ht : HashTab K V) (key : K)
    (value : V) (r : Int × HashTab K V)
    (hr : ht_insert_fuel n ht key value = some r)
    (hs : prime_size ht.idx = some ht.size) :
    prime_size r.2.idx = some r.2.size ∧ ht.idx ≤ r.2.idx := by
  cases n with
  | zero => exact ht_insert_core_sized _ (fun a b h => by simp at h) ht key value r hr hs
  | succ n =>
    exact ht_insert_core_sized _ (fun a b h => rehash_core_sized _ a b h) ht key value r hr hs

theorem ht_inserts_sized {K V : Type} : ∀ (l : List (K × V)) (ht : HashTab K V)
    (r : List Int × HashTab K V), ht_inserts ht l = some r →
    prime_size ht.idx = some ht.size →
    prime_size r.2.idx = some r.2.size ∧ ht.idx ≤ r.2.idx
  | [], ht, r, hr, hs => by
    simp only [ht_inserts, Option.some.injEq] at hr
    subst hr; exact ⟨hs, le_refl _⟩
  | p :: rest, ht, r, hr, hs => by
    simp only [ht_inserts] at hr
    cases h1 : ht_insert ht p.1 p.2 with
    | none => simp [h1] at hr
    | some r1 =>
      simp only [h1, Option.some_bind] at hr
      cases h2 : ht_inserts r1.2 rest with
      | none => simp [h2] at hr
      | some r2 =>
        simp only [h2, Option.map_some', Option.some.injEq] at hr
        subst hr
        have a := ht_insert_fuel_sized _ ht p.1 p.2 r1 h1 hs
        have b := ht_inserts_sized rest r1.2 r2 h2 a.1
        exact ⟨b.1, le_trans a.2 b.2⟩

theorem ht_insert_core_congr {K V : Type} (r1 r2 : HashTab K V → Option (HashTab K V))
    (ht : HashTab K V) (key : K) (value : V)
    (h : ∀ ht2 : HashTab K V, ht2.idx = ht.idx → r1 ht2 = r2 ht2) :
    ht_insert_core r1 ht key value = ht_insert_core r2 ht key value := by
  unfold ht_insert_core
  simp only
  split
  · split
    · rfl
    · split
      · exact congrArg _ (h _ rfl)
      · rfl
  · rfl

theorem rehash_core_last {K V : Type}
    (ins : HashTab K V → K → V → Option (Int × HashTab K V)) (ht : HashTab K V)
    (h : MAX_IDX ≤ ht.idx + 1) : rehash_core ins ht = none := by
  unfold rehash_core getsize prime_size
  rw [if_neg (by omega)]

theorem ht_insert_fuel_idx_le {K V : Type} (n : Nat) (ht : HashTab K V) (key : K)
    (value : V) (r : Int × HashTab K V)
    (hr : ht_insert_fuel n ht key value = some r) : ht.idx ≤ r.2.idx := by
  obtain ⟨R, hR⟩ : ∃ R : HashTab K V → Option (HashTab K V),
      (∀ a b, R a = some b → b.idx = a.idx + 1) ∧
      ht_insert_fuel n ht key value = ht_insert_core R ht key value := by
    cases n with
    | zero => exact ⟨_, fun a b h => by simp at h, rfl⟩
    | succ n => exact ⟨_, fun a b h => (rehash_core_sized _ a b h).2, rfl⟩
  rw [hR.2] at hr
  unfold ht_insert_core at hr
  simp only at hr
  split at hr
  · split at hr
    · simp only [Option.some.injEq] at hr
      subst hr; exact le_refl _
    · split at hr
      · simp only [Option.map_eq_some'] at hr
        obtain ⟨b, hq, rfl⟩ := hr
        have := hR.1 _ _ hq
        simp only [this]
        exact Nat.le_succ _
      · simp only [Option.some.injEq] at hr
        subst hr; exact le_refl _
  · exact absurd hr (by simp)

theorem refill_congr {K V : Type} (n m i : Nat)
    (h : ∀ (rh : HashTab K V) (k : K) (v : V), i ≤ rh.idx →
      ht_insert_fuel n rh k v = ht_insert_fuel m rh k v) :
    ∀ (es : List (K × V)) (rh : HashTab K V), i ≤ rh.idx →
      es.foldlM (fun rh p => (ht_insert_fuel n rh p.1 p.2).map Prod.snd) rh =
      es.foldlM (fun rh p => (ht_insert_fuel m rh p.1 p.2).map Prod.snd) rh
  | [], _, _ => rfl
  | p :: es, rh, hi => by
    simp only [List.foldlM_cons, h rh p.1 p.2 hi]
    cases hr : ht_insert_fuel m rh p.1 p.2 with
    | none => rfl
    | some r =>
      simp only [Option.map_some', Option.bind_eq_bind, Option.some_bind]
      exact refill_congr n m i h es r.2
        (le_trans hi (ht_insert_fuel_idx_le m rh p.1 p.2 r hr))

/-- The fuel of `ht_insert` is never exhausted: with at least as many levels
as there are indices of `delta` above the index of the table, the result does
not depend on the number of levels. -/
theorem ht_insert_fuel_stable {K V : Type} :
    ∀ (n m : Nat) (ht : HashTab K V) (key : K) (value : V),
      MAX_IDX ≤ n + ht.idx → MAX_IDX ≤ m + ht.idx →
      ht_insert_fuel n ht key value = ht_insert_fuel m ht key value
  | 0, 0, _, _, _, _, _ => rfl
  | 0, m + 1, ht, key, value, hn, _ => by
    refine ht_insert_core_congr _ _ ht key value (fun ht2 h2 => ?_)
    rw [rehash_core_last _ ht2 (by omega)]
  | n + 1, 0, ht, key, value, _, hm => by
    refine ht_insert_core_congr _ _ ht key value (fun ht2 h2 => ?_)
    rw [rehash_core_last _ ht2 (by omega)]
  | n + 1, m + 1, ht, key, value, hn, hm => by
    refine ht_insert_core_congr _ _ ht key value (fun ht2 h2 => ?_)
    unfold rehash_core
    cases getsize ht2 with
    | none => rfl
    | some new_size =>
      simp only
      rw [refill_congr n m (ht.idx + 1)
        (fun rh k v hi => ht_insert_fuel_stable n m rh k v (by omega) (by omega))
        _ _ (by show ht.idx + 1 ≤ ht2.idx + 1; omega)]

theorem prime_of_prime_size (i p : Nat) (h4 : 4 ≤ i) (h : prime_size i = some p) :
    Nat.Prime p := by
  unfold prime_size at h
  split at h
  · simp only [Option.some.injEq] at h
    subst h
    rename_i hlt
    exact prime_size_table i h4 (by simp [MAX_IDX, delta] at hlt; omega)
  · exact absurd h (by simp)

/-- C4: a table from `ht_init` has index 4 and size 13; for every index `i`
from 4 to 31 the size `2^i - delta[i]` is a prime number; and the size of every
table reached from `ht_init` by `ht_insert` calls is prime. -/
theorem ht_size_prime {K V : Type} (loadfactor : ℚ) (hash : K → Nat → Nat)
    (cmp : K → K → Int) (i : Nat) (h4 : 4 ≤ i) (h31 : i ≤ 31)
    (l : List (K × V)) (s : Nat)
    (hr : (ht_inserts (ht_init loadfactor hash cmp) l).map (fun r => r.2.size) = some s) :
    (ht_init loadfactor hash cmp : HashTab K V).idx = 4 ∧
    (ht_init loadfactor hash cmp : HashTab K V).size = 13 ∧
    prime_size i = some (2 ^ i - delta.getD i 0) ∧
    Nat.Prime (2 ^ i - delta.getD i 0) ∧
    Nat.Prime s := by
  have h13 : prime_size 4 = some 13 := by decide
  simp only [Option.map_eq_some'] at hr
  obtain ⟨r, hr, rfl⟩ := hr
  have h := ht_inserts_sized l _ r hr h13
  refine ⟨rfl, rfl, ?_, prime_size_table i h4 h31, ?_⟩
  · unfold prime_size
    rw [if_pos (by simp [MAX_IDX, delta]; omega)]
  · exact prime_of_prime_size r.2.idx r.2.size h.2 h.1

/-- The statement of `ht_size_prime` at index 5 and a run of ten inserts at maximum
load factor 3/4, which ends at size 31. -/
theorem ht_size_prime_witness :
    (ht_init (3 / 4) mod_hash nat_cmp : HashTab Nat Nat).idx = 4 ∧
    (ht_init (3 / 4) mod_hash nat_cmp : HashTab Nat Nat).size = 13 ∧
    prime_size 5 = some (2 ^ 5 - delta.getD 5 0) ∧
    Nat.Prime (2 ^ 5 - delta.getD 5 0) ∧
    Nat.Prime 31 :=
  ht_size_prime (3 / 4) mod_hash nat_cmp 5 (by decide) (by decide)
    (List.map (fun n => (n, n)) (List.range 10)) 31 (by decide!)

theorem chain_insert_of_not_mem {K V : Type} (cmp : K → K → Int)
    (hc : ∀ a b, cmp a b = 0 ↔ a = b) (key : K) (value : V) :
    ∀ (c : List (K × V)), key ∉ c.map Prod.fst →
      chain_insert cmp key value c = some (c ++ [(key, value)])
  | [], _ => rfl
  | h :: rest, hn => by
    simp only [List.map_cons, List.mem_cons, not_or] at hn
    have hne : ¬ cmp h.1 key = 0 := fun e => hn.1 ((hc _ _).mp e).symm
    simp [chain_insert, hne, chain_insert_of_not_mem cmp hc key value rest hn.2]

theorem chain_insert_of_mem {K V : Type} (cmp : K → K → Int)
    (hc : ∀ a b, cmp a b = 0 ↔ a = b) (key : K) (value : V) :
    ∀ (c : List (K × V)), key ∈ c.map Prod.fst →
      chain_insert cmp key value c = none
  | [], hm => by simp at hm
  | h :: rest, hm => by
    simp only [List.map_cons, List.mem_cons] at hm
    by_cases e : cmp h.1 key = 0
    · simp [chain_insert, e]
    · have : key ∈ rest.map Prod.fst := by
        rcases hm with hm | hm
        · exact absurd ((hc _ _).mpr hm.symm) e
        · exact hm
      simp [chain_insert, e, chain_insert_of_mem cmp hc key value rest this]

theorem chain_search_of_not_mem {K V : Type} (cmp : K → K → Int)
    (hc : ∀ a b, cmp a b = 0 ↔ a = b) (key : K) :
    ∀ (c : List (K × V)), key ∉ c.map Prod.fst → chain_search cmp key c = none
  | [], _ => rfl
  | h :: rest, hn => by
    simp only [List.map_cons, List.mem_cons, not_or] at hn
    have hne : ¬ cmp key h.1 = 0 := fun e => hn.1 ((hc _ _).mp e)
    simp [chain_search, hne, chain_search_of_not_mem cmp hc key rest hn.2]

theorem chain_search_of_mem {K V : Type} (cmp : K → K → Int)
    (hc : ∀ a b, cmp a b = 0 ↔ a = b) (key : K) (v : V) :
    ∀ (c : List (K × V)), (c.map Prod.fst).Nodup → (key, v) ∈ c →
      chain_search cmp key c = some v
  | [], _, hm => by simp at hm
  | h :: rest, hnd, hm => by
    simp only [List.map_cons, List.nodup_cons] at hnd
    simp only [List.mem_cons] at hm
    rcases hm with hm | hm
    · subst hm
      simp [chain_search, (hc key key).mpr rfl]
    · have hne : ¬ cmp key h.1 = 0 := by
        intro e
        have := (hc _ _).mp e
        apply hnd.1
        rw [← this]
        exact List.mem_map_of_mem Prod.fst hm
      simp [chain_search, hne, chain_search_of_mem cmp hc key v rest hnd.2 hm]

theorem flatten_set_append {α : Type} (x : α) :
    ∀ (l : List (List α)) (i : Nat), i < l.length →
      (l.set i (l.getD i [] ++ [x])).flatten.Perm (l.flatten ++ [x])
  | [], i, h => by simp at h
  | c :: rest, 0, _ => by
    simp only [List.set_cons_zero, List.flatten_cons, List.getD_cons_zero]
    rw [List.append_assoc, List.append_assoc]
    exact List.Perm.append_left c List.perm_append_comm
  | c :: rest, i + 1, h => by
    simp only [List.set_cons_succ, List.flatten_cons, List.getD_cons_succ]
    rw [List.append_assoc]
    exact List.Perm.append_left c
      (flatten_set_append x rest i (by simpa using h))

theorem getD_mem_of_lt {α : Type} (l : List (List α)) (i : Nat) (h : i < l.length) :
    l.getD i [] ∈ l := by
  rw [List.getD_eq_getElem l [] h]
  exact List.getElem_mem h

theorem mem_entries_iff {K V : Type} (ht : HashTab K V) (p : K × V) :
    p ∈ entries ht ↔ ∃ i, i < ht.table.length ∧ p ∈ ht.table.getD i [] := by
  unfold entries
  rw [List.mem_flatten]
  constructor
  · rintro ⟨c, hc, hp⟩
    obtain ⟨i, hi, rfl⟩ := List.mem_iff_getElem.mp hc
    exact ⟨i, hi, by rw [List.getD_eq_getElem ht.table [] hi]; exact hp⟩
  · rintro ⟨i, hi, hp⟩
    exact ⟨_, getD_mem_of_lt ht.table i hi, hp⟩

theorem bucket_nodup {K V : Type} (ht : HashTab K V) (hb : Buckets ht) (i : Nat)
    (hi : i < ht.table.length) : ((ht.table.getD i []).map Prod.fst).Nodup := by
  have hs : (ht.table.getD i []).Sublist (entries ht) :=
    List.sublist_flatten_of_mem (getD_mem_of_lt ht.table i hi)
  exact List.Nodup.sublist (List.Sublist.map Prod.fst hs) hb.nodup

theorem ht_search_of_mem {K V : Type} (ht : HashTab K V) (hb : Buckets ht) (k : K)
    (v : V) (h : (k, v) ∈ entries ht) : ht_search ht k = some (some v) := by
  obtain ⟨i, hi, hp⟩ := (mem_entries_iff ht (k, v)).mp h
  have hk : ht.hash k ht.size = i := hb.hashed i hi (k, v) hp
  unfold ht_search
  simp only [hk, hi, if_true]
  rw [chain_search_of_mem ht.cmp hb.cmp_eq k v _ (bucket_nodup ht hb i hi) hp]

theorem ht_search_of_not_mem {K V : Type} (ht : HashTab K V) (hb : Buckets ht) (k : K)
    (h : k ∉ (entries ht).map Prod.fst) : ht_search ht k = some none := by
  have hlt : ht.hash k ht.size < ht.table.length := by
    rw [hb.len]; exact hb.hash_lt k ht.size hb.pos
  unfold ht_search
  simp only [hlt, if_true]
  rw [chain_search_of_not_mem ht.cmp hb.cmp_eq k]
  intro hm
  apply h
  obtain ⟨p, hp, rfl⟩ := List.mem_map.mp hm
  exact List.mem_map_of_mem Prod.fst
    ((mem_entries_iff ht p).mpr ⟨_, hlt, hp⟩)

theorem entries_link {K V : Type} (ht : HashTab K V) (hb : Buckets ht) (key : K)
    (value : V) : (entries (link ht key value)).Perm (entries ht ++ [(key, value)]) := by
  have hlt : ht.hash key ht.size < ht.table.length := by
    rw [hb.len]; exact hb.hash_lt key ht.size hb.pos
  exact flatten_set_append (key, value) ht.table _ hlt

theorem link_buckets {K V : Type} (ht : HashTab K V) (hb : Buckets ht) (key : K)
    (value : V) (hn : key ∉ (entries ht).map Prod.fst) : Buckets (link ht key value) := by
  have hlt : ht.hash key ht.size < ht.table.length := by
    rw [hb.len]; exact hb.hash_lt key ht.size hb.pos
  refine ⟨?_, hb.pos, ?_, ?_, hb.cmp_eq, hb.hash_lt⟩
  · simp only [link, List.length_set]; exact hb.len
  · intro i hi p hp
    simp only [link, List.length_set] at hi hp ⊢
    by_cases e : ht.hash key ht.size = i
    · subst e
      rw [List.getD_eq_getElem _ [] (by simpa using hi), List.getElem_set_self] at hp
      rcases List.mem_append.mp hp with h | h
      · exact hb.hashed _ hi p h
      · simp only [List.mem_singleton] at h
        subst h; rfl
    · rw [List.getD_eq_getElem _ [] (by simpa using hi), List.getElem_set_ne e] at hp
      rw [← List.getD_eq_getElem _ [] hi] at hp
      exact hb.hashed _ hi p hp
  · have hp := (entries_link ht hb key value).map Prod.fst
    rw [List.Perm.nodup_iff hp, List.map_append]
    simp only [List.map_cons, List.map_nil]
    rw [List.nodup_append]
    refine ⟨hb.nodup, List.nodup_singleton key, ?_⟩
    intro a ha hb2
    simp only [List.mem_singleton] at hb2
    subst hb2
    exact hn ha

theorem bucket_not_mem {K V : Type} (ht : HashTab K V) (key : K) (i : Nat)
    (hi : i < ht.table.length) (hn : key ∉ (entries ht).map Prod.fst) :
    key ∉ (ht.table.getD i []).map Prod.fst := by
  intro hm
  apply hn
  obtain ⟨p, hp, rfl⟩ := List.mem_map.mp hm
  exact List.mem_map_of_mem Prod.fst ((mem_entries_iff ht p).mpr ⟨i, hi, hp⟩)

theorem ht_insert_core_new {K V : Type} (rh : HashTab K V → Option (HashTab K V))
    (ht : HashTab K V) (hb : Buckets ht) (key : K) (value : V)
    (hn : key ∉ (entries ht).map Prod.fst) :
    ht_insert_core rh ht key value =
      if float_load (link ht key value).num_entries (link ht key value).size >
          (link ht key value).max_loadfactor
      then (rh (link ht key value)).map (fun h => (EXIT_SUCCESS, h))
      else some (EXIT_SUCCESS, link ht key value) := by
  have hlt : ht.hash key ht.size < ht.table.length := by
    rw [hb.len]; exact hb.hash_lt key ht.size hb.pos
  unfold ht_insert_core
  simp only [hlt, if_true]
  rw [chain_insert_of_not_mem ht.cmp hb.cmp_eq key value _
    (bucket_not_mem ht key _ hlt hn)]
  rfl

theorem ht_insert_core_dup {K V : Type} (rh : HashTab K V → Option (HashTab K V))
    (ht : HashTab K V) (hb : Buckets ht) (key : K) (value : V)
    (hm : key ∈ (entries ht).map Prod.fst) :
    ht_insert_core rh ht key value =
      some (HASH_TABLE_KEY_VALUE_PAIR_EXISTS,
        { ht with num_entries := (ht.num_entries + 1) % 4294967296 }) := by
  have hlt : ht.hash key ht.size < ht.table.length := by
    rw [hb.len]; exact hb.hash_lt key ht.size hb.pos
  obtain ⟨p, hp, hk⟩ := List.mem_map.mp hm
  obtain ⟨i, hi, hpi⟩ := (mem_entries_iff ht p).mp hp
  have hh : ht.hash key ht.size = i := by rw [← hk]; exact hb.hashed i hi p hpi
  unfold ht_insert_core
  simp only [hlt, if_true]
  rw [chain_insert_of_mem ht.cmp hb.cmp_eq key value _
    (by rw [hh, ← hk]; exact List.mem_map_of_mem Prod.fst hpi)]

/-- An `ht_insert` with a key that is already in a well-formed table returns
`HASH_TABLE_KEY_VALUE_PAIR_EXISTS`, keeps every chain and increments the entry
count. -/
theorem ht_insert_dup {K V : Type} (ht : HashTab K V) (hb : Buckets ht) (key : K)
    (value : V) (hm : key ∈ (entries ht).map Prod.fst) :
    ht_insert ht key value =
      some (HASH_TABLE_KEY_VALUE_PAIR_EXISTS,
        { ht with num_entries := (ht.num_entries + 1) % 4294967296 }) :=
  ht_insert_core_dup _ ht hb key value hm

theorem ht_insert_fuel_core {K V : Type} (n : Nat) :
    ∃ rh : HashTab K V → Option (HashTab K V),
      (ht_insert_fuel n : HashTab K V → K → V → Option (Int × HashTab K V)) =
        ht_insert_core rh := by
  cases n with
  | zero => exact ⟨_, rfl⟩
  | succ n => exact ⟨_, rfl⟩

/-- Inserting a list of new entries into a table that stays within its load
factor links every entry and never rehashes. -/
theorem refill {K V : Type} (n : Nat) :
    ∀ (es : List (K × V)) (rh : HashTab K V), Buckets rh →
      (es.map Prod.fst).Nodup →
      (∀ k, k ∈ es.map Prod.fst → k ∉ (entries rh).map Prod.fst) →
      rh.num_entries = (entries rh).length →
      (∀ j, j ≤ (entries rh).length + es.length →
        float_load j rh.size ≤ rh.max_loadfactor) →
      (entries rh).length + es.length < 4294967296 →
      ∃ rh2, es.foldlM (fun rh p => (ht_insert_fuel n rh p.1 p.2).map Prod.snd) rh
            = some rh2 ∧
        Buckets rh2 ∧ (entries rh2).Perm (entries rh ++ es) ∧
        rh2.num_entries = (entries rh2).length ∧ rh2.size = rh.size ∧
        rh2.idx = rh.idx ∧ rh2.max_loadfactor = rh.max_loadfactor ∧
        rh2.hash = rh.hash ∧ rh2.cmp = rh.cmp
  | [], rh, hb, _, _, hc, _, _ =>
    ⟨rh, rfl, hb, by simp, hc, rfl, rfl, rfl, rfl, rfl⟩
  | p :: es, rh, hb, hnd, hdis, hc, hload, hlt => by
    simp only [List.map_cons, List.nodup_cons] at hnd
    have hn : p.1 ∉ (entries rh).map Prod.fst := hdis p.1 (by simp)
    obtain ⟨R, hR⟩ := ht_insert_fuel_core (K := K) (V := V) n
    have hlen : (entries (link rh p.1 p.2)).length = (entries rh).length + 1 := by
      rw [(entries_link rh hb p.1 p.2).length_eq]; simp
    have hnum : (link rh p.1 p.2).num_entries = (entries rh).length + 1 := by
      show (rh.num_entries + 1) % 4294967296 = _
      rw [hc]
      simp only [List.length_cons] at hlt
      exact Nat.mod_eq_of_lt (by omega)
    have hstep : ht_insert_fuel n rh p.1 p.2 = some (EXIT_SUCCESS, link rh p.1 p.2) := by
      rw [hR, ht_insert_core_new R rh hb p.1 p.2 hn, if_neg]
      rw [hnum]
      exact not_lt.mpr (hload _ (by simp only [List.length_cons]; omega))
    have hb2 := link_buckets rh hb p.1 p.2 hn
    have hperm := entries_link rh hb p.1 p.2
    obtain ⟨rh2, h1, h2, h3, h4, h5, h6, h7, h8, h9⟩ :=
      refill n es (link rh p.1 p.2) hb2 hnd.2
        (by
          intro k hk hk2
          rw [(hperm.map Prod.fst).mem_iff] at hk2
          simp only [List.map_append, List.map_cons, List.map_nil, List.mem_append,
            List.mem_singleton] at hk2
          rcases hk2 with h | h
          · exact hdis k (by simp [hk]) h
          · subst h; exact hnd.1 hk)
        (by rw [hnum, hlen])
        (by
          rw [hlen]
          intro j hj
          exact hload j (by simp only [List.length_cons]; omega))
        (by rw [hlen]; simp only [List.length_cons] at hlt; omega)
    refine ⟨rh2, ?_, h2, ?_, h4, h5, h6, h7, h8, h9⟩
    · simp only [List.foldlM_cons, hstep, Option.map_some', Option.bind_eq_bind,
        Option.some_bind]
      exact h1
    · refine h3.trans ?_
      have := hperm.append_right es
      simpa using this

theorem rehash_core_ok {K V : Type} (n : Nat) (ht : HashTab K V) (hb : Buckets ht)
    (new_size : Nat) (hg : getsize ht = some new_size) (hpos : 0 < new_size)
    (htal : talloc new_size = true)
    (hload : ∀ j, j ≤ (entries ht).length → float_load j new_size ≤ ht.max_loadfactor)
    (hlt : (entries ht).length < 4294967296) :
    ∃ ht2, rehash_core (ht_insert_fuel n) ht = some ht2 ∧ Buckets ht2 ∧
      (entries ht2).Perm (entries ht) ∧ ht2.size = new_size ∧
      ht2.idx = ht.idx + 1 ∧ ht2.num_entries = ht.num_entries ∧
      ht2.max_loadfactor = ht.max_loadfactor ∧ ht2.hash = ht.hash ∧
      ht2.cmp = ht.cmp := by
  have hrh0 : Buckets (rehash_aux ht new_size) := by
    refine ⟨by simp [rehash_aux], hpos, ?_, by simp [entries, rehash_aux], hb.cmp_eq,
      hb.hash_lt⟩
    intro i hi p hp
    simp only [rehash_aux, List.length_replicate] at hi hp
    rw [List.getD_eq_getElem _ [] (by simpa using hi)] at hp
    simp at hp
  have htake : (ht.table.take ht.size).flatten = entries ht := by
    rw [List.take_of_length_le (le_of_eq hb.len)]; rfl
  obtain ⟨rh2, h1, h2, h3, h4, h5, h6, h7, h8, h9⟩ :=
    refill n (entries ht) _ hrh0 hb.nodup (by simp [entries, rehash_aux])
      (by simp [entries, rehash_aux])
      (by simpa [entries, rehash_aux] using hload)
      (by simpa [entries, rehash_aux] using hlt)
  replace h5 : rh2.size = new_size := h5
  replace h8 : rh2.hash = ht.hash := h8
  replace h3 : (entries rh2).Perm (entries ht) := by
    simpa [entries, rehash_aux] using h3
  refine ⟨{ ht with idx := ht.idx + 1, size := new_size,
                    table := rh2.table.take new_size }, ?_, ?_, ?_, rfl, rfl, rfl,
    rfl, rfl, rfl⟩
  · unfold rehash_core
    simp only [hg, htal, if_true, htake, h1]
  · have ht2 : rh2.table.take new_size = rh2.table :=
      List.take_of_length_le (by rw [h2.len, h5])
    refine ⟨?_, hpos, ?_, ?_, hb.cmp_eq, hb.hash_lt⟩
    · show (rh2.table.take new_size).length = new_size
      rw [ht2, h2.len, h5]
    · intro i hi p hp
      simp only [ht2] at hi hp
      have := h2.hashed i hi p hp
      rw [h8, h5] at this
      exact this
    · show (List.map Prod.fst (rh2.table.take new_size).flatten).Nodup
      rw [ht2]; exact h2.nodup
  · show (rh2.table.take new_size).flatten.Perm (entries ht)
    rw [List.take_of_length_le (by rw [h2.len, h5])]
    exact h3

theorem prime_size_bounds (i s : Nat) (h4 : 4 ≤ i) (h26 : i ≤ 26)
    (h : prime_size i = some s) :
    0 < s ∧ s ≤ 67108859 ∧
    (∃ s2, prime_size (i + 1) = some s2 ∧ 0 < s2 ∧ (talloc s2 = true ↔ i ≤ 25)) := by
  unfold prime_size at h
  split at h
  · simp only [Option.some.injEq] at h
    subst h
    interval_cases i <;> exact ⟨by decide, by decide, _, rfl, by decide, by decide⟩
  · exact absurd h (by simp)

theorem ht_insert_unfold {K V : Type} (ht : HashTab K V) (key : K) (value : V) :
    ht_insert ht key value =
      ht_insert_core (rehash_core (ht_insert_fuel 31)) ht key value := rfl

theorem float_load_zero (s : Nat) : float_load 0 s = 0 := by
  unfold float_load
  simp [to_float_zero]

theorem count_bound (n s : Nat) (L : ℚ) (hL2 : L ≤ 2) (hs : 0 < s)
    (hs2 : s ≤ 67108859) (h : float_load n s ≤ L) : n ≤ 4294967294 := by
  have h1 := le_of_float_load n s L hs h
  have h2 : (s : ℚ) ≤ 67108859 := by exact_mod_cast hs2
  have hn : (0 : ℚ) ≤ (n : ℚ) := by positivity
  have h3 : (n : ℚ) ≤ 4294967294 := by
    norm_num at h1
    nlinarith
  exact_mod_cast h3

/-- The load after a rehash to the next size: when `ht_insert` found the load
of `n` entries within the maximum at one size, it finds the load of up to
`n + 1` entries within the maximum at the next size. -/
theorem load_next (i s s2 n : Nat) (L : ℚ) (hL1 : 1 / 16 ≤ L) (h4 : 4 ≤ i)
    (h25 : i ≤ 25) (hs : prime_size i = some s) (hs2 : prime_size (i + 1) = some s2)
    (h : (n : ℚ) * (1 - 1 / 2 ^ 22) ≤ L * (s : ℚ)) :
    ((n + 1 : Nat) : ℚ) * (1 + 1 / 2 ^ 22) ≤ L * (s2 : ℚ) := by
  interval_cases i <;>
    simp only [prime_size, MAX_IDX, delta, List.length_cons, List.length_nil] at hs hs2 <;>
    norm_num at hs hs2 <;> subst hs <;> subst hs2 <;> push_cast <;> norm_num at h ⊢ <;>
    linarith

theorem float_load_upto (n s : Nat) (L : ℚ) (hs : 0 < s)
    (h : (n : ℚ) * (1 + 1 / 2 ^ 22) ≤ L * (s : ℚ)) :
    ∀ j, j ≤ n → float_load j s ≤ L := by
  intro j hj
  refine float_load_le j s L hs (le_trans ?_ h)
  have : (j : ℚ) ≤ (n : ℚ) := by exact_mod_cast hj
  exact mul_le_mul_of_nonneg_right this (by norm_num)

/-- One `ht_insert` of a new key under the invariant: either the entry is
linked (with a rehash to the next size when the load exceeds the maximum), or
the load exceeds the maximum at index 26 of `delta`, the last size that
`talloc` serves, and the call faults. -/
theorem ht_insert_step {K V : Type} (L : ℚ) (hL1 : 1 / 16 ≤ L) (hL2 : L ≤ 2)
    (ht : HashTab K V) (hi : Inv L ht) (key : K) (value : V)
    (hn : key ∉ (entries ht).map Prod.fst) :
    (∃ ht2, ht_insert ht key value = some (EXIT_SUCCESS, ht2) ∧ Inv L ht2 ∧
      (entries ht2).Perm (entries ht ++ [(key, value)]) ∧ ht2.hash = ht.hash ∧
      ht2.cmp = ht.cmp) ∨
    (ht_insert ht key value = none ∧ ht.idx = 26 ∧
      float_load (ht.num_entries + 1) ht.size > L) := by
  obtain ⟨hpos, hmax, s2, hs2, hpos2, htal⟩ :=
    prime_size_bounds ht.idx ht.size hi.idx_ge hi.idx_le hi.sized
  have hb := hi.buckets
  have hcnt := count_bound ht.num_entries ht.size L hL2 hpos hmax hi.load
  have hnum : (link ht key value).num_entries = ht.num_entries + 1 :=
    Nat.mod_eq_of_lt (by omega)
  have hlen : (entries (link ht key value)).length = ht.num_entries + 1 := by
    rw [(entries_link ht hb key value).length_eq, hi.count]; simp
  have hb2 := link_buckets ht hb key value hn
  rw [ht_insert_unfold, ht_insert_core_new _ ht hb key value hn, hnum]
  have hsz : (link ht key value).size = ht.size := rfl
  have hmx : (link ht key value).max_loadfactor = L := hi.lf
  rw [hsz, hmx]
  by_cases hgt : float_load (ht.num_entries + 1) ht.size > L
  · rw [if_pos hgt]
    by_cases h25 : ht.idx ≤ 25
    · have hload2 := load_next ht.idx ht.size s2 ht.num_entries L hL1 hi.idx_ge h25
        hi.sized hs2 (le_of_float_load _ _ L hpos hi.load)
      obtain ⟨ht2, h1, h2, h3, h4, h5, h6, h7, h8, h9⟩ :=
        rehash_core_ok 31 (link ht key value) hb2 s2 hs2 hpos2 (htal.mpr h25)
          (by
            rw [hlen]
            show ∀ j, j ≤ ht.num_entries + 1 → float_load j s2 ≤ ht.max_loadfactor
            rw [hi.lf]
            exact float_load_upto _ s2 L hpos2 hload2)
          (by rw [hlen]; omega)
      left
      refine ⟨ht2, by rw [h1]; rfl, ⟨h2, ?_, ?_, ?_, ?_, ?_, ?_⟩, ?_, h8, h9⟩
      · rw [h5, h4]; exact hs2
      · rw [h5]; exact le_trans hi.idx_ge (Nat.le_succ _)
      · rw [h5]; show ht.idx + 1 ≤ 26; omega
      · rw [h6, hnum, h3.length_eq, hlen]
      · rw [h6, hnum, h4]
        exact float_load_le _ s2 L hpos2 hload2
      · rw [h7]; exact hi.lf
      · exact h3.trans (entries_link ht hb key value)
    · right
      have hidx : ht.idx = 26 := by have := hi.idx_le; omega
      have hg : rehash_core (ht_insert_fuel 31) (link ht key value) = none := by
        unfold rehash_core getsize
        have e : (link ht key value).idx = ht.idx := rfl
        have hf : talloc s2 = false := by
          cases ht : talloc s2 with
          | false => rfl
          | true => exact absurd (htal.mp ht) h25
        simp only [e, hs2, hf, Bool.false_eq_true, if_false]
      exact ⟨by rw [hg]; rfl, hidx, hgt⟩
  · rw [if_neg hgt]
    left
    refine ⟨link ht key value, rfl, ⟨hb2, hi.sized, hi.idx_ge, hi.idx_le, ?_, ?_, hi.lf⟩,
      entries_link ht hb key value, rfl, rfl⟩
    · rw [hnum, hlen]
    · rw [hnum]; exact le_of_not_gt hgt

theorem inv_capacity {K V : Type} (L : ℚ) (hL : 0 ≤ L) (ht : HashTab K V)
    (hi : Inv L ht) :
    (((entries ht).length : Nat) : ℚ) * (1 - 1 / 2 ^ 22) ≤ L * 67108859 := by
  obtain ⟨hpos, hmax, _⟩ :=
    prime_size_bounds ht.idx ht.size hi.idx_ge hi.idx_le hi.sized
  have h1 := le_of_float_load _ _ L hpos hi.load
  have h2 : (ht.size : ℚ) ≤ 67108859 := by exact_mod_cast hmax
  rw [← hi.count]
  nlinarith

/-- A run of `ht_insert` calls with new, pairwise distinct keys that returns
keeps the invariant, returns `EXIT_SUCCESS` from every call and holds the old
entries and the inserted ones. -/
theorem ht_inserts_inv {K V : Type} (L : ℚ) (hL1 : 1 / 16 ≤ L) (hL2 : L ≤ 2) :
    ∀ (l : List (K × V)) (ht : HashTab K V) (r : List Int × HashTab K V),
      Inv L ht → (l.map Prod.fst).Nodup →
      (∀ k, k ∈ l.map Prod.fst → k ∉ (entries ht).map Prod.fst) →
      ht_inserts ht l = some r →
      r.1 = List.replicate l.length EXIT_SUCCESS ∧ Inv L r.2 ∧
      (entries r.2).Perm (entries ht ++ l) ∧ r.2.hash = ht.hash ∧ r.2.cmp = ht.cmp
  | [], ht, r, hi, _, _, hr => by
    simp only [ht_inserts, Option.some.injEq] at hr
    subst hr
    exact ⟨rfl, hi, by simp, rfl, rfl⟩
  | p :: l, ht, r, hi, hnd, hdis, hr => by
    simp only [List.map_cons, List.nodup_cons] at hnd
    have hn : p.1 ∉ (entries ht).map Prod.fst := hdis p.1 (by simp)
    simp only [ht_inserts] at hr
    rcases ht_insert_step L hL1 hL2 ht hi p.1 p.2 hn with
      ⟨ht2, h1, h2, h3, h4, h5⟩ | ⟨h1, _, _⟩
    · simp only [h1, Option.some_bind, Option.map_eq_some'] at hr
      obtain ⟨q, hq, rfl⟩ := hr
      have hdis2 : ∀ k, k ∈ l.map Prod.fst → k ∉ (entries ht2).map Prod.fst := by
        intro k hk hk2
        rw [(h3.map Prod.fst).mem_iff] at hk2
        simp only [List.map_append, List.map_cons, List.map_nil, List.mem_append,
          List.mem_singleton] at hk2
        rcases hk2 with h | h
        · exact hdis k (by simp [hk]) h
        · subst h; exact hnd.1 hk
      obtain ⟨a, b, c, d, e⟩ := ht_inserts_inv L hL1 hL2 l ht2 q h2 hnd.2 hdis2 hq
      refine ⟨?_, b, ?_, d.trans h4, e.trans h5⟩
      · simp only [a, List.length_cons, List.replicate_succ]
      · refine c.trans ?_
        have := h3.append_right l
        simpa using this
    · simp [h1] at hr

/-- A run of `ht_insert` calls with new, pairwise distinct keys that stays
within the capacity of the largest table that `talloc` serves returns. -/
theorem ht_inserts_ok {K V : Type} (L : ℚ) (hL1 : 1 / 16 ≤ L) (hL2 : L ≤ 2) :
    ∀ (l : List (K × V)) (ht : HashTab K V),
      Inv L ht → (l.map Prod.fst).Nodup →
      (∀ k, k ∈ l.map Prod.fst → k ∉ (entries ht).map Prod.fst) →
      ((((entries ht).length + l.length : Nat) : ℚ) * (1 + 1 / 2 ^ 22)
        ≤ L * 67108859) →
      ∃ r, ht_inserts ht l = some r
  | [], ht, _, _, _, _ => ⟨_, rfl⟩
  | p :: l, ht, hi, hnd, hdis, hcap => by
    simp only [List.map_cons, List.nodup_cons] at hnd
    have hn : p.1 ∉ (entries ht).map Prod.fst := hdis p.1 (by simp)
    rcases ht_insert_step L hL1 hL2 ht hi p.1 p.2 hn with
      ⟨ht2, h1, h2, h3, h4, h5⟩ | ⟨_, hidx, hgt⟩
    · have hdis2 : ∀ k, k ∈ l.map Prod.fst → k ∉ (entries ht2).map Prod.fst := by
        intro k hk hk2
        rw [(h3.map Prod.fst).mem_iff] at hk2
        simp only [List.map_append, List.map_cons, List.map_nil, List.mem_append,
          List.mem_singleton] at hk2
        rcases hk2 with h | h
        · exact hdis k (by simp [hk]) h
        · subst h; exact hnd.1 hk
      have hlen : (entries ht2).length = (entries ht).length + 1 := by
        rw [h3.length_eq]; simp
      obtain ⟨q, hq⟩ := ht_inserts_ok L hL1 hL2 l ht2 h2 hnd.2 hdis2
        (by
          rw [hlen]
          have e : (entries ht).length + 1 + l.length
              = (entries ht).length + (p :: l).length := by
            simp only [List.length_cons]; omega
          rw [e]; exact hcap)
      exact ⟨(EXIT_SUCCESS :: q.1, q.2),
        by simp only [ht_inserts, h1, Option.some_bind, hq, Option.map_some']⟩
    · exfalso
      have hsz : ht.size = 67108859 := by
        have hs := hi.sized
        rw [hidx] at hs
        have : prime_size 26 = some 67108859 := by decide
        rw [this] at hs
        exact (Option.some.inj hs).symm
      rw [hsz, hi.count] at hgt
      have hle : float_load ((entries ht).length + 1) 67108859 ≤ L := by
        refine float_load_le _ _ L (by norm_num) (le_trans ?_ (by exact_mod_cast hcap))
        refine mul_le_mul_of_nonneg_right ?_ (by norm_num)
        simp only [List.length_cons]
        exact_mod_cast (by omega :
          (entries ht).length + 1 ≤ (entries ht).length + (l.length + 1))
      exact absurd hgt (not_lt.mpr hle)

theorem inv_init {K V : Type} (L : ℚ) (hL : 0 ≤ L) (hash : K → Nat → Nat)
    (cmp : K → K → Int) (hcmp : ∀ a b, cmp a b = 0 ↔ a = b)
    (hhash : ∀ k s, 0 < s → hash k s < s) :
    Inv L (ht_init L hash cmp : HashTab K V) ∧
    entries (ht_init L hash cmp : HashTab K V) = [] := by
  have he : entries (ht_init L hash cmp : HashTab K V) = [] := by
    simp [entries, ht_init]
  refine ⟨⟨⟨by simp [ht_init], by simp [ht_init, INITIAL_DELTA_INDEX, delta], ?_, ?_, hcmp, hhash⟩,
    (by decide : prime_size 4 = some 13), (by decide : 4 ≤ 4), (by decide : 4 ≤ 26),
    ?_, ?_, rfl⟩, he⟩
  · intro i hi p hp
    simp only [ht_init, List.length_replicate] at hi hp
    rw [List.getD_eq_getElem _ [] (by simpa using hi)] at hp
    simp at hp
  · rw [he]; simp
  · rw [he]; rfl
  · show float_load 0 _ ≤ L
    rw [float_load_zero]
    exact hL

/-- A run of `ht_insert` calls with pairwise distinct keys that is longer than
the largest table `talloc` serves can hold within the maximum load factor does
not return from every call. -/
theorem ht_inserts_over_capacity {K V : Type} (L : ℚ) (hL1 : 1 / 16 ≤ L) (hL2 : L ≤ 2)
    (hash : K → Nat → Nat) (cmp : K → K → Int) (hcmp : ∀ a b, cmp a b = 0 ↔ a = b)
    (hhash : ∀ k s, 0 < s → hash k s < s) (l : List (K × V))
    (hnd : (l.map Prod.fst).Nodup)
    (hbig : L * 67108859 < (l.length : ℚ) * (1 - 1 / 2 ^ 22)) :
    ht_inserts (ht_init L hash cmp) l = none := by
  have hL0 : (0 : ℚ) ≤ L := by linarith
  obtain ⟨hi, he⟩ := inv_init (V := V) L hL0 hash cmp hcmp hhash
  cases hr : ht_inserts (ht_init L hash cmp) l with
  | none => rfl
  | some r =>
    exfalso
    obtain ⟨_, b, c, _, _⟩ := ht_inserts_inv L hL1 hL2 l _ r hi hnd
      (by rw [he]; simp) hr
    have h := inv_capacity L hL0 r.2 b
    rw [c.length_eq, he] at h
    simp only [List.nil_append] at h
    linarith

/-- C1, evaluation: at maximum load factor 1/32 the first `ht_insert`, of the
key 100 with a hash of the key modulo the size, returns `EXIT_SUCCESS`, and
afterwards the table, of size 31 with an entry count of 1, holds no entry and
`ht_search` for the key returns `FALSE`: `rehash` re-inserts through
`ht_insert`, the auxiliary table rehashes itself to size 61, where the key is
in bucket 39, and `rehash` copies the first 31 buckets only. -/
theorem ht_search_misses_inserted_key :
    (ht_insert (ht_init (1 / 32) mod_hash nat_cmp) 100 7).map
        (fun r => (r.1, r.2.idx, r.2.size, r.2.num_entries))
      = some (EXIT_SUCCESS, 5, 31, 1) ∧
    (ht_insert (ht_init (1 / 32) mod_hash nat_cmp) 100 7).map
        (fun r => (entries r.2, ht_search r.2 100))
      = some ([], some none) := by
  refine ⟨by decide!, by decide!⟩

/-- For every maximum load factor from 1/16 to 2, every comparison function
that returns zero exactly on equal keys, every hash function returning an
index below the table size and every sequence of `ht_insert` calls with
pairwise distinct keys on a table from `ht_init` that stays within the
capacity of the table of size 67108859, the largest that `talloc` serves,
every call returns `EXIT_SUCCESS`, and afterwards `ht_search` returns `TRUE`
with the inserted value for every inserted key and `FALSE` for every other
key. -/
theorem ht_search_after_inserts {K V : Type} (L : ℚ) (hL1 : 1 / 16 ≤ L) (hL2 : L ≤ 2)
    (hash : K → Nat → Nat) (cmp : K → K → Int) (hcmp : ∀ a b, cmp a b = 0 ↔ a = b)
    (hhash : ∀ k s, 0 < s → hash k s < s) (l : List (K × V))
    (hnd : (l.map Prod.fst).Nodup)
    (hcap : (l.length : ℚ) * (1 + 1 / 2 ^ 22) ≤ L * 67108859) :
    ∃ ht, ht_inserts (ht_init L hash cmp) l
        = some (List.replicate l.length EXIT_SUCCESS, ht) ∧
      (∀ k v, (k, v) ∈ l → ht_search ht k = some (some v)) ∧
      (∀ k, k ∉ l.map Prod.fst → ht_search ht k = some none) := by
  have hL0 : (0 : ℚ) ≤ L := by linarith
  obtain ⟨hi, he⟩ := inv_init (V := V) L hL0 hash cmp hcmp hhash
  have hdis : ∀ k, k ∈ l.map Prod.fst →
      k ∉ (entries (ht_init L hash cmp : HashTab K V)).map Prod.fst := by
    rw [he]; simp
  obtain ⟨r, hr⟩ := ht_inserts_ok L hL1 hL2 l _ hi hnd hdis
    (by rw [he]; simpa using hcap)
  obtain ⟨a, b, c, _, _⟩ := ht_inserts_inv L hL1 hL2 l _ r hi hnd hdis hr
  rw [he, List.nil_append] at c
  refine ⟨r.2, ?_, ?_, ?_⟩
  · rw [hr, ← a]
  · intro k v hkv
    exact ht_search_of_mem r.2 b.buckets k v (c.mem_iff.mpr hkv)
  · intro k hk
    exact ht_search_of_not_mem r.2 b.buckets k
      (by rw [(c.map Prod.fst).mem_iff]; exact hk)

/-- C3, evaluation: a second `ht_insert` with a key already in the table
returns `HASH_TABLE_KEY_VALUE_PAIR_EXISTS` and leaves every chain as it was,
and the entry count goes from 1 to 2. -/
theorem ht_insert_duplicate_counts :
    (ht_inserts (ht_init (3 / 4) mod_hash nat_cmp) [(1, 10)]).map
        (fun r => (r.1, r.2.table, r.2.num_entries))
      = some ([EXIT_SUCCESS], (List.replicate 13 []).set 1 [(1, 10)], 1) ∧
    (ht_inserts (ht_init (3 / 4) mod_hash nat_cmp) [(1, 10), (1, 20)]).map
        (fun r => (r.1, r.2.table, r.2.num_entries))
      = some ([EXIT_SUCCESS, HASH_TABLE_KEY_VALUE_PAIR_EXISTS],
          (List.replicate 13 []).set 1 [(1, 10)], 2) := by
  constructor <;> decide!

theorem strcmp_eq : ∀ (a b : List Nat), strcmp a b = 0 ↔ a = b
  | [], [] => by simp [strcmp]
  | [], _ :: _ => by simp [strcmp]
  | _ :: _, [] => by simp [strcmp]
  | a :: as, b :: bs => by
    unfold strcmp
    by_cases h1 : a < b
    · simp only [h1, if_true]
      constructor
      · intro h; exact absurd h (by decide)
      · intro h; simp only [List.cons.injEq] at h; omega
    · by_cases h2 : b < a
      · simp only [h1, h2, if_true, if_false]
        constructor
        · intro h; exact absurd h (by decide)
        · intro h; simp only [List.cons.injEq] at h; omega
      · simp only [h1, h2, if_false]
        have e : a = b := by omega
        rw [strcmp_eq as bs]
        simp [e]

theorem shift_hash_lt (k : List Nat) (s : Nat) (hs : 0 < s) : shift_hash k s < s :=
  Nat.mod_lt _ hs

theorem inv_new_table : Inv (3 / 4) new_table ∧ entries new_table = [] :=
  inv_init (3 / 4) (by norm_num) shift_hash key_strcmp strcmp_eq shift_hash_lt

theorem global_init : Global init_symbol_table new_table := ⟨rfl, rfl, rfl, rfl⟩

theorem find_name_global (st : SymbolTable) (ht : HashTab (List Nat) IDprop)
    (hg : Global st ht) (id : List Nat) (prop : IDprop) :
    find_name st id prop =
      (ht_search ht id).map
        (fun r => (if r.isSome then TRUE else FALSE, r.getD prop)) := by
  unfold find_name deref dangling
  simp only [hg.heap, hg.table, hg.saved, hg.freed, Option.some_bind,
    List.getD_cons_zero, ne_eq, not_true_eq_false, and_false, if_false,
    List.not_mem_nil, decide_False, Bool.false_eq_true]
  cases ht_search ht id <;> rfl

theorem insert_name_global (st : SymbolTable) (ht : HashTab (List Nat) IDprop)
    (hg : Global st ht) (hb : Buckets ht) (id : List Nat) (prop : IDprop)
    (hn : id ∉ (entries ht).map Prod.fst) :
    insert_name st id prop =
      (ht_insert ht id prop).bind fun r =>
        let st1 := { st with heap := [some r.2] }
        if r.1 = EXIT_SUCCESS then
          if IS_VARIABLE prop.type = true then
            some (TRUE, { st1 with curr_offset := (st.curr_offset + 1) % 4294967296 })
          else some (TRUE, st1)
        else some (FALSE, st1) := by
  have hsh : saved_hit st id = false := by
    unfold saved_hit deref
    simp only [hg.table, hg.heap, hg.saved, Option.some_bind, List.getD_cons_zero,
      ht_search_of_not_mem ht hb id hn, Option.none_bind]
  unfold insert_name
  rw [find_name_global st ht hg, ht_search_of_not_mem ht hb id hn]
  simp only [Option.map_some', Option.some_bind, Option.isSome_none, Bool.false_eq_true,
    if_false, Option.getD_none, FALSE, if_true, deref, hg.table, hg.heap,
    List.getD_cons_zero, List.set_cons_zero, hsh]

/-- One `insert_name` of a new identifier at global level: either it returns
`TRUE` with the entry linked, or the table is at its last size with a load
above the maximum and the call faults. -/
theorem insert_name_step (st : SymbolTable) (ht : HashTab (List Nat) IDprop)
    (hg : Global st ht) (hi : Inv (3 / 4) ht) (id : List Nat) (prop : IDprop)
    (hn : id ∉ (entries ht).map Prod.fst) :
    (∃ st2 ht2, insert_name st id prop = some (TRUE, st2) ∧ Global st2 ht2 ∧
      Inv (3 / 4) ht2 ∧ (entries ht2).Perm (entries ht ++ [(id, prop)]) ∧
      st2.curr_offset =
        if IS_VARIABLE prop.type = true then (st.curr_offset + 1) % 4294967296
        else st.curr_offset) ∨
    (insert_name st id prop = none ∧ ht.idx = 26 ∧
      float_load (ht.num_entries + 1) ht.size > 3 / 4) := by
  rw [insert_name_global st ht hg hi.buckets id prop hn]
  rcases ht_insert_step (3 / 4) (by norm_num) (by norm_num) ht hi id prop hn with
    ⟨ht2, h1, h2, h3, _, _⟩ | ⟨h1, h2, h3⟩
  · left
    rw [h1]
    simp only [Option.some_bind, if_true]
    by_cases hv : IS_VARIABLE prop.type = true
    · simp only [hv, if_true]
      exact ⟨_, ht2, rfl, ⟨rfl, hg.table, hg.saved, hg.freed⟩, h2, h3, rfl⟩
    · simp only [hv, if_false]
      exact ⟨_, ht2, rfl, ⟨rfl, hg.table, hg.saved, hg.freed⟩, h2, h3, by simp⟩
  · right
    rw [h1]
    exact ⟨rfl, h2, h3⟩

theorem insert_names_inv :
    ∀ (l : List (List Nat × IDprop)) (st : SymbolTable)
      (ht : HashTab (List Nat) IDprop) (r : List Int × SymbolTable),
      Global st ht → Inv (3 / 4) ht → (l.map Prod.fst).Nodup →
      (∀ k, k ∈ l.map Prod.fst → k ∉ (entries ht).map Prod.fst) →
      insert_names st l = some r →
      r.1 = List.replicate l.length TRUE ∧
      ∃ ht2, Global r.2 ht2 ∧ Inv (3 / 4) ht2 ∧ (entries ht2).Perm (entries ht ++ l)
  | [], st, ht, r, hg, hi, _, _, hr => by
    simp only [insert_names, Option.some.injEq] at hr
    subst hr
    exact ⟨rfl, ht, hg, hi, by simp⟩
  | p :: l, st, ht, r, hg, hi, hnd, hdis, hr => by
    simp only [List.map_cons, List.nodup_cons] at hnd
    have hn : p.1 ∉ (entries ht).map Prod.fst := hdis p.1 (by simp)
    simp only [insert_names] at hr
    rcases insert_name_step st ht hg hi p.1 p.2 hn with
      ⟨st2, ht2, h1, h2, h3, h4, _⟩ | ⟨h1, _, _⟩
    · simp only [h1, Option.some_bind, Option.map_eq_some'] at hr
      obtain ⟨q, hq, rfl⟩ := hr
      have hdis2 : ∀ k, k ∈ l.map Prod.fst → k ∉ (entries ht2).map Prod.fst := by
        intro k hk hk2
        rw [(h4.map Prod.fst).mem_iff] at hk2
        simp only [List.map_append, List.map_cons, List.map_nil, List.mem_append,
          List.mem_singleton] at hk2
        rcases hk2 with h | h
        · exact hdis k (by simp [hk]) h
        · subst h; exact hnd.1 hk
      obtain ⟨a, ht3, b, c, d⟩ := insert_names_inv l st2 ht2 q h2 h3 hnd.2 hdis2 hq
      refine ⟨?_, ht3, b, c, ?_⟩
      · simp only [a, List.length_cons, List.replicate_succ]
      · refine d.trans ?_
        have := h4.append_right l
        simpa using this
    · simp [h1] at hr

/-- At load factor 3/4 a table of the size at index 26 takes up to 50331632
entries without a rehash. -/
theorem load_at_last_size {K V : Type} (ht : HashTab K V) (hi : Inv (3 / 4) ht)
    (hidx : ht.idx = 26) (hn : ht.num_entries + 1 ≤ 50331632) :
    float_load (ht.num_entries + 1) ht.size ≤ 3 / 4 := by
  have hsz : ht.size = 67108859 := by
    have hs := hi.sized
    rw [hidx] at hs
    have : prime_size 26 = some 67108859 := by decide
    rw [this] at hs
    exact (Option.some.inj hs).symm
  rw [hsz]
  refine float_load_le _ _ _ (by norm_num) ?_
  have h2 : ((ht.num_entries + 1 : Nat) : ℚ) ≤ 50331632 := by exact_mod_cast hn
  push_cast at h2 ⊢
  norm_num
  linarith

theorem insert_names_ok :
    ∀ (l : List (List Nat × IDprop)) (st : SymbolTable)
      (ht : HashTab (List Nat) IDprop),
      Global st ht → Inv (3 / 4) ht → (l.map Prod.fst).Nodup →
      (∀ k, k ∈ l.map Prod.fst → k ∉ (entries ht).map Prod.fst) →
      (entries ht).length + l.length ≤ 50331632 →
      ∃ r, insert_names st l = some r
  | [], st, _, _, _, _, _, _ => ⟨_, rfl⟩
  | p :: l, st, ht, hg, hi, hnd, hdis, hcap => by
    simp only [List.map_cons, List.nodup_cons] at hnd
    have hn : p.1 ∉ (entries ht).map Prod.fst := hdis p.1 (by simp)
    rcases insert_name_step st ht hg hi p.1 p.2 hn with
      ⟨st2, ht2, h1, h2, h3, h4, _⟩ | ⟨_, hidx, hgt⟩
    · have hdis2 : ∀ k, k ∈ l.map Prod.fst → k ∉ (entries ht2).map Prod.fst := by
        intro k hk hk2
        rw [(h4.map Prod.fst).mem_iff] at hk2
        simp only [List.map_append, List.map_cons, List.map_nil, List.mem_append,
          List.mem_singleton] at hk2
        rcases hk2 with h | h
        · exact hdis k (by simp [hk]) h
        · subst h; exact hnd.1 hk
      have hlen : (entries ht2).length = (entries ht).length + 1 := by
        rw [h4.length_eq]; simp
      obtain ⟨q, hq⟩ := insert_names_ok l st2 ht2 h2 h3 hnd.2 hdis2
        (by rw [hlen]; simp only [List.length_cons] at hcap; omega)
      exact ⟨(TRUE :: q.1, q.2),
        by simp only [insert_names, h1, Option.some_bind, hq, Option.map_some']⟩
    · exfalso
      simp only [List.length_cons] at hcap
      exact absurd hgt (not_lt.mpr
        (load_at_last_size ht hi hidx (by rw [hi.count]; omega)))

theorem many_names_nodup : (many_names.map Prod.fst).Nodup := by
  unfold many_names
  rw [List.map_map]
  refine List.Nodup.map_on ?_ (List.nodup_range _)
  intro a ha b hb h
  rw [List.mem_range] at ha hb
  simp only [Function.comp, name_of, List.cons.injEq, Nat.add_left_cancel_iff,
    and_true] at h
  omega

theorem many_names_length : many_names.length = 50331700 := by
  unfold many_names
  rw [List.length_map, List.length_range]

/-- C6, evaluation: a run of `insert_name` calls from `init_symbol_table` with
50331700 pairwise distinct keys does not return `TRUE` from every call: at
load factor 0.75 the table of size 67108859, at index 26, must grow before it
holds them (the `float` quotient of `ht_insert` is at most 0.75 for 50331645
entries and above it for 50331646), and the size at index 27 times
`sizeof(HTentry)` is negative as the `int` parameter of `talloc`. -/
theorem insert_names_over_capacity :
    (many_names.map Prod.fst).Nodup ∧ many_names.length = 50331700 ∧
    prime_size 26 = some 67108859 ∧ prime_size 27 = some 134217689 ∧
    float_load 50331645 67108859 ≤ 3 / 4 ∧
    float_load 50331646 67108859 = 12582913 / 16777216 ∧
    wrap32 ((SIZEOF_HTENTRY * 134217689 : Nat) : Int) = -1073742760 ∧
    talloc 134217689 = false ∧
    insert_names init_symbol_table many_names = none := by
  refine ⟨many_names_nodup, many_names_length, by decide, by decide, by decide!,
    by decide!, by decide, by decide, ?_⟩
  cases hr : insert_names init_symbol_table many_names with
  | none => rfl
  | some r =>
    exfalso
    obtain ⟨_, ht2, _, c, d⟩ := insert_names_inv many_names _ _ r global_init
      inv_new_table.1 many_names_nodup (by rw [inv_new_table.2]; simp) hr
    have h := inv_capacity (3 / 4) (by norm_num) ht2 c
    rw [d.length_eq, inv_new_table.2, List.nil_append, many_names_length] at h
    norm_num at h

/-- Starting from `init_symbol_table`, for every sequence of at most 50331632
`insert_name` calls with pairwise distinct identifiers (across the rehashes at
load factor 0.75 up to the size at index 26), every call returns `TRUE`, and
afterwards `find_name` returns `TRUE` with the inserted property for each
identifier of the sequence and `FALSE`, leaving `*prop` as it was, for every
other identifier. -/
theorem find_name_after_inserts (l : List (List Nat × IDprop))
    (hnd : (l.map Prod.fst).Nodup) (hcap : l.length ≤ 50331632) :
    ∃ st, insert_names init_symbol_table l = some (List.replicate l.length TRUE, st) ∧
      (∀ id p q, (id, p) ∈ l → find_name st id q = some (TRUE, p)) ∧
      (∀ id q, id ∉ l.map Prod.fst → find_name st id q = some (FALSE, q)) := by
  have hdis : ∀ k, k ∈ l.map Prod.fst → k ∉ (entries new_table).map Prod.fst := by
    rw [inv_new_table.2]; simp
  obtain ⟨r, hr⟩ := insert_names_ok l _ _ global_init inv_new_table.1 hnd hdis
    (by rw [inv_new_table.2]; simpa using hcap)
  obtain ⟨a, ht2, b, c, d⟩ := insert_names_inv l _ _ r global_init inv_new_table.1
    hnd hdis hr
  rw [inv_new_table.2, List.nil_append] at d
  refine ⟨r.2, by rw [hr, ← a], ?_, ?_⟩
  · intro id p q hp
    rw [find_name_global r.2 ht2 b, ht_search_of_mem ht2 c.buckets id p (d.mem_iff.mpr hp)]
    rfl
  · intro id q hid
    rw [find_name_global r.2 ht2 b, ht_search_of_not_mem ht2 c.buckets id
      (by rw [(d.map Prod.fst).mem_iff]; exact hid)]
    rfl

/-- The statement of `find_name_after_inserts` for a variable `x` and a procedure
`f`. -/
theorem find_name_after_inserts_witness :
    ∃ st, insert_names init_symbol_table
        [(bytes "x", var_prop TYPE_INTEGER), (bytes "f", proc_prop)]
        = some (List.replicate 2 TRUE, st) ∧
      (∀ id p q, (id, p) ∈ [(bytes "x", var_prop TYPE_INTEGER), (bytes "f", proc_prop)] →
        find_name st id q = some (TRUE, p)) ∧
      (∀ id q, id ∉ [(bytes "x", var_prop TYPE_INTEGER), (bytes "f", proc_prop)].map Prod.fst →
        find_name st id q = some (FALSE, q)) :=
  find_name_after_inserts [(bytes "x", var_prop TYPE_INTEGER), (bytes "f", proc_prop)]
    (by decide) (by decide)

/-- C5, evaluation: on the initial symbol table `insert_name` of a new
subroutine name returns `TRUE`, yet `open_subroutine` returns `FALSE` and
opens no scope (the current table is still the first one, no table is saved,
and the name resolves in it); called again with the same name, whose insertion
fails, `open_subroutine` returns `TRUE`, saves the table and installs a fresh
one with `curr_offset` 1. -/
theorem open_subroutine_inverted :
    (insert_name init_symbol_table (bytes "f") proc_prop).map Prod.fst = some TRUE ∧
    (open_subroutine init_symbol_table (bytes "f") proc_prop).map
        (fun r => (r.1, r.2.table, r.2.saved_table, r.2.heap.length,
          resolves r.2 (bytes "f")))
      = some (FALSE, some 0, none, 1, some TRUE) ∧
    ((open_subroutine init_symbol_table (bytes "f") proc_prop).bind
        (fun r => open_subroutine r.2 (bytes "f") proc_prop)).map
        (fun r => (r.1, r.2.table, r.2.saved_table, r.2.heap.length,
          get_variables_width r.2))
      = some (TRUE, some 1, some 0, 2, 1) := by
  refine ⟨by decide!, by decide!, by decide!⟩

/-- C7, evaluation: inside a subroutine whose saved scope holds `f` with the
type `TYPE_INTEGER | TYPE_CALLABLE` (the `CALLABLE` flag is set) and whose
current scope is empty, `find_name` returns `FALSE` for `f`; with the type
`TYPE_CALLABLE` alone it returns `TRUE`. -/
theorem find_name_function_hidden :
    func_prop.type &&& TYPE_CALLABLE = TYPE_CALLABLE ∧
    ht_search (table_with (bytes "f") func_prop) (bytes "f") = some (some func_prop) ∧
    find_name (scope_state (table_with (bytes "f") func_prop) new_table 1)
        (bytes "f") (var_prop TYPE_NONE) = some (FALSE, func_prop) ∧
    find_name (scope_state (table_with (bytes "f") proc_prop) new_table 1)
        (bytes "f") (var_prop TYPE_NONE) = some (TRUE, proc_prop) := by
  refine ⟨by decide, by decide!, by decide!, by decide!⟩

/-- C8, evaluation: a successful `insert_name` of an integer array variable
and of a boolean array variable leaves `get_variables_width()` at 1; for an
integer variable it becomes 2, and for a callable it stays 1. -/
theorem insert_name_array_width :
    get_variables_width init_symbol_table = 1 ∧
    (insert_name init_symbol_table (bytes "a") (var_prop (SET_AS_ARRAY TYPE_INTEGER))).map
        (fun r => (r.1, get_variables_width r.2)) = some (TRUE, 1) ∧
    (insert_name init_symbol_table (bytes "a") (var_prop (SET_AS_ARRAY TYPE_BOOLEAN))).map
        (fun r => (r.1, get_variables_width r.2)) = some (TRUE, 1) ∧
    (insert_name init_symbol_table (bytes "a") (var_prop TYPE_INTEGER)).map
        (fun r => (r.1, get_variables_width r.2)) = some (TRUE, 2) ∧
    (insert_name init_symbol_table (bytes "a") proc_prop).map
        (fun r => (r.1, get_variables_width r.2)) = some (TRUE, 1) := by
  refine ⟨rfl, by decide!, by decide!, by decide!, by decide!⟩

/-- C9, counterexample: after `close_subroutine` in a subroutine scope the
saved pointer is not null: it points to the reinstated table, as the current
pointer does.  And the outer names are not all usable again: when the closed
scope had inserted `a`, a name the outer scope holds as a variable, its entry
held the object of the outer entry (before the call `a` resolves to the
integer variable of the outer scope, not to the boolean one just inserted),
`close_subroutine` frees it, and `find_name` for `a` in the reinstated scope
hands out the freed object. -/
theorem close_subroutine_keeps_saved :
    (close_subroutine
        (scope_state (table_with (bytes "f") proc_prop)
          (table_with (bytes "x") (var_prop TYPE_INTEGER)) 2)).map
        (fun st => (st.table, st.saved_table, st.curr_offset))
      = some (some 0, some 0, 2) ∧
    shared_scope.map (fun st => (st.table, st.saved_table, st.shared))
      = some (some 1, some 0, [bytes "a"]) ∧
    shared_scope.map (fun st => find_name st (bytes "a") (var_prop TYPE_NONE))
      = some (some (TRUE, var_prop TYPE_INTEGER)) ∧
    (shared_scope.bind close_subroutine).map (fun st => (st.table, st.freed))
      = some (some 0, [(0, bytes "a")]) ∧
    (shared_scope.bind close_subroutine).map
        (fun st => find_name st (bytes "a") (var_prop TYPE_NONE))
      = some none := by
  refine ⟨by decide!, by decide!, by decide!, by decide!, by decide!⟩

/-- C9, amended: `close_subroutine`, called with the current and the saved
pointer on two distinct live tables, when no entry of the current table holds
an object of the saved table and no object of either table was freed before,
frees the current table and makes the former saved table the current scope;
afterwards `find_name` resolves exactly the names of that table, with their
properties, and no name that only the closed scope held; `saved_table` keeps
pointing to that table, and `curr_offset` has the value it had before the
call. -/
theorem close_subroutine_restores (st : SymbolTable) (p q : Nat)
    (inner outer : HashTab (List Nat) IDprop) (ht : st.table = some p)
    (hs : st.saved_table = some q) (hpq : p ≠ q)
    (hp : st.heap.getD p none = some inner) (hq : st.heap.getD q none = some outer)
    (hsh : st.shared = []) (hfr : st.freed = []) :
    ∃ st2, close_subroutine st = some st2 ∧ st2.table = some q ∧
      st2.saved_table = some q ∧ st2.curr_offset = st.curr_offset ∧
      deref st2 st2.table = some outer ∧ st2.heap.getD p none = none ∧
      st2.freed = [] ∧
      ∀ id prop, find_name st2 id prop =
        (ht_search outer id).map
          (fun r => (if r.isSome then TRUE else FALSE, r.getD prop)) := by
  have hq2 : (st.heap.set p none).getD q none = some outer := by
    rw [List.getD_eq_getElem?_getD, List.getElem?_set_ne hpq,
      ← List.getD_eq_getElem?_getD]
    exact hq
  have hp2 : (st.heap.set p none).getD p none = none := by
    rw [List.getD_eq_getElem?_getD, List.getElem?_set_self']
    cases st.heap[p]? <;> rfl
  refine ⟨{ st with
      heap := st.heap.set p none
      table := st.saved_table
      freed := []
      shared := [] }, ?_, hs, hs, rfl, ?_, hp2, rfl, ?_⟩
  · unfold close_subroutine deref
    simp only [ht, Option.some_bind, hp, hfr, hsh, hs, List.not_mem_nil, decide_False,
      List.any_eq_true, Bool.false_eq_true, and_false, exists_false, if_false,
      List.map_nil, List.append_nil]
  · unfold deref
    simp only [hs, Option.some_bind]
    exact hq2
  · intro id prop
    unfold find_name deref dangling
    simp only [hs, Option.some_bind, hq2, List.not_mem_nil, decide_False,
      Bool.false_eq_true, and_false, if_false]
    cases hr : ht_search outer id with
    | none => rfl
    | some r =>
      cases r with
      | none =>
        simp [TRUE, FALSE]
      | some v =>
        simp [TRUE, FALSE]

/-- The statement of `close_subroutine_restores` inside a subroutine that declares
`x`, with `f` in the outer scope. -/
theorem close_subroutine_restores_witness :
    ∃ st2, close_subroutine (scope_state (table_with (bytes "f") proc_prop)
        (table_with (bytes "x") (var_prop TYPE_INTEGER)) 2) = some st2 ∧
      st2.table = some 0 ∧ st2.saved_table = some 0 ∧
      st2.curr_offset = (scope_state (table_with (bytes "f") proc_prop)
        (table_with (bytes "x") (var_prop TYPE_INTEGER)) 2).curr_offset ∧
      deref st2 st2.table = some (table_with (bytes "f") proc_prop) ∧
      st2.heap.getD 1 none = none ∧ st2.freed = [] ∧
      ∀ id prop, find_name st2 id prop =
        (ht_search (table_with (bytes "f") proc_prop) id).map
          (fun r => (if r.isSome then TRUE else FALSE, r.getD prop)) :=
  close_subroutine_restores _ 1 0 (table_with (bytes "x") (var_prop TYPE_INTEGER))
    (table_with (bytes "f") proc_prop) rfl rfl (by decide) rfl rfl rfl rfl

/-- C10, evaluation: for the source `a`, newline, `b` the token `a` is
returned with position line 1, column 1, and the token `b`, the first
character of line 2, with position line 2, column 2; on the first line the
source `a b` gives columns 1 and 3. -/
theorem column_on_second_line :
    scan_tokens 2 (init_scanner (bytes "a\nb")) empty_token =
      [(.TOK_ID, bytes "a", { line := 1, col := 1 }),
       (.TOK_ID, bytes "b", { line := 2, col := 2 })] ∧
    scan_tokens 2 (init_scanner (bytes "a b")) empty_token =
      [(.TOK_ID, bytes "a", { line := 1, col := 1 }),
       (.TOK_ID, bytes "b", { line := 1, col := 3 })] := by
  constructor <;> decide!

theorem next_char_src (s : Scanner) : (next_char s).src = s.src.tail := by
  unfold next_char
  simp only
  split_ifs <;> rfl

theorem next_char_ch (s : Scanner) :
    (next_char s).ch = (match s.src with
      | [] => -1
      | c :: _ => (c : Int)) := by
  unfold next_char
  simp only
  split_ifs <;> rfl

theorem next_char_reads (s : Scanner) (c : Nat) (l : List Nat)
    (h : Reads s (c :: l)) : Reads (next_char s) l := by
  obtain ⟨h1, _⟩ := h
  simp only [List.tail_cons] at h1
  refine ⟨by rw [next_char_src, h1], ?_⟩
  rw [next_char_ch, h1]

theorem reads_ch (s : Scanner) (c : Nat) (l : List Nat) (h : Reads s (c :: l)) :
    s.ch = (c : Int) := h.2

theorem reads_src_length (s : Scanner) (c : Nat) (l : List Nat)
    (h : Reads s (c :: l)) : s.src.length = l.length := by
  rw [h.1]; rfl

/-- The binary search of `process_word` ends within `n` iterations when the
interval from `low` to `high` holds fewer than `2 ^ n` indices: more fuel does
not change its result. -/
theorem reserved_search_fuel (lexeme : List Nat) :
    ∀ (n k : Nat) (cmp low mid high : Int), high - low + 1 < 2 ^ n →
      reserved_search (n + k) lexeme cmp low mid high =
        reserved_search n lexeme cmp low mid high
  | 0, k, cmp, low, mid, high, h => by
    have hlt : ¬ low ≤ high := by simp at h; omega
    cases k with
    | zero => rfl
    | succ k => simp only [Nat.zero_add, reserved_search, hlt, if_false]
  | n + 1, k, cmp, low, mid, high, h => by
    have e : n + 1 + k = (n + k) + 1 := by omega
    rw [e]
    simp only [reserved_search]
    have hp : (2 : Int) ^ (n + 1) = 2 * 2 ^ n := by rw [pow_succ]; ring
    rw [hp] at h
    by_cases hle : low ≤ high
    · simp only [hle, if_true]
      split_ifs
      · rfl
      · exact reserved_search_fuel lexeme n k cmp _ _ _ (by omega)
      · exact reserved_search_fuel lexeme n k cmp _ _ _ (by omega)
      · rfl
    · simp only [hle, if_false]

theorem reserved_search_any_fuel (lexeme : List Nat) (n : Nat) (h : 5 ≤ n) :
    reserved_search n lexeme (-1) 0 0 NUM_RESERVED_WORDS =
      reserved_search 5 lexeme (-1) 0 0 NUM_RESERVED_WORDS := by
  obtain ⟨k, rfl⟩ : ∃ k, n = 5 + k := ⟨n - 5, by omega⟩
  exact reserved_search_fuel lexeme 5 k (-1) 0 0 _ (by decide)

theorem reads_iterate (l1 : List Nat) :
    ∀ (s : Scanner) (l2 : List Nat), Reads s (l1 ++ l2) →
      Reads (next_char^[l1.length] s) l2 := by
  induction l1 with
  | nil => intro s l2 h; exact h
  | cons c l1 ih =>
    intro s l2 h
    simp only [List.length_cons, Function.iterate_succ, Function.comp_apply]
    exact ih _ _ (next_char_reads s c _ h)

/-- The character loop of `process_word` on a scanner standing on the word
`w` followed by `rest`: it collects `w` and stops on the first character of
`rest`. -/
theorem word_loop_reads :
    ∀ (w rest : List Nat) (n : Nat) (s : Scanner) (lex : List Nat) (len : Nat),
      (∀ c ∈ w, word_char c = true) →
      word_end rest = true →
      Reads s (w ++ rest) → len + w.length ≤ MAX_ID_LENGTH →
      w.length + (if rest = [] then 0 else 1) ≤ n →
      word_loop n s lex len = .ok (next_char^[w.length] s, lex ++ w)
  | [], rest, n, s, lex, len, _, hr, hs, _, hn => by
    simp only [List.nil_append] at hs
    cases n with
    | zero => simp [word_loop]
    | succ n =>
      cases rest with
      | nil =>
        have hch : s.ch = -1 := hs.2
        simp [word_loop, hch, isalpha, isdigit]
      | cons c r =>
        have hch : s.ch = (c : Int) := hs.2
        have hc : word_char c = false := by simpa [word_end] using hr
        unfold word_char at hc
        simp only [word_loop, hch, hc]
        simp
  | c :: w, rest, n, s, lex, len, hw, hr, hs, hlen, hn => by
    have hch : s.ch = (c : Int) := hs.2
    have hc := hw c (by simp)
    unfold word_char at hc
    cases n with
    | zero => simp at hn
    | succ n =>
      simp only [List.length_cons] at hlen hn
      have hl : ¬ (len + 1 > MAX_ID_LENGTH) := by omega
      simp only [word_loop, hch, hc, if_true, hl, if_false, Int.toNat_ofNat]
      rw [word_loop_reads w rest n (next_char s) (lex ++ [c]) (len + 1)
        (fun d hd => hw d (by simp [hd])) hr (next_char_reads s c _ hs) (by omega)
        (by omega)]
      simp [Function.iterate_succ]

theorem reserved_entries :
    ∀ p ∈ reserved, p.1 ≠ [] ∧ p.1.length ≤ MAX_ID_LENGTH ∧
      (∀ c ∈ p.1, word_char c = true) ∧
      ∃ mid : Nat, mid < reserved.length ∧ reserved.getD mid ([], .TOK_EOF) = p ∧
        reserved_search 5 p.1 (-1) 0 0 NUM_RESERVED_WORDS = .ok (0, (mid : Int)) := by
  decide!

/-- C11: the reserved-word table is strictly ascending under `strcmp`, holds
exactly the 23 keywords of the language, each with a token type of its own,
and for each keyword the binary search of `process_word` ends with a hit on
the keyword's entry, whatever fuel of at least 5 iterations it is given, and
`process_word` returns the keyword's token type and the keyword as lexeme,
stopping on the first character after it. -/
theorem reserved_words_found (p : List Nat × TokenType) (hp : p ∈ reserved)
    (s : Scanner) (token : Token) (rest : List Nat)
    (hrest : word_end rest = true)
    (hs : Reads s (p.1 ++ rest)) :
    (reserved.map Prod.fst).Pairwise (fun a b => strcmp a b < 0) ∧
    reserved.map Prod.fst = keywords.map bytes ∧ reserved.length = 23 ∧
    (reserved.map Prod.snd).Nodup ∧
    (∃ mid : Nat, mid < reserved.length ∧ reserved.getD mid ([], .TOK_EOF) = p ∧
      ∀ n, 5 ≤ n →
        reserved_search n p.1 (-1) 0 0 NUM_RESERVED_WORDS = .ok (0, (mid : Int))) ∧
    process_word s token =
      .ok (next_char^[p.1.length] s, { token with type := p.2, lexeme := p.1 }) ∧
    Reads (next_char^[p.1.length] s) rest := by
  obtain ⟨hne, hlen, hw, mid, hmid, hget, hsearch⟩ := reserved_entries p hp
  refine ⟨by decide!, by decide!, rfl, by decide!, ⟨mid, hmid, hget, ?_⟩, ?_,
    reads_iterate p.1 s rest hs⟩
  · intro n hn
    rw [reserved_search_any_fuel p.1 n hn, hsearch]
  · obtain ⟨c, w, hcw⟩ : ∃ c w, p.1 = c :: w := by
      cases h : p.1 with
      | nil => exact absurd h hne
      | cons c w => exact ⟨c, w, rfl⟩
    have hsl : s.src.length = w.length + rest.length := by
      rw [hcw] at hs
      rw [reads_src_length s c (w ++ rest) hs, List.length_append]
    have hpl : p.1.length = w.length + 1 := by rw [hcw]; rfl
    have hloop := word_loop_reads p.1 rest (s.src.length + 1) s [] 0 hw hrest hs
      (by omega) (by
        rw [hsl, hpl]
        by_cases hr : rest = []
        · simp [hr]
        · have : 0 < rest.length := List.length_pos.mpr hr
          simp only [hr, if_false]; omega)
    unfold process_word
    rw [hloop]
    simp only [Scan.bind, List.nil_append]
    rw [reserved_search_any_fuel p.1 _ (by decide), hsearch]
    simp only [Scan.bind, if_true, Int.toNat_ofNat, hget]

/-- The statement of `reserved_words_found` for the keyword `while` in the
source `while b`. -/
theorem reserved_words_found_witness :
    (reserved.map Prod.fst).Pairwise (fun a b => strcmp a b < 0) ∧
    reserved.map Prod.fst = keywords.map bytes ∧ reserved.length = 23 ∧
    (reserved.map Prod.snd).Nodup ∧
    (∃ mid : Nat, mid < reserved.length ∧
      reserved.getD mid ([], .TOK_EOF) = (bytes "while", TokenType.TOK_WHILE) ∧
      ∀ n, 5 ≤ n →
        reserved_search n (bytes "while") (-1) 0 0 NUM_RESERVED_WORDS
          = .ok (0, (mid : Int))) ∧
    process_word (init_scanner (bytes "while b")) empty_token =
      .ok (next_char^[(bytes "while").length] (init_scanner (bytes "while b")),
        { empty_token with type := .TOK_WHILE, lexeme := bytes "while" }) ∧
    Reads (next_char^[(bytes "while").length] (init_scanner (bytes "while b")))
      (bytes " b") :=
  reserved_words_found (bytes "while", .TOK_WHILE) (by decide) _ empty_token
    (bytes " b") (by decide) ⟨rfl, rfl⟩

/-- C12, evaluation: for the identifiers `x` and `y` the binary search of
`process_word` reaches `low = high = 23` and reads `reserved[23]`, outside the
table of 23 entries, so `get_token` faults; for `total` and `P` it ends inside
the table with `TOK_ID`. -/
theorem process_word_reads_past_table :
    NUM_RESERVED_WORDS = 23 ∧
    get_token (init_scanner (bytes "x")) empty_token = .fault ∧
    get_token (init_scanner (bytes "y")) empty_token = .fault ∧
    reserved_search 5 (bytes "x") (-1) 0 0 NUM_RESERVED_WORDS =
      reserved_search 1 (bytes "x") (-1) 23 22 23 ∧
    reserved_search 1 (bytes "x") (-1) 23 22 23 = .fault ∧
    (get_token (init_scanner (bytes "total")) empty_token).bind
        (fun r => .ok (r.2.type, r.2.lexeme)) = .ok (.TOK_ID, bytes "total") ∧
    (get_token (init_scanner (bytes "P")) empty_token).bind
        (fun r => .ok (r.2.type, r.2.lexeme)) = .ok (.TOK_ID, bytes "P") := by
  refine ⟨rfl, by decide!, by decide!, by decide!, by decide!, by decide!, by decide!⟩

/-- C13, evaluation: in the source `(*) a *) b` the comment that opens with
`(*` is closed by the `*)` after `a`, and the first token after it is `b`;
`get_token` takes the three characters `(*)` for a complete comment and returns
the identifier `a`.  A comment whose opener is not followed by `)` is skipped
up to its matching closer. -/
theorem comment_closed_by_opener :
    scan_tokens 1 (init_scanner (bytes "(*) a *) b")) empty_token =
      [(.TOK_ID, bytes "a", { line := 1, col := 5 })] ∧
    scan_tokens 1 (init_scanner (bytes "(* c (* d *) *) b")) empty_token =
      [(.TOK_ID, bytes "b", { line := 1, col := 17 })] := by
  constructor <;> decide!

/-- C15, evaluation: for the numeral `9999999999`, whose value exceeds
`2^31 - 1`, `get_token` returns a `TOK_NUM` token with the value 1410065407 and
does not abort; the numeral `2147483648` followed by a blank does abort with
`number too large`. -/
theorem number_overflow_undetected :
    (get_token (init_scanner (bytes "9999999999")) empty_token).bind
        (fun r => .ok (r.2.type, r.2.value)) = .ok (.TOK_NUM, 1410065407) ∧
    (get_token (init_scanner (bytes "9999999999;")) empty_token).bind
        (fun r => .ok (r.2.type, r.2.value)) = .ok (.TOK_NUM, 1410065407) ∧
    (get_token (init_scanner (bytes "2147483648 ")) empty_token).bind
        (fun r => .ok (r.2.type, r.2.value))
      = .abort { line := 1, col := 1 } "number too large" := by
  refine ⟨by decide!, by decide!, by decide!⟩

theorem decimal_foldl_le (m : List Nat) :
    ∀ a : Nat, a ≤ m.foldl (fun a d => 10 * a + (d - 48)) a := by
  induction m with
  | nil => intro a; exact le_refl a
  | cons d m ih =>
    intro a
    simp only [List.foldl_cons]
    exact le_trans (by omega) (ih _)

theorem decimal_prefix_le (l m : List Nat) :
    decimal_value l ≤ decimal_value (l ++ m) := by
  unfold decimal_value
  rw [List.foldl_append]
  exact decimal_foldl_le m _

theorem atoi_foldl (ds : List Nat) (hd : ∀ d ∈ ds, isdigit (d : Int) = true) :
    ∀ a : Nat, ds.foldl (fun (acc : Int) (c : Nat) => acc * 10 + ((c : Int) - 48)) (a : Int) =
      ((ds.foldl (fun a d => 10 * a + (d - 48)) a : Nat) : Int) := by
  induction ds with
  | nil => intro a; rfl
  | cons d ds ih =>
    intro a
    simp only [List.foldl_cons]
    have h := hd d (by simp)
    simp only [isdigit, Bool.and_eq_true, decide_eq_true_eq] at h
    have e : (a : Int) * 10 + ((d : Int) - 48) = ((10 * a + (d - 48) : Nat) : Int) := by
      omega
    rw [e]
    exact ih (fun x hx => hd x (by simp [hx])) _

/-- The digit buffer is read as the fold of its digits. -/
theorem atoi_eq (ds : List Nat) : atoi ds = wrap32 (ds.foldl (fun (acc : Int) (c : Nat) => acc * 10 + ((c : Int) - 48)) 0) := by
  unfold atoi
  congr 1
  generalize (0 : Int) = a
  induction ds generalizing a with
  | nil => rfl
  | cons d ds ih =>
    simp only [List.foldl_cons]
    rw [← ih]
    rfl

theorem atoi_digits (ds : List Nat) (hd : ∀ d ∈ ds, isdigit (d : Int) = true)
    (hv : decimal_value ds ≤ 2147483647) : atoi ds = (decimal_value ds : Int) := by
  rw [atoi_eq]
  have h := atoi_foldl ds hd 0
  simp only [Nat.cast_zero] at h
  rw [h]
  unfold wrap32
  have : ((List.foldl (fun a d => 10 * a + (d - 48)) 0 ds : Nat) : Int)
      = (decimal_value ds : Int) := rfl
  rw [this]
  omega

/-- The loop of `process_number` on a scanner standing on the digit `c`, with
the digits `pre` before it and `more` after it: it collects the whole run and
stops on the first character of `rest`. -/
theorem number_loop_reads :
    ∀ (more pre : List Nat) (c : Nat) (rest : List Nat) (n : Nat) (s : Scanner),
      (∀ d ∈ pre ++ c :: more, isdigit (d : Int) = true) →
      number_end rest = true → Reads s (c :: more ++ rest) →
      (pre ++ c :: more).length ≤ 11 →
      decimal_value (pre ++ c :: more) ≤ 2147483647 → more.length + 1 ≤ n →
      number_loop n s (pre ++ [c]) =
        .ok (next_char^[more.length + 1] s, pre ++ c :: more)
  | more, pre, c, rest, 0, s, _, _, _, _, _, hn => by omega
  | more, pre, c, rest, n + 1, s, hd, hr, hs, hlen, hv, hn => by
    have hch : s.ch = (c : Int) := hs.2
    have hc : isdigit (c : Int) = true := hd c (by simp)
    have hpre : ∀ d ∈ pre ++ [c], isdigit (d : Int) = true :=
      fun d h => hd d (by
        simp only [List.mem_append, List.mem_singleton] at h
        simp only [List.mem_append, List.mem_cons]
        rcases h with h | h
        · exact Or.inl h
        · exact Or.inr (Or.inl h))
    have hle : decimal_value (pre ++ [c]) ≤ 2147483647 := by
      have := decimal_prefix_le (pre ++ [c]) more
      rw [List.append_assoc] at this
      exact le_trans this hv
    have hv0 : ¬ (atoi (pre ++ [c]) < 0) := by
      rw [atoi_digits _ hpre hle]; omega
    have hs1 := next_char_reads s c _ hs
    have hx : ¬ (atoi (pre ++ [c]) < 0 ∧ (next_char s).ch - 48 < 0 ∧
        wrap32 (atoi (pre ++ [c]) + ((next_char s).ch - 48)) > 0) :=
      fun h => hv0 h.1
    have h01 : ¬ ((0 : Int) = -1) := by decide
    simp only [number_loop, hch, hc, if_true, hx, if_false, h01]
    cases more with
    | nil =>
      have hnd : isdigit (next_char s).ch = false := by
        change Reads (next_char s) rest at hs1
        cases rest with
        | nil => rw [hs1.2]; rfl
        | cons r rs =>
          rw [hs1.2]
          simpa [number_end] using hr
      simp [hnd]
    | cons m more =>
      have hm : isdigit (m : Int) = true := hd m (by simp)
      have hd1 : isdigit (next_char s).ch = true := by rw [hs1.2]; exact hm
      have hcap : (pre ++ [c]).length + 2 ≤ 12 := by
        simp only [List.length_append, List.length_cons, List.length_nil] at hlen ⊢
        omega
      simp only [hd1, if_true, hcap]
      have hch1 : (next_char s).ch.toNat = m := by rw [hs1.2]; rfl
      rw [hch1]
      have ih := number_loop_reads more (pre ++ [c]) m rest n (next_char s)
        (by simpa [List.append_assoc] using hd) hr hs1
        (by simpa [List.append_assoc] using hlen)
        (by simpa [List.append_assoc] using hv)
        (by simp only [List.length_cons] at hn; omega)
      rw [ih]
      simp [Function.iterate_succ, List.append_assoc]

/-- C16: for every run of at most 11 decimal digits whose value is at most
`2^31 - 1`, followed by a text that does not start with a digit,
`process_number` returns (no abort, no fault) a `TOK_NUM` token whose value is
the decimal value of the whole run, and leaves the scanner on the first
character after the run. -/
theorem process_number_value (ds rest : List Nat) (s : Scanner) (token : Token)
    (hne : ds ≠ []) (hd : ∀ d ∈ ds, isdigit (d : Int) = true)
    (hlen : ds.length ≤ 11) (hv : decimal_value ds ≤ 2147483647)
    (hrest : number_end rest = true) (hs : Reads s (ds ++ rest)) :
    process_number s token =
      .ok (next_char^[ds.length] s,
        { token with value := (decimal_value ds : Int), type := .TOK_NUM }) ∧
    Reads (next_char^[ds.length] s) rest := by
  refine ⟨?_, reads_iterate ds s rest hs⟩
  obtain ⟨c, more, rfl⟩ : ∃ c more, ds = c :: more := by
    cases ds with
    | nil => exact absurd rfl hne
    | cons c more => exact ⟨c, more, rfl⟩
  have hch : s.ch = (c : Int) := hs.2
  have hsl : s.src.length = more.length + rest.length := by
    rw [reads_src_length s c (more ++ rest) hs, List.length_append]
  have hloop := number_loop_reads more [] c rest (s.src.length + 1) s hd hrest hs
    hlen hv (by omega)
  unfold process_number
  rw [hch, Int.toNat_ofNat]
  simp only [List.nil_append] at hloop
  rw [hloop]
  simp only [Scan.bind, List.length_cons]
  rw [atoi_digits _ hd hv]

/-- The statement of `process_number_value` for the numeral `2147483647` in the
source `2147483647;`. -/
theorem process_number_value_witness :
    process_number (init_scanner (bytes "2147483647;")) empty_token =
      .ok (next_char^[(bytes "2147483647").length] (init_scanner (bytes "2147483647;")),
        { empty_token with
          value := (decimal_value (bytes "2147483647") : Int), type := .TOK_NUM }) ∧
    Reads (next_char^[(bytes "2147483647").length] (init_scanner (bytes "2147483647;")))
      (bytes ";") :=
  process_number_value (bytes "2147483647") (bytes ";") _ empty_token (by decide)
    (by decide) (by decide) (by decide) (by decide) ⟨rfl, rfl⟩

theorem skip_whitespace_none (n : Nat) (s : Scanner) (h : isspace s.ch = false) :
    skip_whitespace n s = s := by
  cases n with
  | zero => rfl
  | succ n => simp [skip_whitespace, h]

/-- The loop of `process_string` on a scanner standing on a body of plain
bytes: it appends the body as written and stops on the closing quote. -/
theorem string_loop_reads :
    ∀ (body : List Nat) (str : List Nat) (cap j : Nat) (line : Int) (n : Nat)
      (s : Scanner) (rest : List Nat),
      (∀ c ∈ body, plain_byte c = true) →
      Reads s (body ++ 34 :: rest) →
      str.length + body.length + 1 ≤ MAX_INITIAL_STRLEN →
      MAX_INITIAL_STRLEN ≤ cap → body.length + 1 ≤ n →
      string_loop n s str cap j line =
        .ok (next_char^[body.length] s, str ++ body)
  | body, str, cap, j, line, 0, s, rest, _, _, _, _, hn => by omega
  | [], str, cap, j, line, n + 1, s, rest, _, hs, _, _, _ => by
    have hch : s.ch = 34 := hs.2
    simp [string_loop, hch]
  | c :: body, str, cap, j, line, n + 1, s, rest, hv, hs, hlen, hcap, hn => by
    have hch : s.ch = (c : Int) := hs.2
    have hc := hv c (by simp)
    simp only [plain_byte, Bool.and_eq_true, decide_eq_true_eq, bne_iff_ne, ne_eq] at hc
    obtain ⟨⟨h32, h34⟩, h92⟩ := hc
    have e1 : ¬ ((c : Int) = 34) := by omega
    have e2 : ¬ ((c : Int) < 32 ∧ (c : Int) ≠ -1 ∧ (c : Int) ≠ 92) := by omega
    have e3 : ¬ ((c : Int) = -1) := by omega
    have e4 : ¬ ((c : Int) = 92) := by omega
    simp only [List.length_cons] at hlen hn
    have hcap2 : str.length + 2 ≤
        (if j + 1 > MAX_INITIAL_STRLEN then 2 * MAX_INITIAL_STRLEN else cap) := by
      split_ifs <;> omega
    simp only [string_loop, hch, if_pos (show (c : Int) ≠ 34 from e1), if_neg e2,
      if_neg e3, if_neg e4, append, if_pos hcap2, Int.toNat_ofNat, Scan.bind]
    rw [string_loop_reads body (str ++ [c]) _ (j + 1) line n (next_char s) rest
      (fun i hi => hv i (by simp [hi])) (next_char_reads s c _ hs)
      (by simp only [List.length_append, List.length_cons, List.length_nil]; omega)
      (by split_ifs <;> omega) (by omega)]
    simp [Function.iterate_succ]

/-- For every string literal whose body is shorter than the initial buffer and
consists of plain bytes, `get_token` returns `TOK_STR` with the body as
payload, and leaves the scanner on the first character after the closing
quote. -/
theorem get_token_string_plain (body : List Nat) (rest : List Nat) (s : Scanner)
    (token : Token) (hv : ∀ c ∈ body, plain_byte c = true)
    (hlen : body.length < MAX_INITIAL_STRLEN)
    (hs : Reads s (34 :: body ++ 34 :: rest)) :
    ∃ s2, get_token s token =
        .ok (s2, { token with string := body, type := .TOK_STR }) ∧
      Reads s2 rest := by
  have hch : s.ch = 34 := hs.2
  have hsp : isspace s.ch = false := by rw [hch]; rfl
  let s0 : Scanner :=
    { src := s.src, ch := 34, column_number := s.column_number, new_line := s.new_line,
      position := { line := s.position.line, col := s.column_number } }
  have hs0 : Reads s0 (34 :: body ++ 34 :: rest) := ⟨hs.1, rfl⟩
  have hq := next_char_reads s0 34 _ hs0
  have hq2 : Reads (next_char s0) (body ++ 34 :: rest) := hq
  have hsl : (next_char s0).src.length = body.length + rest.length := by
    rw [next_char_src]
    have : s0.src = body ++ 34 :: rest := hs0.1
    rw [this]
    simp
  have hloop := string_loop_reads body [] MAX_INITIAL_STRLEN 0
    (next_char s0).position.line ((next_char s0).src.length + 1) (next_char s0) rest hv
    hq2 (by simp only [List.length_nil]; omega) (le_refl _) (by omega)
  have hend : Reads (next_char^[body.length] (next_char s0)) (34 :: rest) :=
    reads_iterate _ _ _ hq2
  refine ⟨next_char (next_char^[body.length] (next_char s0)), ?_,
    next_char_reads _ 34 rest hend⟩
  unfold get_token
  have e : s.src.length + 2 = (s.src.length + 1) + 1 := rfl
  rw [e]
  simp only [get_token_fuel, skip_whitespace_none _ s hsp, hch]
  have a1 : ¬ ((34 : Int) = -1) := by decide
  have a2 : (isalpha 34 || (34 : Int) == 95) = false := by decide
  have a3 : isdigit 34 = false := by decide
  simp only [ne_eq, a1, not_false_eq_true, if_true, a2, a3, Bool.false_eq_true, if_false]
  unfold process_string
  change ((string_loop ((next_char s0).src.length + 1) (next_char s0) []
    MAX_INITIAL_STRLEN 0 (next_char s0).position.line).bind _) = _
  rw [hloop]
  simp only [Scan.bind, List.nil_append]

/-- C17, evaluation: for the literal `"ab"` `get_token` returns `TOK_STR` with
the payload `ab` and stands on the blank after the closing quote; for the
literals `"a\nb"` and `"\n\t\\"`, of one and of three legal escapes, and for
the literal of 64 escapes `\n`, it returns no token: on every backslash
`process_string` hands its array `ec`, declared without initialiser, to
`append`, which takes `strlen` of it. -/
theorem get_token_string_escape :
    (get_token (init_scanner (bytes "\"ab\" c")) empty_token).bind
        (fun r => .ok (r.2.type, r.2.string, r.1.ch))
      = .ok (.TOK_STR, bytes "ab", 32) ∧
    append none 3 92 = .fault ∧
    get_token (init_scanner (bytes "\"a\\nb\" c")) empty_token = .fault ∧
    get_token (init_scanner (bytes "\"\\n\\t\\\\\" c")) empty_token = .fault ∧
    get_token
        (init_scanner (34 :: (List.replicate 64 [92, 110]).flatten ++ bytes "\" c"))
        empty_token = .fault := by
  refine ⟨by decide!, rfl, by decide!, by decide!, by decide!⟩

theorem comment_scan_append :
    ∀ (t : List Nat) (line : Int) (a b : List Int), a ≠ [] → b ≠ [] →
      (∀ r line1, comment_scan t line a = .closed r line1 →
        comment_scan t line (a ++ b) = comment_scan r line1 b) ∧
      (∀ stack, comment_scan t line a = .unclosed stack →
        comment_scan t line (a ++ b) = .unclosed (stack ++ b)) := by
  intro t line a
  induction t, line, a using comment_scan.induct with
  | case1 line a => 
    intro b ha hb
    simp [comment_scan]
  | case2 c line a => 
    intro b ha hb
    simp [comment_scan]
  | case3 c d l line a h ih =>
    intro b ha hb
    simp only [comment_scan, h, and_self, if_true]
    exact ih b (by simp) hb
  | case4 c d l line a h1 h2 h3 =>
    intro b ha hb
    have hb1 : 1 ≤ b.length := by
      cases b with
      | nil => exact absurd rfl hb
      | cons x b => simp
    have ha1 : 1 ≤ a.length := by
      cases a with
      | nil => exact absurd rfl ha
      | cons x a => simp
    have hab : ¬ (a ++ b).length ≤ 1 := by
      rw [List.length_append]; omega
    simp only [comment_scan, h1, h2, if_true, if_false, h3, hab]
    constructor
    · intro r line1 h
      injection h with e1 e2
      subst e1 e2
      cases a with
      | nil => exact absurd rfl ha
      | cons x a =>
        cases a with
        | nil => rfl
        | cons y a => simp at h3
    · intro stack h
      exact CommentEnd.noConfusion h
  | case5 c d l line a h1 h2 h3 ih =>
    intro b ha hb
    have hab : ¬ (a ++ b).length ≤ 1 := by
      rw [List.length_append]; omega
    simp only [comment_scan, h1, h2, if_true, if_false, h3, hab]
    cases a with
    | nil => exact absurd rfl ha
    | cons x a =>
      cases a with
      | nil => simp at h3
      | cons y a => exact ih b (by simp) hb
  | case6 c d l line a h1 h2 ih =>
    intro b ha hb
    simp only [comment_scan, h1, h2, if_false]
    exact ih b ha hb

theorem next_char_new_line (s : Scanner) :
    (next_char s).new_line = 10 ↔ (next_char s).ch = 10 := by
  unfold next_char
  simp only
  generalize (match s.src with
    | [] => (-1 : Int)
    | c :: _ => (c : Int)) = c
  by_cases h1 : s.new_line = 10 <;> by_cases h2 : c = 10 <;> simp [h1, h2]

theorem next_char_line (s : Scanner) :
    (next_char s).position.line =
      if s.new_line = 10 then s.position.line + 1 else s.position.line := by
  unfold next_char
  simp only
  split_ifs <;> rfl

theorem has_empty_opener_tail (c : Nat) (l : List Nat)
    (h : has_empty_opener (c :: l) = false) : has_empty_opener l = false := by
  simp only [has_empty_opener, Bool.or_eq_false_iff] at h
  exact h.2

theorem has_empty_opener_head (l : List Nat)
    (h : has_empty_opener (40 :: 42 :: l) = false) : l.head? ≠ some 41 := by
  intro h1
  cases l with
  | nil => simp at h1
  | cons x l =>
    simp only [List.head?_cons, Option.some.injEq] at h1
    subst h1
    simp [has_empty_opener] at h

theorem comment_loop_eof (m : Nat) (p : SourcePos) (s : Scanner) (h : s.ch = -1) :
    comment_loop (m + 1) p s = .abort p "comment not closed" := by
  simp [comment_loop, h]

theorem comment_loop_step (m : Nat) (p : SourcePos) (s : Scanner) (h0 : s.ch ≠ -1)
    (h1 : ¬ (s.ch = 40 ∧ (next_char s).ch = 42))
    (h2 : ¬ (s.ch = 42 ∧ (next_char s).ch = 41)) :
    comment_loop (m + 1) p s = comment_loop m p (next_char s) := by
  by_cases e1 : s.ch = 40
  · have e2 : ¬ (next_char s).ch = 42 := fun e => h1 ⟨e1, e⟩
    simp [comment_loop, e1, e2]
  · by_cases e3 : s.ch = 42
    · have e4 : ¬ (next_char s).ch = 41 := fun e => h2 ⟨e3, e⟩
      simp [comment_loop, e3, e4]
    · simp [comment_loop, h0, e1, e3]

theorem comment_loop_open (m : Nat) (p : SourcePos) (s : Scanner) (h : s.ch = 40)
    (h1 : (next_char s).ch = 42) :
    comment_loop (m + 1) p s =
      (comment_loop m { line := (next_char s).position.line,
                        col := (next_char s).column_number - 2 } (next_char s)).bind
        (comment_loop m p) := by
  simp [comment_loop, h, h1]

theorem comment_loop_close (m : Nat) (p : SourcePos) (s : Scanner) (h : s.ch = 42)
    (h1 : (next_char s).ch = 41) :
    comment_loop (m + 1) p s = .ok (next_char (next_char s)) := by
  simp [comment_loop, h, h1]

theorem reads_next_line (s : Scanner) (c : Nat) (l : List Nat)
    (hs : Reads s (c :: l)) (hn : s.new_line = 10 ↔ s.ch = 10) :
    (next_char s).position.line =
      if c = 10 then s.position.line + 1 else s.position.line := by
  rw [next_char_line]
  have hch : s.ch = (c : Int) := hs.2
  by_cases h : c = 10
  · have h1 : s.new_line = 10 := hn.2 (by rw [hch, h]; rfl)
    rw [if_pos h1, if_pos h]
  · have h1 : ¬ s.new_line = 10 := fun e => h (by have := hn.1 e; rw [hch] at this; omega)
    rw [if_neg h1, if_neg h]

/-- The loop of `skip_comment` against the reading of the text with a stack:
when no opener is directly followed by `)`, the loop returns where the comment
is closed, and aborts on the line of the innermost open comment when it is
not. -/
theorem comment_loop_scan (n : Nat) :
    ∀ (t : List Nat) (s : Scanner) (p : SourcePos),
      Reads s t → (s.new_line = 10 ↔ s.ch = 10) → has_empty_opener t = false →
      t.length + 1 ≤ n →
      (∀ r line, comment_scan t s.position.line [p.line] = .closed r line →
        ∃ s1, comment_loop n p s = .ok s1 ∧ Reads s1 r ∧
          (s1.new_line = 10 ↔ s1.ch = 10) ∧ s1.position.line = line ∧
          r.length + 2 ≤ t.length ∧ has_empty_opener r = false) ∧
      (∀ stack, comment_scan t s.position.line [p.line] = .unclosed stack →
        ∃ line outer col, stack = line :: outer ∧
          comment_loop n p s =
            .abort { line := line, col := col } "comment not closed") := by
  induction n using Nat.strong_induction_on with
  | _ n ih =>
    intro t s p hs hn hc hlen
    match t, hs, hc, hlen with
    | [], hs, hc, hlen =>
      obtain ⟨m, rfl⟩ : ∃ m, n = m + 1 := ⟨n - 1, by omega⟩
      have hch : s.ch = -1 := hs.2
      constructor
      · intro r line h
        simp [comment_scan] at h
      · intro stack h
        simp only [comment_scan, CommentEnd.unclosed.injEq] at h
        subst h
        exact ⟨p.line, [], p.col, rfl, comment_loop_eof m p s hch⟩
    | [c], hs, hc, hlen =>
      obtain ⟨m, rfl⟩ : ∃ m, n = m + 2 := ⟨n - 2, by simp at hlen; omega⟩
      have hch : s.ch = (c : Int) := hs.2
      have hs1 : Reads (next_char s) [] := next_char_reads s c [] hs
      have hch1 : (next_char s).ch = -1 := hs1.2
      constructor
      · intro r line h
        simp [comment_scan] at h
      · intro stack h
        simp only [comment_scan, CommentEnd.unclosed.injEq] at h
        subst h
        refine ⟨p.line, [], p.col, rfl, ?_⟩
        rw [comment_loop_step (m + 1) p s (by rw [hch]; omega)
          (by rw [hch1]; intro h; exact absurd h.2 (by decide))
          (by rw [hch1]; intro h; exact absurd h.2 (by decide))]
        exact comment_loop_eof m p _ hch1
    | c :: d :: l, hs, hc, hlen =>
      obtain ⟨m, rfl⟩ : ∃ m, n = m + 1 := ⟨n - 1, by omega⟩
      have hch : s.ch = (c : Int) := hs.2
      have hs1 : Reads (next_char s) (d :: l) := next_char_reads s c _ hs
      have hch1 : (next_char s).ch = (d : Int) := hs1.2
      have hn1 := next_char_new_line s
      have hl1 := reads_next_line s c _ hs hn
      have hc1 : has_empty_opener (d :: l) = false := has_empty_opener_tail c _ hc
      have hs2 : Reads (next_char (next_char s)) l := next_char_reads _ d _ hs1
      have hn2 := next_char_new_line (next_char s)
      have hl2 := reads_next_line (next_char s) d _ hs1 hn1
      have hc2 : has_empty_opener l = false := has_empty_opener_tail d _ hc1
      simp only [List.length_cons] at hlen
      by_cases hA : c = 40 ∧ d = 42
      · obtain ⟨rfl, rfl⟩ := hA
        obtain ⟨k, rfl⟩ : ∃ k, m = k + 1 := ⟨m - 1, by omega⟩
        rw [if_neg (by decide)] at hl1
        rw [if_neg (by decide), hl1] at hl2
        have hne : l.head? ≠ some 41 := has_empty_opener_head l hc
        have hch2 : (next_char (next_char s)).ch ≠ 41 := by
          rw [hs2.2]
          cases l with
          | nil => decide
          | cons x l =>
            simp only [List.head?_cons, ne_eq, Option.some.injEq] at hne
            simp only
            omega
        have hopen := comment_loop_open (k + 1) p s hch hch1
        have hstep := comment_loop_step k
          { line := (next_char s).position.line,
            col := (next_char s).column_number - 2 } (next_char s)
          (by rw [hch1]; decide) (by rw [hch1]; intro h; exact absurd h.1 (by decide))
          (fun h => hch2 h.2)
        rw [hstep] at hopen
        simp only [hl1] at hopen
        have ih1 := ih k (by omega) l (next_char (next_char s))
          { line := (next_char s).position.line,
            col := (next_char s).column_number - 2 } hs2 hn2 hc2 (by omega)
        simp only [hl2, hl1] at ih1
        have happ := comment_scan_append l s.position.line [s.position.line] [p.line]
          (by simp) (by simp)
        have hscan : comment_scan (40 :: 42 :: l) s.position.line [p.line] =
            comment_scan l s.position.line ([s.position.line] ++ [p.line]) := by
          simp [comment_scan]
        rw [hscan]
        cases hres : comment_scan l s.position.line [s.position.line] with
        | closed r1 line1 =>
          obtain ⟨s1, e1, hr1, hsn1, hsl1, hlen1, hcl1⟩ := ih1.1 r1 line1 hres
          rw [happ.1 r1 line1 hres]
          rw [hopen, e1]
          have ih2 := ih (k + 1) (by omega) r1 s1 p hr1 hsn1 hcl1 (by omega)
          rw [hsl1] at ih2
          constructor
          · intro r line h
            obtain ⟨s2, e2, hr2, hsn2, hsl2, hlen2, hcl2⟩ := ih2.1 r line h
            exact ⟨s2, e2, hr2, hsn2, hsl2, by simp only [List.length_cons]; omega, hcl2⟩
          · intro stack h
            exact ih2.2 stack h
        | unclosed stk =>
          obtain ⟨line, outer, col, e1, e2⟩ := ih1.2 stk hres
          rw [happ.2 stk hres]
          rw [hopen, e2]
          constructor
          · intro r line h
            exact CommentEnd.noConfusion h
          · intro stack h
            injection h with h
            subst h e1
            exact ⟨line, outer ++ [p.line], col, rfl, rfl⟩
      · by_cases hB : c = 42 ∧ d = 41
        · obtain ⟨rfl, rfl⟩ := hB
          rw [if_neg (by decide)] at hl1
          rw [if_neg (by decide), hl1] at hl2
          have hscan : comment_scan (42 :: 41 :: l) s.position.line [p.line] =
              .closed l s.position.line := by
            simp [comment_scan]
          rw [hscan]
          constructor
          · intro r line h
            injection h with h1 h2
            subst h1 h2
            exact ⟨_, comment_loop_close m p s hch hch1, hs2, next_char_new_line _, hl2,
              by simp, hc2⟩
          · intro stack h
            exact CommentEnd.noConfusion h
        · have hscan : comment_scan (c :: d :: l) s.position.line [p.line] =
              comment_scan (d :: l) (if c = 10 then s.position.line + 1
                else s.position.line) [p.line] := by
            simp only [comment_scan, hA, hB, if_false]
          rw [hscan, ← hl1]
          have hstep := comment_loop_step m p s (by rw [hch]; omega)
            (by rw [hch, hch1]; intro h; exact hA ⟨by omega, by omega⟩)
            (by rw [hch, hch1]; intro h; exact hB ⟨by omega, by omega⟩)
          rw [hstep]
          have ih1 := ih m (by omega) (d :: l) (next_char s) p hs1 hn1 hc1
            (by simp only [List.length_cons]; omega)
          constructor
          · intro r line h
            obtain ⟨s2, e2, hr2, hsn2, hsl2, hlen2, hcl2⟩ := ih1.1 r line h
            exact ⟨s2, e2, hr2, hsn2, hsl2,
              by simp only [List.length_cons] at hlen2 ⊢; omega, hcl2⟩
          · intro stack h
            exact ih1.2 stack h

theorem skip_whitespace_space (s : Scanner) (h : isspace s.ch = true) :
    skip_whitespace (s.src.length + 1) s =
      skip_whitespace ((next_char s).src.length + 1) (next_char s) := by
  simp only [skip_whitespace, h, if_true]
  rw [next_char_src]
  cases hsrc : s.src with
  | nil =>
    have hch : (next_char s).ch = -1 := by rw [next_char_ch, hsrc]
    have hsp : isspace (next_char s).ch = false := by rw [hch]; rfl
    simp [skip_whitespace, hsp]
  | cons c r => rfl

theorem get_token_fuel_space (m : Nat) (s : Scanner) (token : Token)
    (h : isspace s.ch = true) :
    get_token_fuel (m + 1) s token = get_token_fuel (m + 1) (next_char s) token := by
  simp only [get_token_fuel]
  rw [skip_whitespace_space s h]

theorem get_token_fuel_comment (m : Nat) (s : Scanner) (token : Token)
    (h : s.ch = 40) (h1 : (next_char s).ch = 42) :
    ∃ s1, Reads s1 s.src ∧ (s1.new_line = 10 ↔ s1.ch = 10) ∧
      s1.position.line = (next_char s).position.line ∧
      get_token_fuel (m + 1) s token =
        (skip_comment s1).bind fun s2 => get_token_fuel m s2 token := by
  have hsp : isspace s.ch = false := by rw [h]; rfl
  let s0 : Scanner :=
    { src := s.src, ch := 40, column_number := s.column_number, new_line := s.new_line,
      position := { line := s.position.line, col := s.column_number } }
  have e0 : (next_char s0).ch = 42 := by
    rw [next_char_ch] at h1 ⊢
    exact h1
  refine ⟨next_char s0, ⟨by rw [next_char_src], by rw [next_char_ch]⟩, ?_, ?_, ?_⟩
  · exact next_char_new_line s0
  · rw [next_char_line, next_char_line]
  · simp only [get_token_fuel, skip_whitespace_none _ s hsp, h]
    have a1 : ¬ ((40 : Int) = -1) := by decide
    have a2 : (isalpha 40 || (40 : Int) == 95) = false := by decide
    have a3 : isdigit 40 = false := by decide
    simp only [ne_eq, a1, not_false_eq_true, if_true, a2, a3, Bool.false_eq_true, if_false]
    simp only [show ¬ ((40 : Int) = 34) by decide, show ¬ ((40 : Int) = 61) by decide,
      show ¬ ((40 : Int) = 62) by decide, show ¬ ((40 : Int) = 60) by decide,
      show ¬ ((40 : Int) = 35) by decide, show ¬ ((40 : Int) = 45) by decide,
      show ¬ ((40 : Int) = 43) by decide, show ¬ ((40 : Int) = 47) by decide,
      show ¬ ((40 : Int) = 42) by decide, show ¬ ((40 : Int) = 37) by decide,
      show ¬ ((40 : Int) = 38) by decide, show ¬ ((40 : Int) = 91) by decide,
      show ¬ ((40 : Int) = 93) by decide, show ¬ ((40 : Int) = 44) by decide, if_false,
      if_true]
    change (if (next_char s0).ch = 42 then _ else _) = _
    rw [if_pos e0]

theorem get_token_fuel_unclosed (token : Token) (n : Nat) :
    ∀ (t : List Nat) (s : Scanner) (m : Nat) (stack : List Int),
      Reads s t → (s.new_line = 10 ↔ s.ch = 10) → has_empty_opener t = false →
      t.length + 1 ≤ m →
      unclosed_comment n t s.position.line = some stack →
      ∃ line outer col, stack = line :: outer ∧
        get_token_fuel m s token =
          .abort { line := line, col := col } "comment not closed" := by
  induction n with
  | zero =>
    intro t s m stack _ _ _ _ hu
    simp [unclosed_comment] at hu
  | succ n ih =>
    intro t s m stack hs hn hc hlen hu
    match t, hs, hc, hlen, hu with
    | [], _, _, _, hu => simp [unclosed_comment] at hu
    | [_], _, _, _, hu => simp [unclosed_comment] at hu
    | c :: d :: l, hs, hc, hlen, hu =>
      obtain ⟨k, rfl⟩ : ∃ k, m = k + 1 := ⟨m - 1, by omega⟩
      have hch : s.ch = (c : Int) := hs.2
      have hs1 : Reads (next_char s) (d :: l) := next_char_reads s c _ hs
      have hl1 := reads_next_line s c _ hs hn
      simp only [List.length_cons] at hlen
      simp only [unclosed_comment] at hu
      by_cases hsp : isspace (c : Int) = true
      · rw [if_pos hsp, ← hl1] at hu
        rw [get_token_fuel_space k s token (by rw [hch]; exact hsp)]
        exact ih (d :: l) (next_char s) (k + 1) stack hs1 (next_char_new_line s)
          (has_empty_opener_tail c _ hc) (by simp only [List.length_cons]; omega) hu
      · rw [if_neg hsp] at hu
        by_cases hA : c = 40 ∧ d = 42
        · rw [if_pos hA] at hu
          obtain ⟨rfl, rfl⟩ := hA
          rw [if_neg (by decide)] at hl1
          obtain ⟨s1, hr1, hn1, hline1, e⟩ :=
            get_token_fuel_comment k s token hch hs1.2
          rw [e]
          have hsrc : s.src = 42 :: l := hs.1
          rw [hsrc] at hr1
          have hr2 : Reads (next_char s1) l := next_char_reads s1 42 l hr1
          have hl2 := reads_next_line s1 42 l hr1 hn1
          rw [if_neg (by decide), hline1, hl1] at hl2
          have hlen1 : s1.src.length = l.length := reads_src_length s1 42 l hr1
          have hne : l.head? ≠ some 41 := has_empty_opener_head l hc
          have hch2 : (next_char s1).ch ≠ 41 := by
            rw [hr2.2]
            cases l with
            | nil => decide
            | cons x l =>
              simp only [List.head?_cons, ne_eq, Option.some.injEq] at hne
              simp only
              omega
          have hc2 : has_empty_opener l = false :=
            has_empty_opener_tail 42 _ (has_empty_opener_tail 40 _ hc)
          have hch1 : s1.ch = 42 := hr1.2
          unfold skip_comment
          rw [hlen1, comment_loop_step (l.length + 1) _ s1 (by rw [hch1]; decide)
            (by rw [hch1]; intro h; exact absurd h.1 (by decide)) (fun h => hch2 h.2)]
          have hscan := comment_loop_scan (l.length + 1) l (next_char s1)
            { line := s1.position.line, col := s1.column_number - 2 } hr2
            (next_char_new_line s1) hc2 (le_refl _)
          simp only [hl2, hline1, hl1] at hscan ⊢
          cases hres : comment_scan l s.position.line [s.position.line] with
          | closed r line1 =>
            rw [hres] at hu
            simp only at hu
            obtain ⟨s2, e2, hsr, hsn, hsl, hlen2, hcl⟩ := hscan.1 r line1 hres
            rw [e2]
            rw [← hsl] at hu
            exact ih r s2 k stack hsr hsn hcl (by omega) hu
          | unclosed stk =>
            rw [hres] at hu
            simp only [Option.some.injEq] at hu
            subst hu
            obtain ⟨line, outer, col, e1, e2⟩ := hscan.2 stk hres
            rw [e2]
            exact ⟨line, outer, col, e1, rfl⟩
        · rw [if_neg hA] at hu
          exact absurd hu (by simp)

/-- C14, amended: when the scanner stands on whitespace and comments that run
up to the end of input, the last comment not being closed, and no opener `(*`
is directly followed by `)`, `get_token` aborts with `comment not closed`, and
the line it reports is the line of the innermost comment still open at the end
of input, the head of the stack of open comments. -/
theorem comment_not_closed_line (t : List Nat) (s : Scanner) (token : Token)
    (stack : List Int) (hs : Reads s t) (hn : s.new_line = 10 ↔ s.ch = 10)
    (hc : has_empty_opener t = false)
    (hu : unclosed_comment t.length t s.position.line = some stack) :
    ∃ line outer col, stack = line :: outer ∧
      get_token s token =
        .abort { line := line, col := col } "comment not closed" := by
  unfold get_token
  refine get_token_fuel_unclosed token t.length t s _ stack hs hn hc ?_ hu
  have h : s.src = t.tail := hs.1
  rw [h]
  cases t with
  | nil => simp
  | cons c t => simp

/-- The statement of `comment_not_closed_line` for the source
`program P begin` followed on the next two lines by `(* outer` and
`(* inner chill end`, with the scanner on the newline after `begin`: the stack
holds the lines 3 and 2, and the abort names line 3. -/
theorem comment_not_closed_line_witness :
    ∃ line outer col, [(3 : Int), 2] = line :: outer ∧
      get_token
          (next_char^[15] (init_scanner
            (bytes "program P begin\n(* outer\n(* inner chill end")))
          empty_token =
        .abort { line := line, col := col } "comment not closed" :=
  comment_not_closed_line (bytes "\n(* outer\n(* inner chill end") _ empty_token
    [3, 2] ⟨rfl, rfl⟩ (by decide) (by decide) (by decide)

/-- C14, evaluation: in the source `program P begin (* outer (* inner *) chill
end` the outermost comment opens in column 17 and is not closed; the fourth
call of `get_token` aborts with `comment not closed` at line 1, column 16.  When
the inner comment is not closed either, it aborts at line 1, column 25, next to
the inner opener in column 26. -/
theorem comment_not_closed_position :
    get_tokens 4
        (init_scanner (bytes "program P begin (* outer (* inner *) chill end"))
        empty_token =
      .abort { line := 1, col := 16 } "comment not closed" ∧
    get_tokens 4
        (init_scanner (bytes "program P begin (* outer (* inner chill end"))
        empty_token =
      .abort { line := 1, col := 25 } "comment not closed" := by
  constructor <;> decide!

/-- C18, evaluation: on the source `program P begin chill end` the parser
returns without a message and without a fault, and the calls of the code
emitter are, in this order and with nothing else, `init_subroutine_codegen` for
`main`, `set_class_name` with `P`, `gen_1(JVM_RETURN)` and
`close_subroutine_codegen` with width 1. -/
theorem minimal_program :
    emitted (main (bytes "program P begin chill end")) =
      .ok [.init_subroutine_codegen (bytes "main") none, .set_class_name (bytes "P"),
        .gen_1 .JVM_RETURN, .close_subroutine_codegen 1] := by
  decide!

/-- C21, evaluation: for a guard that compares the integer literals 1 and 2,
with each of the six relational operators, `parse_if` aborts with
`incompatible types` for the `if` guard, expected `TYPE_BOOLEAN`, found
`TYPE_INTEGER`, and `parse_while` does so for the `while` guard: the type
`parse_expr` yields for `1 < 2` is `TYPE_INTEGER`, the type of the left
operand. -/
theorem comparison_guard_rejected :
    emitted (main (bytes "program P begin if 1 = 2 then chill end end")) =
      .abort { line := 1, col := 26 }
        [.lit "incompatible types (expected ", .valtype TYPE_BOOLEAN,
          .lit ", found ", .valtype TYPE_INTEGER, .lit ") ",
          .str (bytes "for 'if' guard")] ∧
    emitted (main (bytes "program P begin if 1 # 2 then chill end end")) =
      .abort { line := 1, col := 26 }
        [.lit "incompatible types (expected ", .valtype TYPE_BOOLEAN,
          .lit ", found ", .valtype TYPE_INTEGER, .lit ") ",
          .str (bytes "for 'if' guard")] ∧
    emitted (main (bytes "program P begin if 1 < 2 then chill end end")) =
      .abort { line := 1, col := 26 }
        [.lit "incompatible types (expected ", .valtype TYPE_BOOLEAN,
          .lit ", found ", .valtype TYPE_INTEGER, .lit ") ",
          .str (bytes "for 'if' guard")] ∧
    emitted (main (bytes "program P begin if 1 <= 2 then chill end end")) =
      .abort { line := 1, col := 27 }
        [.lit "incompatible types (expected ", .valtype TYPE_BOOLEAN,
          .lit ", found ", .valtype TYPE_INTEGER, .lit ") ",
          .str (bytes "for 'if' guard")] ∧
    emitted (main (bytes "program P begin if 1 > 2 then chill end end")) =
      .abort { line := 1, col := 26 }
        [.lit "incompatible types (expected ", .valtype TYPE_BOOLEAN,
          .lit ", found ", .valtype TYPE_INTEGER, .lit ") ",
          .str (bytes "for 'if' guard")] ∧
    emitted (main (bytes "program P begin if 1 >= 2 then chill end end")) =
      .abort { line := 1, col := 27 }
        [.lit "incompatible types (expected ", .valtype TYPE_BOOLEAN,
          .lit ", found ", .valtype TYPE_INTEGER, .lit ") ",
          .str (bytes "for 'if' guard")] ∧
    emitted (main (bytes "program P begin while 1 < 2 do chill end end")) =
      .abort { line := 1, col := 29 }
        [.lit "incompatible types (expected ", .valtype TYPE_BOOLEAN,
          .lit ", found ", .valtype TYPE_INTEGER, .lit ") ",
          .str (bytes "for 'while' guard")] ∧
    parse_guard 40 (keyword_state .TOK_IF " 1 < 2 then chill end") .TOK_IF none =
      some ({ line := 1, col := 8 }, TYPE_INTEGER) := by
  refine ⟨by decide!, by decide!, by decide!, by decide!, by decide!, by decide!,
    by decide!, by decide!⟩

/-- C22, evaluation: on `program P begin read a end`, where `a` is not
declared, the parser returns without a message, as it does with a statement
after the `read`; for the undeclared `a` as a factor, as the target of an
assignment and as the target of a call it aborts with the unknown-identifier
error; on `program P begin write y end` the run ends in a fault of the scanner,
which reads outside `reserved` for the lexeme `y`. -/
theorem read_of_unknown_identifier :
    emitted (main (bytes "program P begin read a end")) =
      .ok [.init_subroutine_codegen (bytes "main") none, .set_class_name (bytes "P"),
        .gen_1 .JVM_RETURN, .close_subroutine_codegen 1] ∧
    emitted (main (bytes "program P begin read a; write 1 end")) =
      .ok [.init_subroutine_codegen (bytes "main") none, .set_class_name (bytes "P"),
        .gen_2 .JVM_LDC 1, .gen_print TYPE_INTEGER, .gen_1 .JVM_RETURN,
        .close_subroutine_codegen 1] ∧
    emitted (main (bytes "program P begin write a end")) =
      .abort { line := 1, col := 25 }
        [.lit "unknown identifier '", .unassigned, .lit "'"] ∧
    emitted (main (bytes "program P begin a <- 1 end")) =
      .abort { line := 1, col := 19 }
        [.lit "unknown identifier '", .unassigned, .lit "'"] ∧
    emitted (main (bytes "program P begin a(1) end")) =
      .abort { line := 1, col := 18 }
        [.lit "unknown identifier '", .unassigned, .lit "'"] ∧
    emitted (main (bytes "program P begin write y end")) = .fault := by
  refine ⟨by decide!, by decide!, by decide!, by decide!, by decide!, by decide!⟩

/-- C23, evaluation: the call `f(1)` in the body of `f`, defined with one
integer parameter, is not accepted: `check_types` is handed the type
`TYPE_CALLABLE` of `f` as the expected type, takes its error branch, and the
run ends in a fault there; and the call-like statement `a(1, 2)` on the integer
variable `a` is accepted, the type of each argument being the type of `a`. -/
theorem arglist_checks_type_of_callee :
    emitted (main (bytes
        "program P define f(integer a) begin f(1) end begin chill end")) = .fault ∧
    emitted (main (bytes "program P begin integer a; a(1, 2) end")) =
      .ok [.init_subroutine_codegen (bytes "main") none, .set_class_name (bytes "P"),
        .gen_2 .JVM_LDC 1, .gen_2 .JVM_LDC 2, .gen_1 .JVM_RETURN,
        .close_subroutine_codegen 2] := by
  refine ⟨by decide!, by decide!⟩

/-- C24, evaluation: on a `define f()` without parameters the run ends in a
fault; after a `define f(integer a)` the pointers `table` and `saved_table` are
both null when the parser returns, and a program body that declares a variable
after it ends in a fault. -/
theorem funcdef_leaves_no_scope :
    emitted (main (bytes
        "program P define f() begin chill end begin chill end")) = .fault ∧
    (main (bytes
        "program P define f(integer a) begin chill end begin chill end")).bind
        (fun p => .ok (p.symtab.table, p.symtab.saved_table)) = .ok (none, none) ∧
    emitted (main (bytes
        "program P define f(integer a) begin chill end begin integer b; chill end")) =
      .fault := by
  refine ⟨by decide!, by decide!, by decide!⟩

/-- C25, evaluation: after `integer array a; integer b;` the variables `a`
and `b` both have offset 1; after `integer a; boolean b; integer c;` the
offsets are 1, 2 and 3. -/
theorem array_variable_shares_offset :
    (main (bytes "program P begin integer array a; integer b; chill end")).bind
        (fun p => .ok (find_name p.symtab (bytes "a") unset_prop,
          find_name p.symtab (bytes "b") unset_prop)) =
      .ok (some (TRUE, { type := 5, offset := 1, nparams := 0, params := [] }),
        some (TRUE, { type := 4, offset := 1, nparams := 0, params := [] })) ∧
    (main (bytes "program P begin integer a; boolean b; integer c; chill end")).bind
        (fun p => .ok ((find_name p.symtab (bytes "a") unset_prop).map (·.2.offset),
          (find_name p.symtab (bytes "b") unset_prop).map (·.2.offset),
          (find_name p.symtab (bytes "c") unset_prop).map (·.2.offset))) =
      .ok (some 1, some 2, some 3) := by
  refine ⟨by decide!, by decide!⟩

/-- C27, evaluation: for the call `f()` as a statement in the body of `f` the
parser emits nothing, and for the call `f()` as a factor it emits
`gen_2(JVM_ILOAD, 1)`; the one `gen_call` of each run is emitted where `f` is
defined, before `init_subroutine_codegen`. -/
theorem call_emits_no_gen_call :
    emitted (main (bytes
        "program P define f(integer a) begin f() end begin chill end")) =
      .ok [.init_subroutine_codegen (bytes "main") none, .set_class_name (bytes "P"),
        .gen_call (bytes "f")
          { type := TYPE_CALLABLE, offset := 1, nparams := 1, params := [TYPE_INTEGER] },
        .init_subroutine_codegen (bytes "f")
          (some { type := TYPE_CALLABLE, offset := 1, nparams := 1,
                  params := [TYPE_INTEGER] }),
        .gen_1 .JVM_RETURN, .close_subroutine_codegen 2,
        .gen_1 .JVM_RETURN, .close_subroutine_codegen 2] ∧
    emitted (main (bytes
        "program P define f(integer a) begin write f() end begin chill end")) =
      .ok [.init_subroutine_codegen (bytes "main") none, .set_class_name (bytes "P"),
        .gen_call (bytes "f")
          { type := TYPE_CALLABLE, offset := 1, nparams := 1, params := [TYPE_INTEGER] },
        .init_subroutine_codegen (bytes "f")
          (some { type := TYPE_CALLABLE, offset := 1, nparams := 1,
                  params := [TYPE_INTEGER] }),
        .gen_2 .JVM_ILOAD 1, .gen_print TYPE_CALLABLE,
        .gen_1 .JVM_RETURN, .close_subroutine_codegen 2,
        .gen_1 .JVM_RETURN, .close_subroutine_codegen 2] := by
  refine ⟨by decide!, by decide!⟩

/-- C28, evaluation: for `a <- array 5` with `a` an integer array the parser
emits `gen_2(JVM_ASTORE, 1)` and then `gen_2(JVM_LDC, 5)`, and for a Boolean
array `gen_2(JVM_LDC, 5)` alone; `gen_newarray` is not called. -/
theorem array_allocation_emits_no_newarray :
    emitted (main (bytes "program P begin integer array a; a <- array 5 end")) =
      .ok [.init_subroutine_codegen (bytes "main") none, .set_class_name (bytes "P"),
        .gen_2 .JVM_ASTORE 1, .gen_2 .JVM_LDC 5, .gen_1 .JVM_RETURN,
        .close_subroutine_codegen 1] ∧
    emitted (main (bytes "program P begin boolean array b; b <- array 5 end")) =
      .ok [.init_subroutine_codegen (bytes "main") none, .set_class_name (bytes "P"),
        .gen_2 .JVM_LDC 5, .gen_1 .JVM_RETURN, .close_subroutine_codegen 1] := by
  refine ⟨by decide!, by decide!⟩

/-- C29, evaluation: `parse_factor` on `not 1`, with the caller's variable
holding `TYPE_INTEGER`, returns with `gen_2(JVM_LDC, 1)` and
`gen_2(JVM_IXOR, 1)` emitted and the type `TYPE_INTEGER`, and the program
`integer a; a <- not 1` is parsed to its end; on `not true` it returns with the
type `TYPE_BOOLEAN` when the caller's variable held `TYPE_BOOLEAN`, and when it
held `TYPE_INTEGER` the call does not return and emits no `JVM_IXOR`:
`check_types` takes its error branch, in which the run ends in a fault. -/
theorem not_checks_against_caller_type :
    (parse_factor 40 (keyword_state .TOK_NOT " 1 ;") (some TYPE_INTEGER)).bind
        (fun r => .ok (r.1.code, r.2)) =
      .ok ([.gen_2 .JVM_LDC 1, .gen_2 .JVM_IXOR 1], some TYPE_INTEGER) ∧
    emitted (main (bytes "program P begin integer a; a <- not 1 end")) =
      .ok [.init_subroutine_codegen (bytes "main") none, .set_class_name (bytes "P"),
        .gen_2 .JVM_LDC 1, .gen_2 .JVM_IXOR 1, .gen_2 .JVM_ISTORE 1,
        .gen_1 .JVM_RETURN, .close_subroutine_codegen 2] ∧
    (parse_factor 40 (keyword_state .TOK_NOT " true ;") (some TYPE_BOOLEAN)).bind
        (fun r => .ok (r.1.code, r.2)) =
      .ok ([.gen_2 .JVM_LDC 1, .gen_2 .JVM_IXOR 1], some TYPE_BOOLEAN) ∧
    (parse_factor 40 (keyword_state .TOK_NOT " true ;") (some TYPE_INTEGER)).bind
        (fun r => .ok (r.1.code, r.2)) = .fault ∧
    emitted (main (bytes "program P begin integer a; a <- not true end")) =
      .fault := by
  refine ⟨by decide!, by decide!, by decide!, by decide!, by decide!⟩

theorem reads_tokens_head (s : Scanner) (tok : Token) (t : TokenType × Int)
    (ts : List (TokenType × Int)) (h : reads_tokens s tok (t :: ts) = true) :
    tok.type = t.1 ∧ (t.1 = .TOK_NUM → tok.value = t.2) := by
  simp only [reads_tokens, Bool.and_eq_true, beq_iff_eq, Bool.or_eq_true, bne_iff_ne,
    ne_eq] at h
  refine ⟨h.1.1, fun hn => ?_⟩
  rcases h.1.2 with h2 | h2
  · exact absurd hn h2
  · exact h2

theorem reads_tokens_next (s : Scanner) (tok : Token) (t u : TokenType × Int)
    (ts : List (TokenType × Int)) (h : reads_tokens s tok (t :: u :: ts) = true) :
    ∃ r, get_token s tok = .ok r ∧ reads_tokens r.1 r.2 (u :: ts) = true := by
  simp only [reads_tokens, Bool.and_eq_true, Bool.or_eq_true, List.isEmpty_cons,
    Bool.false_eq_true, false_or] at h
  have h2 := h.2
  cases hg : get_token s tok with
  | ok r =>
    rw [hg] at h2
    refine ⟨r, rfl, ?_⟩
    simpa [reads_tokens] using h2
  | abort pos msg => rw [hg] at h2; simp at h2
  | fault => rw [hg] at h2; simp at h2

theorem next_token_ahead (p : Parser) (t u : TokenType × Int)
    (ts : List (TokenType × Int))
    (h : reads_tokens p.scanner p.token (t :: u :: ts) = true) :
    ∃ p1, next_token p = .ok p1 ∧ p1.code = p.code ∧ p1.relop = p.relop ∧
      reads_tokens p1.scanner p1.token (u :: ts) = true := by
  obtain ⟨r, hg, hr⟩ := reads_tokens_next _ _ t u ts h
  refine ⟨{ p with scanner := r.1, token := r.2 }, ?_, rfl, rfl, hr⟩
  simp only [next_token, hg, Parse.of_scan, Parse.bind]

theorem expect_ahead (p : Parser) (t u : TokenType × Int)
    (ts : List (TokenType × Int))
    (h : reads_tokens p.scanner p.token (t :: u :: ts) = true) :
    ∃ p1, expect p t.1 = .ok p1 ∧ p1.code = p.code ∧ p1.relop = p.relop ∧
      reads_tokens p1.scanner p1.token (u :: ts) = true := by
  obtain ⟨p1, h1, h2, h3, h4⟩ := next_token_ahead p t u ts h
  refine ⟨p1, ?_, h2, h3, h4⟩
  have ht := (reads_tokens_head _ _ t _ h).1
  simp only [expect, ht, if_true, h1]

/-- The function `parse_factor` on a literal: it emits the instruction of the
literal and yields its type. -/
theorem parse_factor_literal (l : Literal) (n : Nat) (p : Parser) (type : Option Nat)
    (u : TokenType × Int) (ts : List (TokenType × Int))
    (h : reads_tokens p.scanner p.token (l.token :: u :: ts) = true) :
    ∃ p1, parse_factor (n + 1) p type = .ok (p1, some l.type) ∧
      p1.code = p.code ++ l.code ∧ p1.relop = p.relop ∧
      reads_tokens p1.scanner p1.token (u :: ts) = true := by
  have hh := reads_tokens_head _ _ _ _ h
  cases l with
  | num value =>
    have ht : p.token.type = .TOK_NUM := hh.1
    have hv : p.token.value = value := hh.2 rfl
    obtain ⟨p1, h1, h2, h3, h4⟩ :=
      expect_ahead (gen p (.gen_2 .JVM_LDC p.token.value)) _ u ts h
    refine ⟨p1, ?_, ?_, h3, h4⟩
    · simp only [parse_factor, ht, reduceCtorEq, if_false, if_true]
      have h1b : expect (gen p (.gen_2 .JVM_LDC p.token.value)) .TOK_NUM = .ok p1 := h1
      rw [h1b]
      rfl
    · rw [h2, ← hv]
      rfl
  | tru =>
    have ht : p.token.type = .TOK_TRUE := hh.1
    obtain ⟨p1, h1, h2, h3, h4⟩ := expect_ahead p _ u ts h
    refine ⟨gen p1 (.gen_2 .JVM_LDC 1), ?_, ?_, h3, h4⟩
    · have h1b : expect p .TOK_TRUE = .ok p1 := h1
      simp only [parse_factor, ht, reduceCtorEq, if_false, if_true, IS_RELOP,
        show (TokenType.TOK_TRUE == TokenType.TOK_EQ) = false by decide,
        show (TokenType.TOK_TRUE == TokenType.TOK_GE) = false by decide,
        show (TokenType.TOK_TRUE == TokenType.TOK_GT) = false by decide,
        show (TokenType.TOK_TRUE == TokenType.TOK_LE) = false by decide,
        show (TokenType.TOK_TRUE == TokenType.TOK_LT) = false by decide,
        show (TokenType.TOK_TRUE == TokenType.TOK_NE) = false by decide,
        Bool.or_self, Bool.false_eq_true, h1b, Parse.bind]
      rfl
    · show p1.code ++ _ = _
      rw [h2]
      rfl
  | fls =>
    have ht : p.token.type = .TOK_FALSE := hh.1
    obtain ⟨p1, h1, h2, h3, h4⟩ := expect_ahead p _ u ts h
    refine ⟨gen p1 (.gen_2 .JVM_LDC 0), ?_, ?_, h3, h4⟩
    · have h1b : expect p .TOK_FALSE = .ok p1 := h1
      simp only [parse_factor, ht, reduceCtorEq, if_false, if_true, IS_RELOP,
        show (TokenType.TOK_FALSE == TokenType.TOK_EQ) = false by decide,
        show (TokenType.TOK_FALSE == TokenType.TOK_GE) = false by decide,
        show (TokenType.TOK_FALSE == TokenType.TOK_GT) = false by decide,
        show (TokenType.TOK_FALSE == TokenType.TOK_LE) = false by decide,
        show (TokenType.TOK_FALSE == TokenType.TOK_LT) = false by decide,
        show (TokenType.TOK_FALSE == TokenType.TOK_NE) = false by decide,
        Bool.or_self, Bool.false_eq_true, h1b, Parse.bind]
      rfl
    · show p1.code ++ _ = _
      rw [h2]
      rfl

theorem check_types_operands (p : Parser) (a b : Nat) (pos : Option SourcePos) :
    check_types p (some a) (some b) pos [] = if a = b then .ok p else .fault := by
  by_cases h : a = b
  · simp [check_types, Parse.of_option, Parse.bind, h]
  · simp [check_types, Parse.of_option, Parse.bind, h]

/-- One iteration of the loop of `parse_term` on an operator and a literal:
the types of the literal and of the first factor are compared with each other;
when they are equal the instruction of the operator is emitted after that of
the literal, and when they differ the run ends in the error branch of
`check_types`. -/
theorem term_loop_step (op : TokenType) (l : Literal) (n : Nat) (p : Parser)
    (T : Nat) (t1 : Option Nat) (u : TokenType × Int) (ts : List (TokenType × Int))
    (hop : IS_MULOP op = true)
    (h : reads_tokens p.scanner p.token ((op, 0) :: l.token :: u :: ts) = true) :
    ∃ p2 b, instruction op = some b ∧ p2.code = p.code ++ l.code ∧
      p2.relop = p.relop ∧ reads_tokens p2.scanner p2.token (u :: ts) = true ∧
      term_loop (n + 2) p (some T) t1 =
        if l.type = T then term_loop (n + 1) (gen p2 (.gen_1 b)) (some T) (some l.type)
        else .fault := by
  have ht : p.token.type = op := (reads_tokens_head _ _ _ _ h).1
  obtain ⟨p1, h1, h2, h3, h4⟩ := expect_ahead p _ _ _ h
  obtain ⟨p2, e1, e2, e3, e4⟩ := parse_factor_literal l n p1 t1 u ts h4
  have h1b : expect p op = .ok p1 := h1
  have hc := check_types_operands p2 l.type T (some p2.scanner.position)
  cases op <;> simp [IS_MULOP] at hop
  all_goals
    refine ⟨p2, _, rfl, by rw [e2, h2], by rw [e3, h3], e4, ?_⟩
    show term_loop ((n + 1) + 1) p (some T) t1 = _
    rw [term_loop]
    simp only [ht, IS_MULOP, reduceCtorEq, if_false, if_true, h1b, Parse.bind,
      e1, hc, beq_self_eq_true, Bool.or_true, Bool.true_or, Bool.or_false]
    split_ifs <;> rfl

theorem tokens_nonempty (a : List (TokenType × Int)) (u : TokenType × Int)
    (ts : List (TokenType × Int)) : ∃ v vs, a ++ u :: ts = v :: vs := by
  cases a with
  | nil => exact ⟨u, ts, rfl⟩
  | cons v a => exact ⟨v, a ++ u :: ts, rfl⟩

/-- The calls of the code emitter for the operators and literals after the
first literal of a term. -/
theorem postorder_factors (fs : List (TokenType × Literal)) :
    ∀ a : Exp, postorder (fs.foldl (fun a o => .bin o.1 a (.lit o.2)) a) =
      postorder a ++
        (fs.map fun o => o.2.code ++ (instruction o.1).toList.map Emit.gen_1).flatten := by
  induction fs with
  | nil => intro a; simp
  | cons o fs ih =>
    intro a
    simp only [List.foldl_cons, List.map_cons, List.flatten_cons]
    rw [ih]
    simp only [postorder, List.append_assoc]

/-- The loop of `parse_term` on operators and literals of one type: it emits,
for each operator, the instruction of the literal and then that of the
operator. -/
theorem term_loop_run :
    ∀ (fs : List (TokenType × Literal)) (n : Nat) (p : Parser) (T : Nat)
      (t1 : Option Nat) (u : TokenType × Int) (ts : List (TokenType × Int)),
      (fs.all fun o => IS_MULOP o.1 && o.2.type == T) = true →
      IS_MULOP u.1 = false →
      reads_tokens p.scanner p.token (factors_tokens fs ++ u :: ts) = true →
      (factors_tokens fs).length + 1 ≤ n →
      ∃ p2, term_loop n p (some T) t1 = .ok p2 ∧
        p2.code = p.code ++
          (fs.map fun o => o.2.code ++ (instruction o.1).toList.map Emit.gen_1).flatten ∧
        p2.relop = p.relop ∧ reads_tokens p2.scanner p2.token (u :: ts) = true
  | [], n, p, T, t1, u, ts, _, hu, hs, hn => by
    obtain ⟨m, rfl⟩ : ∃ m, n = m + 1 := ⟨n - 1, by omega⟩
    have ht : p.token.type = u.1 := (reads_tokens_head _ _ _ _ hs).1
    refine ⟨p, ?_, by simp, rfl, hs⟩
    rw [term_loop]
    simp only [ht, hu, Bool.false_eq_true, if_false]
  | o :: fs, n, p, T, t1, u, ts, hv, hu, hs, hn => by
    simp only [List.all_cons, Bool.and_eq_true, beq_iff_eq] at hv
    obtain ⟨⟨hop, hty⟩, hv2⟩ := hv
    have hlen : (factors_tokens (o :: fs)).length = (factors_tokens fs).length + 2 := by
      simp [factors_tokens]
    obtain ⟨m, rfl⟩ : ∃ m, n = m + 2 := ⟨n - 2, by omega⟩
    obtain ⟨v, vs, hrest⟩ := tokens_nonempty (factors_tokens fs) u ts
    have hs1 : reads_tokens p.scanner p.token ((o.1, 0) :: o.2.token :: v :: vs) = true := by
      rw [← hrest]
      simpa [factors_tokens] using hs
    obtain ⟨p2, b, hb, hc, hr, ha, hstep⟩ :=
      term_loop_step o.1 o.2 m p T t1 v vs hop hs1
    rw [← hrest] at ha
    obtain ⟨p3, e3, c3, r3, a3⟩ :=
      term_loop_run fs (m + 1) (gen p2 (.gen_1 b)) T (some o.2.type) u ts
        (by simpa using hv2) hu ha (by omega)
    refine ⟨p3, ?_, ?_, by rw [r3]; exact hr, a3⟩
    · rw [hstep, if_pos hty, e3]
    · rw [c3]
      show (p2.code ++ [Emit.gen_1 b]) ++ _ = _
      rw [hc]
      simp only [List.map_cons, List.flatten_cons, hb, Option.toList_some, List.map_cons,
        List.map_nil, List.append_assoc]

/-- The function `parse_term` on a term of literals of one type. -/
theorem parse_term_literals (t : Term) (n : Nat) (p : Parser) (T : Nat)
    (type : Option Nat) (u : TokenType × Int) (ts : List (TokenType × Int))
    (hv : Term.valid T t = true) (hu : IS_MULOP u.1 = false)
    (hs : reads_tokens p.scanner p.token (Term.tokens t ++ u :: ts) = true)
    (hn : (Term.tokens t).length + 1 ≤ n) :
    ∃ p2, parse_term n p type = .ok (p2, some T) ∧
      p2.code = p.code ++ postorder (Term.tree t) ∧ p2.relop = p.relop ∧
      reads_tokens p2.scanner p2.token (u :: ts) = true := by
  simp only [Term.valid, Bool.and_eq_true, beq_iff_eq] at hv
  have hlen : (Term.tokens t).length = (factors_tokens t.2).length + 1 := by
    simp [Term.tokens]
  obtain ⟨m, rfl⟩ : ∃ m, n = m + 2 := ⟨n - 2, by omega⟩
  obtain ⟨v, vs, hrest⟩ := tokens_nonempty (factors_tokens t.2) u ts
  have hs1 : reads_tokens p.scanner p.token (t.1.token :: v :: vs) = true := by
    rw [← hrest]
    simpa [Term.tokens] using hs
  obtain ⟨p1, e1, c1, r1, a1⟩ := parse_factor_literal t.1 m p type v vs hs1
  rw [← hrest] at a1
  obtain ⟨p2, e2, c2, r2, a2⟩ :=
    term_loop_run t.2 (m + 1) p1 T none u ts hv.2 hu a1 (by omega)
  refine ⟨p2, ?_, ?_, by rw [r2, r1], a2⟩
  · show parse_term ((m + 1) + 1) p type = _
    rw [parse_term, e1]
    simp only [Parse.bind, hv.1, e2]
  · rw [c2, c1, Term.tree, postorder_factors]
    simp only [postorder, List.append_assoc]

theorem addop_not_mulop (t : TokenType) (h : IS_ADDOP t = true) : IS_MULOP t = false := by
  cases t <;> first | rfl | exact absurd h (by decide)

theorem relop_not_mulop (t : TokenType) (h : IS_RELOP t = true) : IS_MULOP t = false := by
  cases t <;> first | rfl | exact absurd h (by decide)

theorem relop_not_addop (t : TokenType) (h : IS_RELOP t = true) : IS_ADDOP t = false := by
  cases t <;> first | rfl | exact absurd h (by decide)

theorem literal_not_minus (l : Literal) : l.token.1 ≠ TokenType.TOK_MINUS := by
  cases l <;> simp [Literal.token]

/-- One iteration of the loop of `parse_simple` on an operator and a term of
literals of the type `T1`: that type is compared with the type of the first
term; when they are equal the instruction of the operator is emitted after
those of the term, and when they differ the run ends in the error branch of
`check_types`. -/
theorem simple_loop_step (op : TokenType) (t : Term) (n : Nat) (p : Parser)
    (T T1 : Nat) (t1 : Option Nat) (u : TokenType × Int) (ts : List (TokenType × Int))
    (hop : IS_ADDOP op = true) (hv : Term.valid T1 t = true)
    (hu : IS_MULOP u.1 = false)
    (h : reads_tokens p.scanner p.token ((op, 0) :: (Term.tokens t ++ u :: ts)) = true)
    (hn : (Term.tokens t).length + 1 ≤ n) :
    ∃ p2 b, instruction op = some b ∧ p2.code = p.code ++ postorder (Term.tree t) ∧
      p2.relop = p.relop ∧ reads_tokens p2.scanner p2.token (u :: ts) = true ∧
      simple_loop (n + 1) p (some T) t1 =
        if T1 = T then simple_loop n (gen p2 (.gen_1 b)) (some T) (some T1)
        else .fault := by
  have ht : p.token.type = op := (reads_tokens_head _ _ _ _ h).1
  obtain ⟨v, vs, hrest⟩ : ∃ v vs, Term.tokens t ++ u :: ts = v :: vs :=
    tokens_nonempty _ u ts
  rw [hrest] at h
  obtain ⟨p1, h1, h2, h3, h4⟩ := expect_ahead p _ _ _ h
  rw [← hrest] at h4
  obtain ⟨p2, e1, e2, e3, e4⟩ := parse_term_literals t n p1 T1 t1 u ts hv hu h4 hn
  have h1b : expect p op = .ok p1 := h1
  have hc := check_types_operands p2 T1 T (some p2.scanner.position)
  cases op <;> first | exact absurd hop (by decide) | skip
  all_goals
    refine ⟨p2, _, rfl, by rw [e2, h2], by rw [e3, h3], e4, ?_⟩
    rw [simple_loop]
    simp only [ht, reduceCtorEq, if_false, if_true, h1b, Parse.bind, e1, hc,
      show IS_ADDOP TokenType.TOK_PLUS = true by decide,
      show IS_ADDOP TokenType.TOK_MINUS = true by decide,
      show IS_ADDOP TokenType.TOK_OR = true by decide]
    split_ifs <;> rfl

/-- The calls of the code emitter for the operators and terms after the first
term of a simple expression. -/
theorem postorder_terms (ts : List (TokenType × Term)) :
    ∀ a : Exp, postorder (ts.foldl (fun a o => .bin o.1 a (Term.tree o.2)) a) =
      postorder a ++
        (ts.map fun o =>
          postorder (Term.tree o.2) ++ (instruction o.1).toList.map Emit.gen_1).flatten := by
  induction ts with
  | nil => intro a; simp
  | cons o ts ih =>
    intro a
    simp only [List.foldl_cons, List.map_cons, List.flatten_cons]
    rw [ih]
    simp only [postorder, List.append_assoc]

theorem terms_tokens_head (ts : List (TokenType × Term)) (T : Nat)
    (u : TokenType × Int) (rest : List (TokenType × Int))
    (hv : (ts.all fun o => IS_ADDOP o.1 && Term.valid T o.2) = true)
    (hu : IS_MULOP u.1 = false) :
    ∃ v vs, terms_tokens ts ++ u :: rest = v :: vs ∧ IS_MULOP v.1 = false := by
  cases ts with
  | nil => exact ⟨u, rest, rfl, hu⟩
  | cons o ts =>
    simp only [List.all_cons, Bool.and_eq_true] at hv
    exact ⟨(o.1, 0), Term.tokens o.2 ++ (terms_tokens ts ++ u :: rest),
      by simp [terms_tokens], addop_not_mulop o.1 hv.1.1⟩

/-- The loop of `parse_simple` on operators and terms of literals of one
type. -/
theorem simple_loop_run :
    ∀ (ts : List (TokenType × Term)) (n : Nat) (p : Parser) (T : Nat)
      (t1 : Option Nat) (u : TokenType × Int) (rest : List (TokenType × Int)),
      (ts.all fun o => IS_ADDOP o.1 && Term.valid T o.2) = true →
      IS_MULOP u.1 = false → IS_ADDOP u.1 = false →
      reads_tokens p.scanner p.token (terms_tokens ts ++ u :: rest) = true →
      (terms_tokens ts).length + 1 ≤ n →
      ∃ p2, simple_loop n p (some T) t1 = .ok p2 ∧
        p2.code = p.code ++
          (ts.map fun o =>
            postorder (Term.tree o.2) ++
              (instruction o.1).toList.map Emit.gen_1).flatten ∧
        p2.relop = p.relop ∧ reads_tokens p2.scanner p2.token (u :: rest) = true
  | [], n, p, T, t1, u, rest, _, _, hu, hs, hn => by
    obtain ⟨m, rfl⟩ : ∃ m, n = m + 1 := ⟨n - 1, by omega⟩
    have ht : p.token.type = u.1 := (reads_tokens_head _ _ _ _ hs).1
    refine ⟨p, ?_, by simp, rfl, hs⟩
    rw [simple_loop]
    simp only [ht, hu, Bool.false_eq_true, if_false]
  | o :: ts, n, p, T, t1, u, rest, hv, hum, hu, hs, hn => by
    have hv0 := hv
    simp only [List.all_cons, Bool.and_eq_true] at hv
    obtain ⟨⟨hop, hty⟩, hv2⟩ := hv
    have hlen : (terms_tokens (o :: ts)).length =
        (Term.tokens o.2).length + 1 + (terms_tokens ts).length := by
      simp [terms_tokens]
      omega
    obtain ⟨m, rfl⟩ : ∃ m, n = m + 1 := ⟨n - 1, by omega⟩
    obtain ⟨v, vs, hrest, hvm⟩ := terms_tokens_head ts T u rest (by simpa using hv2) hum
    have hs1 : reads_tokens p.scanner p.token
        ((o.1, 0) :: (Term.tokens o.2 ++ v :: vs)) = true := by
      rw [← hrest]
      simpa [terms_tokens] using hs
    obtain ⟨p2, b, hb, hc, hr, ha, hstep⟩ :=
      simple_loop_step o.1 o.2 m p T T t1 v vs hop hty hvm hs1 (by omega)
    rw [← hrest] at ha
    obtain ⟨p3, e3, c3, r3, a3⟩ :=
      simple_loop_run ts m (gen p2 (.gen_1 b)) T (some T) u rest
        (by simpa using hv2) hum hu ha (by omega)
    refine ⟨p3, ?_, ?_, by rw [r3]; exact hr, a3⟩
    · rw [hstep, if_pos rfl, e3]
    · rw [c3]
      show (p2.code ++ [Emit.gen_1 b]) ++ _ = _
      rw [hc]
      simp only [List.map_cons, List.flatten_cons, hb, Option.toList_some, List.map_cons,
        List.map_nil, List.append_assoc]

/-- The function `parse_simple` on a simple expression of literals of one
type. -/
theorem parse_simple_literals (s : Simple) (n : Nat) (p : Parser) (T : Nat)
    (type : Option Nat) (u : TokenType × Int) (rest : List (TokenType × Int))
    (hv : Simple.valid T s = true) (hum : IS_MULOP u.1 = false)
    (hu : IS_ADDOP u.1 = false)
    (hs : reads_tokens p.scanner p.token (Simple.tokens s ++ u :: rest) = true)
    (hn : (Simple.tokens s).length + 2 ≤ n) :
    ∃ p2, parse_simple n p type = .ok (p2, some T) ∧
      p2.code = p.code ++ postorder (Simple.tree s) ∧ p2.relop = p.relop ∧
      reads_tokens p2.scanner p2.token (u :: rest) = true := by
  simp only [Simple.valid, Bool.and_eq_true] at hv
  have hlen : (Simple.tokens s).length =
      (Term.tokens s.1).length + (terms_tokens s.2).length := by
    simp [Simple.tokens]
  obtain ⟨m, rfl⟩ : ∃ m, n = m + 1 := ⟨n - 1, by omega⟩
  obtain ⟨v, vs, hrest, hvm⟩ := terms_tokens_head s.2 T u rest hv.2 hum
  have hs1 : reads_tokens p.scanner p.token (Term.tokens s.1 ++ v :: vs) = true := by
    rw [← hrest]
    simpa [Simple.tokens] using hs
  have hfirst : p.token.type ≠ .TOK_MINUS := by
    have h0 : reads_tokens p.scanner p.token
        (s.1.1.token :: (factors_tokens s.1.2 ++ v :: vs)) = true := hs1
    rw [(reads_tokens_head _ _ _ _ h0).1]
    exact literal_not_minus s.1.1
  obtain ⟨p1, e1, c1, r1, a1⟩ :=
    parse_term_literals s.1 m p T type v vs hv.1 hvm hs1 (by omega)
  rw [← hrest] at a1
  obtain ⟨p2, e2, c2, r2, a2⟩ :=
    simple_loop_run s.2 m p1 T none u rest hv.2 hum hu a1 (by omega)
  refine ⟨p2, ?_, ?_, by rw [r2, r1], a2⟩
  · rw [parse_simple]
    simp only [hfirst, if_false, Parse.bind, e1, e2]
  · rw [c2, c1, Simple.tree, postorder_terms]
    simp only [List.append_assoc]

theorem ends_expression_iff (t : TokenType) (h : ends_expression t = true) :
    IS_MULOP t = false ∧ IS_ADDOP t = false ∧ IS_RELOP t = false := by
  simp only [ends_expression, Bool.and_eq_true, Bool.not_eq_true'] at h
  exact ⟨h.1.1, h.1.2, h.2⟩

/-- C26, amended: for every expression built from number literals alone, or
from `true` and `false` alone, and binary operators (a simple expression of
terms, and at most one relational operator with a simple expression after it),
followed by a token that is no operator, `parse_expr` returns, yields the type
of the literals, leaves the token after the expression as lookahead, and has
emitted exactly the post-order of the expression: the instructions of the left
operand, then those of the right operand, then the instruction of the
operator, with `LDC` of the token's value for a number, `LDC 1` and `LDC 0` for
`true` and `false`, and the instruction of the table for each operator. -/
theorem expression_postorder (e : Expression) (T : Nat) (u : TokenType × Int)
    (rest : List (TokenType × Int)) (p : Parser) (type : Option Nat) (n : Nat)
    (hv : Expression.valid T e = true) (hu : ends_expression u.1 = true)
    (hs : reads_tokens p.scanner p.token (Expression.tokens e ++ u :: rest) = true)
    (hn : (Expression.tokens e).length + 3 ≤ n) :
    ∃ p2, parse_expr n p type = .ok (p2, some T) ∧
      p2.code = p.code ++ postorder (Expression.tree e) ∧
      reads_tokens p2.scanner p2.token (u :: rest) = true := by
  obtain ⟨hum, hua, hur⟩ := ends_expression_iff u.1 hu
  obtain ⟨s1, o⟩ := e
  cases o with
  | none =>
    simp only [Expression.valid, Bool.and_true] at hv
    simp only [Expression.tokens] at hs hn
    obtain ⟨m, rfl⟩ : ∃ m, n = m + 1 := ⟨n - 1, by omega⟩
    obtain ⟨p1, e1, c1, _, a1⟩ :=
      parse_simple_literals s1 m p T type u rest hv hum hua hs (by omega)
    have ht : p1.token.type = u.1 := (reads_tokens_head _ _ _ _ a1).1
    refine ⟨p1, ?_, c1, a1⟩
    rw [parse_expr, e1]
    simp only [Parse.bind, ht, hur, Bool.false_eq_true, if_false]
  | some o =>
    obtain ⟨op, s2⟩ := o
    simp only [Expression.valid, Bool.and_eq_true] at hv
    obtain ⟨hv1, hop, hv2⟩ := hv
    simp only [Expression.tokens] at hs hn
    have hlen : (Simple.tokens s1 ++ (op, (0 : Int)) :: Simple.tokens s2).length =
        (Simple.tokens s1).length + 1 + (Simple.tokens s2).length := by
      simp
      omega
    rw [hlen] at hn
    obtain ⟨m, rfl⟩ : ∃ m, n = m + 1 := ⟨n - 1, by omega⟩
    have hs1 : reads_tokens p.scanner p.token
        (Simple.tokens s1 ++ (op, 0) :: (Simple.tokens s2 ++ u :: rest)) = true := by
      simpa using hs
    obtain ⟨p1, e1, c1, _, a1⟩ :=
      parse_simple_literals s1 m p T type (op, 0) _ hv1 (relop_not_mulop op hop)
        (relop_not_addop op hop) hs1 (by omega)
    have ht : p1.token.type = op := (reads_tokens_head _ _ _ _ a1).1
    obtain ⟨v, vs, hrest⟩ := tokens_nonempty (Simple.tokens s2) u rest
    rw [hrest] at a1
    obtain ⟨p2, h1, h2, _, h4⟩ :=
      expect_ahead { p1 with relop := p1.relop + 1 } (op, 0) v vs a1
    rw [← hrest] at h4
    obtain ⟨p3, e3, c3, _, a3⟩ :=
      parse_simple_literals s2 m p2 T none u rest hv2 hum hua h4 (by omega)
    have h1b : expect { p1 with relop := p1.relop + 1 } op = .ok p2 := h1
    have hc := check_types_operands p3 T T (some p3.scanner.position)
    rw [if_pos rfl] at hc
    have hcode : p3.code = p.code ++ postorder (Simple.tree s1) ++
        postorder (Simple.tree s2) := by
      rw [c3, h2]
      show p1.code ++ _ = _
      rw [c1]
    have key : ∃ b, instruction op = some b ∧
        parse_expr (m + 1) p type = .ok (gen p3 (.gen_1 b), some T) := by
      cases op <;> first | exact absurd hop (by decide) | skip
      all_goals
        refine ⟨_, rfl, ?_⟩
        rw [parse_expr, e1]
        simp only [Parse.bind, ht, reduceCtorEq, if_false, if_true, h1b, e3, hc,
          show IS_RELOP TokenType.TOK_EQ = true by decide,
          show IS_RELOP TokenType.TOK_NE = true by decide,
          show IS_RELOP TokenType.TOK_GE = true by decide,
          show IS_RELOP TokenType.TOK_GT = true by decide,
          show IS_RELOP TokenType.TOK_LE = true by decide,
          show IS_RELOP TokenType.TOK_LT = true by decide]
    obtain ⟨b, hb, hk⟩ := key
    refine ⟨gen p3 (.gen_1 b), hk, ?_, a3⟩
    show p3.code ++ _ = _
    rw [hcode]
    simp only [Expression.tree, postorder, hb, Option.toList_some,
      List.map_cons, List.map_nil, List.append_assoc]

/-- The statement of `expression_postorder` for the expression
`1 + 2 * 3 mod 4 % 5 <= 6` in the source `1 + 2 * 3 mod 4 % 5 <= 6 ;`. -/
theorem expression_postorder_witness :
    ∃ p2, parse_expr 14 (first_token (bytes "1 + 2 * 3 mod 4 % 5 <= 6 ;")) none =
        .ok (p2, some TYPE_INTEGER) ∧
      p2.code = (first_token (bytes "1 + 2 * 3 mod 4 % 5 <= 6 ;")).code ++
        postorder (Expression.tree
          (((.num 1, []),
            [(.TOK_PLUS, (.num 2, [(.TOK_MUL, .num 3), (.TOK_MOD, .num 4),
              (.TOK_MOD, .num 5)]))]),
           some (.TOK_LE, ((.num 6, []), [])))) ∧
      reads_tokens p2.scanner p2.token [(.TOK_SEMICOLON, 0)] = true :=
  expression_postorder
    (((.num 1, []),
      [(.TOK_PLUS, (.num 2, [(.TOK_MUL, .num 3), (.TOK_MOD, .num 4),
        (.TOK_MOD, .num 5)]))]),
     some (.TOK_LE, ((.num 6, []), [])))
    TYPE_INTEGER (.TOK_SEMICOLON, 0) [] _ none 14 (by decide) (by decide) (by decide!)
    (by decide)

/-- C26, evaluation: for the expression `1 + true` the run ends in the error
branch of `check_types` and the instruction of `+` is not emitted; for
`(1 + 2) * 3` the run ends in `parse_arglist`, which `parse_factor` calls with
a null `prop` for a parenthesis and which reads `prop->type`; for the literal
`9999999999` the instruction is `LDC 1410065407`. -/
theorem expression_of_mixed_literals :
    emitted (main (bytes "program P begin write 1 + true end")) = .fault ∧
    (parse_expr 14 (first_token (bytes "1 + true ;")) none).bind
        (fun r => .ok (r.1.code, r.2)) = .fault ∧
    emitted (main (bytes "program P begin write (1 + 2) * 3 end")) = .fault ∧
    emitted (main (bytes "program P begin write 9999999999 end")) =
      .ok [.init_subroutine_codegen (bytes "main") none, .set_class_name (bytes "P"),
        .gen_2 .JVM_LDC 1410065407, .gen_print TYPE_INTEGER, .gen_1 .JVM_RETURN,
        .close_subroutine_codegen 1] := by
  refine ⟨by decide!, by decide!, by decide!, by decide!⟩

/-- C30, amended: for every operator `+`, `-`, `or`, `*`, `/`, `mod` (or `%`)
and `and` between two literals, followed by a token that is no operator,
`parse_simple` (with `parse_term` below it) compares the types of the two
operands with each other and with nothing else: when they are equal, both
`TYPE_INTEGER` or both `TYPE_BOOLEAN`, it returns with that type and has
emitted the instructions of the two literals and then the instruction of the
operator; when they differ it does not return, the run ending in the error
branch of `check_types`. -/
theorem operands_compared_with_each_other (op : TokenType) (a b : Literal)
    (u : TokenType × Int) (rest : List (TokenType × Int)) (p : Parser)
    (type : Option Nat) (n : Nat)
    (hop : (IS_ADDOP op || IS_MULOP op) = true) (hu : ends_expression u.1 = true)
    (hs : reads_tokens p.scanner p.token
      (a.token :: (op, 0) :: b.token :: u :: rest) = true)
    (hn : 6 ≤ n) :
    (a.type = b.type →
      ∃ p2 i, instruction op = some i ∧ parse_simple n p type = .ok (p2, some a.type) ∧
        p2.code = p.code ++ a.code ++ b.code ++ [.gen_1 i] ∧
        reads_tokens p2.scanner p2.token (u :: rest) = true) ∧
    (a.type ≠ b.type → parse_simple n p type = .fault) := by
  obtain ⟨hum, hua, _⟩ := ends_expression_iff u.1 hu
  obtain ⟨m, rfl⟩ : ∃ m, n = m + 6 := ⟨n - 6, by omega⟩
  have hfirst : p.token.type ≠ .TOK_MINUS := by
    rw [(reads_tokens_head _ _ _ _ hs).1]
    exact literal_not_minus a
  simp only [Bool.or_eq_true] at hop
  rcases hop with hop | hop
  · -- the operator belongs to `parse_simple`
    have hs1 : reads_tokens p.scanner p.token
        (Term.tokens (a, []) ++ (op, 0) :: b.token :: u :: rest) = true := hs
    obtain ⟨p1, e1, c1, _, a1⟩ :=
      parse_term_literals (a, []) (m + 5) p a.type type (op, 0) _
        (by simp [Term.valid]) (addop_not_mulop op hop) hs1
        (by simp [Term.tokens, factors_tokens])
    have a1b : reads_tokens p1.scanner p1.token
        ((op, 0) :: (Term.tokens (b, []) ++ u :: rest)) = true := a1
    obtain ⟨p2, i, hi, c2, _, a2, hstep⟩ :=
      simple_loop_step op (b, []) (m + 4) p1 a.type b.type none u rest hop
        (by simp [Term.valid]) hum a1b (by simp [Term.tokens, factors_tokens])
    have hpar : parse_simple (m + 6) p type =
        (simple_loop (m + 5) p1 (some a.type) none).bind fun p2 =>
          .ok (p2, some a.type) := by
      show parse_simple ((m + 5) + 1) p type = _
      rw [parse_simple]
      simp only [hfirst, if_false, Parse.bind, e1]
    have hstep2 : simple_loop (m + 5) p1 (some a.type) none =
        if b.type = a.type then
          simple_loop (m + 4) (gen p2 (.gen_1 i)) (some a.type) (some b.type)
        else .fault := hstep
    constructor
    · intro hab
      obtain ⟨p3, e3, c3, _, a3⟩ :=
        simple_loop_run [] (m + 4) (gen p2 (.gen_1 i)) a.type (some b.type) u rest rfl
          hum hua a2 (by simp [terms_tokens])
      refine ⟨p3, i, hi, ?_, ?_, a3⟩
      · rw [hpar, hstep2, if_pos hab.symm, e3]
        rfl
      · rw [c3]
        show (p2.code ++ [Emit.gen_1 i]) ++ _ = _
        rw [c2, c1]
        simp [Term.tree, postorder]
    · intro hab
      rw [hpar, hstep2, if_neg (fun h => hab h.symm)]
      rfl
  · -- the operator belongs to `parse_term`
    have hpar : parse_simple (m + 6) p type =
        (parse_term (m + 5) p type).bind fun r =>
        (simple_loop (m + 5) r.1 r.2 none).bind fun p2 => .ok (p2, r.2) := by
      show parse_simple ((m + 5) + 1) p type = _
      rw [parse_simple]
      simp only [hfirst, if_false, Parse.bind]
    constructor
    · intro hab
      have hs1 : reads_tokens p.scanner p.token
          (Term.tokens (a, [(op, b)]) ++ u :: rest) = true := hs
      obtain ⟨p1, e1, c1, _, a1⟩ :=
        parse_term_literals (a, [(op, b)]) (m + 5) p a.type type u rest
          (by simp [Term.valid, hop, hab]) hum hs1
          (by simp [Term.tokens, factors_tokens])
      obtain ⟨p3, e3, c3, _, a3⟩ :=
        simple_loop_run [] (m + 5) p1 a.type none u rest rfl
          hum hua a1 (by simp [terms_tokens])
      obtain ⟨i, hi⟩ : ∃ i, instruction op = some i := by
        cases op <;> first | exact absurd hop (by decide) | exact ⟨_, rfl⟩
      refine ⟨p3, i, hi, ?_, ?_, a3⟩
      · rw [hpar, e1]
        simp only [Parse.bind, e3]
      · rw [c3, c1]
        simp [Term.tree, postorder, hi]
    · intro hab
      obtain ⟨p1, e1, _, _, a1⟩ :=
        parse_factor_literal a (m + 3) p type (op, 0) (b.token :: u :: rest) hs
      obtain ⟨p2, i, _, _, _, _, hstep⟩ :=
        term_loop_step op b (m + 2) p1 a.type none u rest hop a1
      have hterm : parse_term (m + 5) p type = .fault := by
        show parse_term ((m + 4) + 1) p type = _
        rw [parse_term]
        have e1b : parse_factor (m + 4) p type = .ok (p1, some a.type) := e1
        have hs2 : term_loop (m + 4) p1 (some a.type) none = .fault := by
          have := hstep
          rw [if_neg (fun h => hab h.symm)] at this
          exact this
        rw [e1b]
        simp only [Parse.bind, hs2]
      rw [hpar, hterm]
      rfl

/-- The statement of `operands_compared_with_each_other` for `true + false`
and for `1 and 2`, each followed by `;`. -/
theorem operands_compared_with_each_other_witness :
    (∃ p2 i, instruction .TOK_PLUS = some i ∧
      parse_simple 6 (first_token (bytes "true + false ;")) none =
        .ok (p2, some TYPE_BOOLEAN) ∧
      p2.code = (first_token (bytes "true + false ;")).code ++ Literal.tru.code ++
        Literal.fls.code ++ [.gen_1 i] ∧
      reads_tokens p2.scanner p2.token [(.TOK_SEMICOLON, 0)] = true) ∧
    (∃ p2 i, instruction .TOK_AND = some i ∧
      parse_simple 6 (first_token (bytes "1 and 2 ;")) none =
        .ok (p2, some TYPE_INTEGER) ∧
      p2.code = (first_token (bytes "1 and 2 ;")).code ++ (Literal.num 1).code ++
        (Literal.num 2).code ++ [.gen_1 i] ∧
      reads_tokens p2.scanner p2.token [(.TOK_SEMICOLON, 0)] = true) :=
  ⟨(operands_compared_with_each_other .TOK_PLUS .tru .fls (.TOK_SEMICOLON, 0) []
      (first_token (bytes "true + false ;")) none 6 (by decide) (by decide)
      (by decide!) (by decide)).1 rfl,
   (operands_compared_with_each_other .TOK_AND (.num 1) (.num 2) (.TOK_SEMICOLON, 0) []
      (first_token (bytes "1 and 2 ;")) none 6 (by decide) (by decide)
      (by decide!) (by decide)).1 rfl⟩

/-- C30, evaluation: the statements `write true + false` and `write 1 and 2`
are accepted, with `JVM_IADD` and `JVM_IAND` emitted for the operators. -/
theorem boolean_sum_accepted :
    emitted (main (bytes "program P begin write true + false end")) =
      .ok [.init_subroutine_codegen (bytes "main") none, .set_class_name (bytes "P"),
        .gen_2 .JVM_LDC 1, .gen_2 .JVM_LDC 0, .gen_1 .JVM_IADD,
        .gen_print TYPE_BOOLEAN, .gen_1 .JVM_RETURN, .close_subroutine_codegen 1] ∧
    emitted (main (bytes "program P begin write 1 and 2 end")) =
      .ok [.init_subroutine_codegen (bytes "main") none, .set_class_name (bytes "P"),
        .gen_2 .JVM_LDC 1, .gen_2 .JVM_LDC 2, .gen_1 .JVM_IAND,
        .gen_print TYPE_INTEGER, .gen_1 .JVM_RETURN, .close_subroutine_codegen 1] := by
  refine ⟨by decide!, by decide!⟩

theorem next_token_flag (p p1 : Parser) (h : next_token p = .ok p1) :
    p1.flag = p.flag ∧ p1.code = p.code ∧ p1.symtab = p.symtab := by
  unfold next_token at h
  cases hg : Parse.of_scan (get_token p.scanner p.token) with
  | ok r =>
    rw [hg] at h
    simp only [Parse.bind, Parse.ok.injEq] at h
    subst h
    exact ⟨rfl, rfl, rfl⟩
  | abort pos msg => rw [hg] at h; simp [Parse.bind] at h
  | fault => rw [hg] at h; simp [Parse.bind] at h
  | nofuel => rw [hg] at h; simp [Parse.bind] at h

/-- The function `parse_arglist` called with `flag == 1` and a null `prop`, as
`parse_factor` calls it for a parenthesis: it never returns.  After the
parenthesis it aborts on `)`, reads `prop->type` after an expression, and
otherwise aborts in `expect(TOK_RPAR)`. -/
theorem parse_arglist_null_prop (n : Nat) (p : Parser) (id : Option (List Nat))
    (hf : p.flag = 1) : ∀ q, parse_arglist n p id none ≠ .ok q := by
  intro q
  cases n with
  | zero => simp [parse_arglist]
  | succ n =>
    rw [parse_arglist]
    cases he : expect { p with relop := 0 } .TOK_LPAR with
    | abort pos msg => simp [Parse.bind]
    | fault => simp [Parse.bind]
    | nofuel => simp [Parse.bind]
    | ok p1 =>
      have hf1 : p1.flag = 1 := by
        unfold expect at he
        split_ifs at he
        · rw [(next_token_flag _ _ he).1]; exact hf
        · simp [abort_c, _abort_compile] at he
      by_cases hr : p1.token.type = .TOK_RPAR
      · simp [Parse.bind, hr, hf1, abort_c, _abort_compile]
      · simp only [Parse.bind, hr, false_and, if_false]
        by_cases hs : STARTS_EXPR p1.token.type = true
        · simp only [hs, if_true]
          cases parse_expr n p1 none <;> simp [Parse.bind, Parse.of_option]
        · simp only [hs]
          simp [expect, hr, abort_c, _abort_compile]

/-- The function `parse_factor` on a factor that starts with a parenthesis: it
never returns, whatever follows the parenthesis. -/
theorem parse_factor_parenthesis (n : Nat) (p : Parser) (type : Option Nat)
    (h : p.token.type = .TOK_LPAR) : ∀ r, parse_factor n p type ≠ .ok r := by
  intro r
  cases n with
  | zero => simp [parse_factor]
  | succ n =>
    rw [parse_factor]
    simp only [h, reduceCtorEq, if_false, if_true]
    cases hq : parse_arglist n { p with flag := 1 } none none with
    | ok q => exact absurd hq (parse_arglist_null_prop n _ none rfl q)
    | abort pos msg => simp [Parse.bind]
    | fault => simp [Parse.bind]
    | nofuel => simp [Parse.bind]

/-- C31, evaluation: on the factor `(1)` the function `parse_factor` does not
complete: `parse_arglist`, called with a null `prop`, reads `prop->type` after
the expression in the parentheses.  The statement `write (1)` and the
expression `(1 + 2) * 3` end the same way, and `parse_factor` sets no type for
a parenthesis. -/
theorem parenthesised_factor_faults :
    (first_token (bytes "(1) ;")).token.type = .TOK_LPAR ∧
    (parse_factor 9 (first_token (bytes "(1) ;")) none).bind
        (fun r => .ok (r.1.code, r.2)) = .fault ∧
    emitted (main (bytes "program P begin write (1) end")) = .fault ∧
    emitted (main (bytes "program P begin integer a; a <- (1 + 2) * 3 end")) =
      .fault := by
  refine ⟨by decide!, by decide!, by decide!, by decide!⟩

/-- C32, evaluation: for `ERR_UNKNOWN_IDENTIFIER` and `ERR_MULTIPLE_DEFINITION`
the function `_abort_compile` never reads the identifier from the arguments of
`abort_c`: the first `switch` assigns `s` in its `default` only, and both error
codes have a `case` of their own there, so the `%s` of the message is given a
pointer that was never assigned, whatever identifier the caller passed. -/
theorem abort_c_identifier_unassigned (p : Parser) (id : List Nat) :
    abort_c p .ERR_UNKNOWN_IDENTIFIER [.str id] =
      .abort p.scanner.position
        [.lit "unknown identifier '", .unassigned, .lit "'"] ∧
    abort_c p .ERR_MULTIPLE_DEFINITION [.str id] =
      .abort p.scanner.position
        [.lit "multiple definition of '", .unassigned, .lit "'"] ∧
    emitted (main (bytes "program P begin write a end")) =
      .abort { line := 1, col := 25 }
        [.lit "unknown identifier '", .unassigned, .lit "'"] ∧
    emitted (main (bytes "program P begin integer a; integer a; chill end")) =
      .abort { line := 1, col := 37 }
        [.lit "multiple definition of '", .unassigned, .lit "'"] := by
  refine ⟨rfl, rfl, by decide!, by decide!⟩

theorem skip_whitespace_stays (n : Nat) (s : Scanner) (h : isspace s.ch = false) :
    skip_whitespace n s = s := by
  cases n with
  | zero => rfl
  | succ n => simp [skip_whitespace, h]

theorem next_char_ch_col (s : Scanner) (c : Int) :
    (next_char { s with position := { s.position with col := c } }).ch =
      (next_char s).ch := by
  rw [next_char_ch, next_char_ch]

theorem operator_token_first (c d : Int) (r : TokenType × Nat)
    (h : operator_token c d = some r) :
    c = 60 ∨ c = 62 ∨ c = 45 ∨ c = 40 ∨ c = 61 ∨ c = 35 ∨ c = 43 ∨ c = 42 ∨ c = 47 ∨
      c = 38 ∨ c = 91 ∨ c = 93 ∨ c = 44 ∨ c = 41 ∨ c = 59 := by
  by_contra hn
  simp only [not_or] at hn
  obtain ⟨h1, h2, h3, h4, h5, h6, h7, h8, h9, h10, h11, h12, h13, h14, h15⟩ := hn
  simp only [operator_token, h1, h2, h3, h4, h5, h6, h7, h8, h9, h10, h11, h12, h13,
    h14, h15, if_false, reduceCtorEq] at h

/-- C33: when the scanner stands on the first character `c` of an operator, with
`d` the character after it, `get_token` returns the token that the longest
match with one character of lookahead gives, and has read with `next_char`
exactly the characters of that token, one or two, after it has set
`position.col` to the column of `c`. -/
theorem get_token_operator (s : Scanner) (token : Token) (T : TokenType) (k : Nat)
    (h : operator_token s.ch (next_char s).ch = some (T, k)) :
    get_token s token =
      .ok (next_char^[k] (token_start s), { token with type := T }) := by
  have hc := operator_token_first _ _ _ h
  have hsp : isspace s.ch = false := by
    unfold isspace
    rcases hc with hc | hc | hc | hc | hc | hc | hc | hc | hc | hc | hc | hc | hc | hc | hc <;>
      rw [hc] <;> decide
  have hd : ∀ c : Int,
      (next_char { s with position := { s.position with col := c } }).ch =
        (next_char s).ch := next_char_ch_col s
  unfold get_token token_start
  rw [get_token_fuel]
  simp only [skip_whitespace_stays _ s hsp]
  generalize (next_char s).ch = d at h hd
  generalize hs0 :
    ({ s with position := { s.position with col := s.column_number } } : Scanner) = s0
  have hd0 : (next_char s0).ch = d := by rw [← hs0]; exact hd _
  rcases hc with hc | hc | hc | hc | hc | hc | hc | hc | hc | hc | hc | hc | hc | hc | hc
  all_goals
    rw [hc] at h
    norm_num [operator_token] at h
    norm_num [hc, isalpha, isdigit, hd0, single]
    try split_ifs at h ⊢
    all_goals
      try simp only [Option.some.injEq, Prod.mk.injEq] at h
      first
      | (obtain ⟨rfl, rfl⟩ := h
         first | rfl | exact ⟨rfl, rfl⟩)
      | (obtain ⟨hn, rfl, rfl⟩ := h
         first | exact absurd (by assumption) hn | rfl)

/-- The statement of `get_token_operator` for the texts `<= 1`, `<- 1`, `<1`,
`>= 1`, `>`, `-> 1`, `-1` and `(1`, and the tokens of a text that holds every
operator. -/
theorem get_token_operator_witness :
    get_token (init_scanner (bytes "<= 1")) empty_token =
      .ok (next_char^[2] (token_start (init_scanner (bytes "<= 1"))),
        { empty_token with type := .TOK_LE }) ∧
    get_token (init_scanner (bytes "<- 1")) empty_token =
      .ok (next_char^[2] (token_start (init_scanner (bytes "<- 1"))),
        { empty_token with type := .TOK_GETS }) ∧
    get_token (init_scanner (bytes "<1")) empty_token =
      .ok (next_char^[1] (token_start (init_scanner (bytes "<1"))),
        { empty_token with type := .TOK_LT }) ∧
    get_token (init_scanner (bytes ">= 1")) empty_token =
      .ok (next_char^[2] (token_start (init_scanner (bytes ">= 1"))),
        { empty_token with type := .TOK_GE }) ∧
    get_token (init_scanner (bytes ">")) empty_token =
      .ok (next_char^[1] (token_start (init_scanner (bytes ">"))),
        { empty_token with type := .TOK_GT }) ∧
    get_token (init_scanner (bytes "-> 1")) empty_token =
      .ok (next_char^[2] (token_start (init_scanner (bytes "-> 1"))),
        { empty_token with type := .TOK_TO }) ∧
    get_token (init_scanner (bytes "-1")) empty_token =
      .ok (next_char^[1] (token_start (init_scanner (bytes "-1"))),
        { empty_token with type := .TOK_MINUS }) ∧
    get_token (init_scanner (bytes "(1")) empty_token =
      .ok (next_char^[1] (token_start (init_scanner (bytes "(1"))),
        { empty_token with type := .TOK_LPAR }) ∧
    (scan_tokens 20
        (init_scanner (bytes "<= <- < >= > -> - = # + * / & [ ] , ( ) ;"))
        empty_token).map Prod.fst =
      [.TOK_LE, .TOK_GETS, .TOK_LT, .TOK_GE, .TOK_GT, .TOK_TO, .TOK_MINUS, .TOK_EQ,
       .TOK_NE, .TOK_PLUS, .TOK_MUL, .TOK_DIV, .TOK_AMPERSAND, .TOK_LBRACK,
       .TOK_RBRACK, .TOK_COMMA, .TOK_LPAR, .TOK_RPAR, .TOK_SEMICOLON, .TOK_EOF] :=
  ⟨get_token_operator _ _ .TOK_LE 2 (by decide),
   get_token_operator _ _ .TOK_GETS 2 (by decide),
   get_token_operator _ _ .TOK_LT 1 (by decide),
   get_token_operator _ _ .TOK_GE 2 (by decide),
   get_token_operator _ _ .TOK_GT 1 (by decide),
   get_token_operator _ _ .TOK_TO 2 (by decide),
   get_token_operator _ _ .TOK_MINUS 1 (by decide),
   get_token_operator _ _ .TOK_LPAR 1 (by decide),
   by decide!⟩

/-- The rotation moves bits and keeps them: bit `i` of the rotated word is bit
`i - k` of the word, counted modulo 32. -/
theorem rotate_left_32_testBit (h i : Nat) (hh : h < 2 ^ 32) (hi : i < 32) :
    (rotate_left_32 h 5).testBit i = h.testBit ((i + 27) % 32) := by
  unfold rotate_left_32
  have hlow : h / 2 ^ (32 - 5) < 2 ^ 5 := by
    rw [Nat.div_lt_iff_lt_mul (by positivity)]
    calc h < 2 ^ 32 := hh
      _ = 2 ^ 5 * 2 ^ (32 - 5) := by norm_num
  rw [Nat.mul_comm, Nat.testBit_mul_pow_two_add _ hlow]
  by_cases h5 : i < 5
  · have e : (i + 27) % 32 = (32 - 5) + i := by omega
    simp only [h5, if_true]
    rw [e, ← Nat.shiftRight_eq_div_pow, Nat.testBit_shiftRight]
  · simp only [h5, if_false, Nat.testBit_mod_two_pow]
    have e : (i + 27) % 32 = i - 5 := by omega
    rw [e]
    have : i - 5 < 32 - 5 := by omega
    simp [this]

theorem shift_step_lt (h c : Nat) : shift_step h c < 2 ^ 32 :=
  Nat.mod_lt _ (by norm_num)

/-- The loop body of `shift_hash` on a 32-bit word: `(hash << 5) | (hash >> 27)`
is the rotation by 5 bits. -/
theorem shift_step_rotate (h c : Nat) (hh : h < 2 ^ 32) :
    shift_step h c = (rotate_left_32 h 5 + c) % 2 ^ 32 := by
  unfold shift_step rotate_left_32
  have hlow : h / 134217728 < 2 ^ 5 := by
    rw [Nat.div_lt_iff_lt_mul (by norm_num)]
    calc h < 2 ^ 32 := hh
      _ = 2 ^ 5 * 134217728 := by norm_num
  have e1 : h * 32 % 4294967296 = 2 ^ 5 * (h % 134217728) := by
    have : (4294967296 : Nat) = 134217728 * 32 := by norm_num
    rw [this, Nat.mul_mod_mul_right]
    ring
  rw [e1, ← Nat.mul_add_lt_is_or hlow]
  norm_num
  ring_nf

theorem shift_fold_rotate (key : List Nat) :
    ∀ h, h < 2 ^ 32 →
      key.foldl shift_step h =
        key.foldl (fun h b => (rotate_left_32 h 5 + b) % 2 ^ 32) h := by
  induction key with
  | nil => intro h _; rfl
  | cons c key ih =>
    intro h hh
    simp only [List.foldl_cons]
    rw [ih _ (shift_step_lt h c), shift_step_rotate h c hh]

/-- C34: on a key of ASCII bytes and a size above 0, `shift_hash` returns the
hash `h = rotate_left_32(h, 5) + b`, taken over the bytes in order from 0 in
unsigned 32-bit arithmetic, modulo the size, and the result is below the size. -/
theorem shift_hash_rotates (key : List Nat) (size : Nat)
    (_hk : ∀ c ∈ key, c < 128) (hs : 0 < size) :
    shift_hash key size = rotate_hash key % size ∧ shift_hash key size < size := by
  refine ⟨?_, Nat.mod_lt _ hs⟩
  unfold shift_hash rotate_hash
  rw [shift_fold_rotate key 0 (by norm_num)]

/-- The statement of `shift_hash_rotates` for the key `ab` and the size 13:
the hash is `97 * 32 + 98 = 3202`, and `3202 mod 13 = 4`. -/
theorem shift_hash_rotates_witness :
    shift_hash (bytes "ab") 13 = rotate_hash (bytes "ab") % 13 ∧
    shift_hash (bytes "ab") 13 < 13 :=
  shift_hash_rotates (bytes "ab") 13 (by decide) (by decide)

/-- The function `find_name` for an identifier that the current table does not
hold and the saved table holds, its object live, with a type that
`IS_CALLABLE_TYPE` accepts: it returns `TRUE` with the property of the saved
table. -/
theorem find_name_saved_callable (st : SymbolTable) (id : List Nat) (prop q : IDprop)
    (t s : HashTab (List Nat) IDprop)
    (ht : deref st st.table = some t) (hs : deref st st.saved_table = some s)
    (h1 : ht_search t id = some none) (h2 : ht_search s id = some (some q))
    (hq : IS_CALLABLE_TYPE q.type = true)
    (hd : dangling st st.saved_table id = false) :
    find_name st id prop = some (TRUE, q) := by
  have hne : st.saved_table ≠ none := by
    intro h
    rw [h] at hs
    simp [deref] at hs
  unfold find_name
  simp [ht, hs, h1, h2, hq, hne, hd, TRUE, FALSE]

/-- C35: whenever `find_name` resolves the identifier, in the current scope or
as a callable of the saved scope, `insert_name` returns `FALSE` and leaves the
whole state of the symbol table as it was: the tables of both scopes and
`curr_offset`. -/
theorem insert_name_of_resolved (st : SymbolTable) (id : List Nat) (prop q : IDprop)
    (b : Int) (h : find_name st id prop = some (b, q)) (hb : b ≠ FALSE) :
    insert_name st id prop = some (FALSE, st) := by
  unfold insert_name
  have hb0 : ¬ b = 0 := hb
  simp only [h, Option.some_bind, hb0, if_false]

/-- The statement of `insert_name_of_resolved` inside a subroutine, for a
variable named `f` where `f` is a procedure of the saved scope and the current
scope is empty, and for a variable named `a` that the current scope holds. -/
theorem insert_name_of_resolved_witness :
    insert_name (scope_state (table_with (bytes "f") proc_prop) new_table 1)
        (bytes "f") (var_prop TYPE_INTEGER) =
      some (FALSE, scope_state (table_with (bytes "f") proc_prop) new_table 1) ∧
    insert_name
        (scope_state new_table (table_with (bytes "a") (var_prop TYPE_BOOLEAN)) 2)
        (bytes "a") (var_prop TYPE_INTEGER) =
      some (FALSE,
        scope_state new_table (table_with (bytes "a") (var_prop TYPE_BOOLEAN)) 2) :=
  ⟨insert_name_of_resolved _ (bytes "f") (var_prop TYPE_INTEGER) proc_prop TRUE
      (by decide!) (by decide),
   insert_name_of_resolved _ (bytes "a") (var_prop TYPE_INTEGER)
      (var_prop TYPE_BOOLEAN) TRUE (by decide!) (by decide)⟩

/-- The function `insert_name` for a variable named `f` where `f` is a function
of the saved scope, of type `TYPE_INTEGER | TYPE_CALLABLE`: `find_name` does
not resolve `f`, the insertion is made and `TRUE` is returned; the property
inserted is the one `find_name` left in `prop`, that of the function. -/
theorem insert_name_function_name :
    (insert_name (scope_state (table_with (bytes "f") func_prop) new_table 1)
        (bytes "f") (var_prop TYPE_INTEGER)).map
      (fun r => (r.1, get_variables_width r.2,
        find_name r.2 (bytes "f") (var_prop TYPE_NONE))) =
      some (TRUE, 1, some (TRUE, func_prop)) := by
  decide!

/-- C36: when the lookahead is `-` and the token after it is no `-`,
`parse_simple` reads the `-` with `expect`, which emits nothing, and from then
on does what it does on the tokens that follow the `-`: the run, the
instructions emitted and the type yielded are those of `parse_simple` started
after the sign. -/
theorem leading_minus_emits_nothing (n : Nat) (p : Parser) (type : Option Nat)
    (v : TokenType × Int) (rest : List (TokenType × Int))
    (hs : reads_tokens p.scanner p.token ((.TOK_MINUS, 0) :: v :: rest) = true)
    (hv : v.1 ≠ .TOK_MINUS) :
    ∃ p1, expect p .TOK_MINUS = .ok p1 ∧ p1.code = p.code ∧
      reads_tokens p1.scanner p1.token (v :: rest) = true ∧
      parse_simple (n + 1) p type = parse_simple (n + 1) p1 type := by
  obtain ⟨p1, h1, h2, _, h4⟩ := expect_ahead p (.TOK_MINUS, 0) v rest hs
  refine ⟨p1, h1, h2, h4, ?_⟩
  have ht : p.token.type = .TOK_MINUS := (reads_tokens_head _ _ _ _ hs).1
  have ht1 : p1.token.type ≠ .TOK_MINUS := by
    rw [(reads_tokens_head _ _ _ _ h4).1]
    exact hv
  rw [parse_simple, parse_simple]
  simp only [ht, if_true, h1, ht1, if_false, Parse.bind]

/-- The statement of `leading_minus_emits_nothing` for `-5 ;`, and the
instructions of the statements `write -5` and `write 5`. -/
theorem leading_minus_emits_nothing_witness :
    (∃ p1, expect (first_token (bytes "-5 ;")) .TOK_MINUS = .ok p1 ∧
      p1.code = (first_token (bytes "-5 ;")).code ∧
      reads_tokens p1.scanner p1.token [(.TOK_NUM, 5), (.TOK_SEMICOLON, 0)] = true ∧
      parse_simple 4 (first_token (bytes "-5 ;")) none = parse_simple 4 p1 none) ∧
    emitted (main (bytes "program P begin write -5 end")) =
      .ok [.init_subroutine_codegen (bytes "main") none, .set_class_name (bytes "P"),
        .gen_2 .JVM_LDC 5, .gen_print TYPE_INTEGER, .gen_1 .JVM_RETURN,
        .close_subroutine_codegen 1] ∧
    emitted (main (bytes "program P begin write -5 end")) =
      emitted (main (bytes "program P begin write 5 end")) :=
  ⟨leading_minus_emits_nothing 3 (first_token (bytes "-5 ;")) none (.TOK_NUM, 5)
      [(.TOK_SEMICOLON, 0)] (by decide!) (by decide),
    by decide!, by decide!⟩

end Simpl
